import Mathlib

/-!
Shallow embedding of the resp3 Go package (RESP3 protocol reader and writer).

The byte stream is modelled as a list of bytes (natural numbers below 256 in
practice; the definitions work for any naturals).  Every consuming reader
operation takes the configured SingleReadSizeLimit (an Int, as in Go) and the
remaining stream, and returns a pair of the result (an Except over the error
taxonomy) and the remaining stream after the operation, mirroring the position
of the Go bufio.Reader after the call.  Writer operations return the bytes
written (sink errors are out of scope).  Machine integers (int64) are modelled
as Int with explicit wrap-around modulo 2^64 where Go arithmetic can overflow.
-/

namespace Resp3

/-- Value kinds, mirroring the Type constants of the Go package (each constant
is the single lead byte of the kind on the wire). -/
inductive RType : Type where
  | invalid
  | array
  | attribute
  | bigNumber
  | boolean
  | double
  | blobChunk
  | blobError
  | blobString
  | streamEnd
  | map
  | null
  | number
  | push
  | set
  | simpleError
  | simpleString
  | verbatimString
  deriving DecidableEq, Repr, Fintype

/-- Lead byte of each kind, mirroring the values of the Go Type constants. -/
def RType.byte : RType → Nat
  | .invalid => 0
  | .array => 42            -- '*'
  | .attribute => 124       -- '|'
  | .bigNumber => 40        -- '('
  | .boolean => 35          -- '#'
  | .double => 44           -- ','
  | .blobChunk => 59        -- ';'
  | .blobError => 33        -- '!'
  | .blobString => 36       -- '$'
  | .streamEnd => 46        -- '.'
  | .map => 37              -- '%'
  | .null => 95             -- '_'
  | .number => 58           -- ':'
  | .push => 62             -- '>'
  | .set => 126             -- '~'
  | .simpleError => 45      -- '-'
  | .simpleString => 43     -- '+'
  | .verbatimString => 61   -- '='

/-- The fixed lead-byte-to-kind table (the var types array in the Go source):
every byte that is not one of the seventeen lead bytes maps to the invalid
kind. -/
def typeOfByte : Nat → RType
  | 42 => .array
  | 124 => .attribute
  | 40 => .bigNumber
  | 35 => .boolean
  | 44 => .double
  | 59 => .blobChunk
  | 33 => .blobError
  | 36 => .blobString
  | 46 => .streamEnd
  | 37 => .map
  | 95 => .null
  | 58 => .number
  | 62 => .push
  | 126 => .set
  | 45 => .simpleError
  | 43 => .simpleString
  | 61 => .verbatimString
  | _ => .invalid

/-- Error taxonomy of the package.  Each constructor stands for one of the
exported sentinel errors (or io.EOF for a clean end of input); wrapping with
fmt.Errorf and a message keeps the base error for errors.Is, so only the base
identity is modelled. -/
inductive RespError : Type where
  | eof                              -- io.EOF / io.ErrUnexpectedEOF from the source
  | unexpectedEOL                    -- ErrUnexpectedEOL
  | unexpectedType                   -- ErrUnexpectedType
  | invalidType                      -- ErrInvalidType
  | invalidNumber                    -- ErrInvalidNumber
  | overflow                         -- ErrOverflow
  | invalidBlobLength                -- ErrInvalidBlobLength
  | singleReadSizeLimitExceeded      -- ErrSingleReadSizeLimitExceeded
  | invalidAggregateTypeLength       -- ErrInvalidAggregateTypeLength
  | invalidBigNumber                 -- ErrInvalidBigNumber
  | invalidBoolean                   -- ErrInvalidBoolean
  | invalidDouble                    -- ErrInvalidDouble
  | invalidSimpleValue               -- ErrInvalidSimpleValue
  | invalidVerbatimString            -- ErrInvalidVerbatimString
  deriving DecidableEq, Repr

/-- Model of the wrapEOF helper: io.EOF and io.ErrUnexpectedEOF are folded
into ErrUnexpectedEOL (with a message we do not track); other errors pass
through unchanged. -/
def wrapEOF : RespError → RespError
  | .eof => .unexpectedEOL
  | e => e

/-- DefaultSingleReadSizeLimit, 1 shl 25 = 32MiB. -/
def defaultSingleReadSizeLimit : Int := 33554432

/-- Model of Reader.checkReadSizeLimit: a limit of 0 means the default, a
positive limit smaller than n fails, a negative limit never fails. -/
def checkReadSizeLimit (lim : Int) (n : Int) : Except RespError Unit :=
  let l := if lim = 0 then defaultSingleReadSizeLimit else lim
  if 0 < l ∧ l < n then .error .singleReadSizeLimitExceeded else .ok ()

/-- Effective limit used by checkReadSizeLimit: zero selects the default. -/
def effLimit (lim : Int) : Int := if lim = 0 then defaultSingleReadSizeLimit else lim

namespace Reader

/-- Model of Reader.match: peeks one byte at a time and compares with the
literal; true exactly when the literal is available at the head of the
stream. -/
def matchBytes : List Nat → List Nat → Bool
  | [], _ => true
  | _ :: _, [] => false
  | c :: cs, x :: xs => x == c && matchBytes cs xs

/-- Model of Reader.consume: on a successful match the literal's bytes are
discarded; the Bool reports whether the literal was consumed. -/
def consume (lit l : List Nat) : Bool × List Nat :=
  if matchBytes lit l then (true, l.drop lit.length) else (false, l)

/-- Model of the private Reader.peek: looks at the next byte without consuming
it and classifies it via the type table. -/
def peek (l : List Nat) : Except RespError RType :=
  match l with
  | [] => .error .eof
  | b :: _ =>
    if typeOfByte b = .invalid then .error .invalidType else .ok (typeOfByte b)

/-- Model of Reader.readEOL: the next two bytes must be CR LF; a short or
mismatching stream is an unexpected-EOL error and consumes nothing. -/
def readEOL (l : List Nat) : Except RespError Unit × List Nat :=
  match l with
  | 13 :: 10 :: rest => (.ok (), rest)
  | _ => (.error .unexpectedEOL, l)

/-- Model of Reader.expect: peek the kind; a mismatch is an unexpected-type
error that consumes nothing; a match consumes exactly the one lead byte. -/
def expect (t : RType) (l : List Nat) : Except RespError Unit × List Nat :=
  match peek l with
  | .error e => (.error (wrapEOF e), l)
  | .ok g => if g = t then (.ok (), l.drop 1) else (.error .unexpectedType, l)

/-- Model of the public Reader.Peek, with the RESP2 legacy rule: an array or
blob string whose next bytes spell the literal -1 length field is re-reported
as null.  Peek only uses non-consuming primitives, so the stream is returned
unchanged on every path. -/
def Peek (l : List Nat) : Except RespError RType × List Nat :=
  match peek l with
  | .error e => (.error e, l)
  | .ok t =>
    if (t = .array ∨ t = .blobString) ∧ matchBytes [t.byte, 45, 49, 13, 10] l then
      (.ok .null, l)
    else
      (.ok t, l)

/-- Wrap-around of an Int into the signed 64-bit range, used to model Go int64
arithmetic where it can overflow. -/
def wrap64 (x : Int) : Int := (x + 9223372036854775808) % 18446744073709551616 - 9223372036854775808

/-- Model of the digit loop of Reader.readNumber.  Reads bytes one at a time:
a minus sign is only accepted at index 0, a digit is folded into the int64
accumulator with wrap-around and the overflow check of the source (the new
value being smaller than the previous one), CR or LF is unread and ends the
loop, anything else is unread and is an invalid-number error.  Returns the
accumulator, the sign, and the number of bytes read. -/
def readNumberLoop : List Nat → Nat → Int → Bool → Except RespError (Int × Bool × Nat) × List Nat
  | [], _, _, _ => (.error .unexpectedEOL, [])
  | b :: l, i, n, neg =>
    if b = 45 ∧ i = 0 then
      readNumberLoop l (i + 1) n true
    else if 48 ≤ b ∧ b ≤ 57 then
      let n1 := wrap64 (wrap64 (n * 10) + ((b : Int) - 48))
      if n1 < n then (.error .overflow, l)
      else readNumberLoop l (i + 1) n1 neg
    else if b = 13 ∨ b = 10 then
      (.ok (n, neg, i), b :: l)
    else
      (.error .invalidNumber, b :: l)

/-- Model of Reader.readNumber: the digit loop, then a CRLF terminator, then
the rejection of an empty value or a lone minus sign, then the sign is applied
(with int64 wrap-around, as in the source). -/
def readNumber (l : List Nat) : Except RespError Int × List Nat :=
  match readNumberLoop l 0 0 false with
  | (.error e, l1) => (.error e, l1)
  | (.ok (n, neg, i), l1) =>
    match readEOL l1 with
    | (.error e, l2) => (.error e, l2)
    | (.ok _, l2) =>
      if i < 1 ∨ (i = 1 ∧ neg) then (.error .unexpectedEOL, l2)
      else (.ok (if neg then wrap64 (-n) else n), l2)

/-- Buffer size of a bufio.Reader created by bufio.NewReader, which is what
Reader.Reset wraps a plain io.Reader in. -/
def bufioBufSize : Nat := 4096

/-- Model of one call of bufio.Reader.ReadSlice with delimiter LF: if an LF
occurs in the first bufioBufSize bytes the slice up to and including it is
returned (found), else if at least bufioBufSize bytes are available the full
buffer is returned with ErrBufferFull (full), else all remaining bytes are
consumed and io.EOF is reported. -/
inductive SliceRes : Type where
  | found (chunk rest : List Nat)
  | full (chunk rest : List Nat)
  | eofR
  deriving DecidableEq, Repr

/-- Index of the first LF byte, if any. -/
def findLF : List Nat → Option Nat
  | [] => none
  | b :: bs => if b = 10 then some 0 else (findLF bs).map (· + 1)

/-- ReadSlice for LF over the modelled stream. -/
def readSliceLF (l : List Nat) : SliceRes :=
  match findLF (l.take bufioBufSize) with
  | some k => .found (l.take (k + 1)) (l.drop (k + 1))
  | none =>
    if bufioBufSize ≤ l.length then .full (l.take bufioBufSize) (l.drop bufioBufSize)
    else .eofR

/-- Model of the loop of Reader.readLine.  slen is the length of the
destination at entry; on every chunk returned by ReadSlice the configured size
limit is checked against the bytes accumulated so far (excluding a
two-byte terminator) before the chunk is appended, so the limit check is
cumulative and fires before the line terminator is ever seen.  Once a chunk
ends in LF, the trailing two bytes must be CR LF, which are stripped. -/
def readLineLoop (lim : Int) (slen : Nat) (dst l : List Nat) : Except RespError (List Nat) × List Nat :=
  match hs : readSliceLF l with
  | .eofR => (.error .unexpectedEOL, [])
  | .found chunk rest =>
    match checkReadSizeLimit lim ((chunk.length : Int) - 2 + ((dst.length : Int) - (slen : Int))) with
    | .error e => (.error e, rest)
    | .ok _ =>
      let dst1 := dst ++ chunk
      if dst1.length < 2 then (.error .unexpectedEOL, rest)
      else if dst1.drop (dst1.length - 2) = [13, 10] then (.ok (dst1.take (dst1.length - 2)), rest)
      else (.error .unexpectedEOL, rest)
  | .full chunk rest =>
    match checkReadSizeLimit lim ((chunk.length : Int) - 2 + ((dst.length : Int) - (slen : Int))) with
    | .error e => (.error e, rest)
    | .ok _ => readLineLoop lim slen (dst ++ chunk) rest
termination_by l.length
decreasing_by
  simp only [readSliceLF] at hs
  split at hs
  · simp at hs
  · split at hs
    · rename_i hlen
      injection hs with h1 h2
      subst h2
      simp only [List.length_drop, bufioBufSize] at *
      omega
    · simp at hs

/-- Model of Reader.readLine: runs the ReadSlice loop appending to dst. -/
def readLine (lim : Int) (dst l : List Nat) : Except RespError (List Nat) × List Nat :=
  readLineLoop lim dst.length dst l

/-- Model of Reader.readBlobBody: checks the size limit, reads exactly n bytes
(a short stream is an unexpected-EOL error via wrapEOF, with the whole rest of
the stream consumed by io.ReadFull), then requires a CRLF terminator. -/
def readBlobBody (lim : Int) (dst : List Nat) (n : Nat) (l : List Nat) : Except RespError (List Nat) × List Nat :=
  match checkReadSizeLimit lim (n : Int) with
  | .error e => (.error e, l)
  | .ok _ =>
    if l.length < n then (.error .unexpectedEOL, [])
    else
      match readEOL (l.drop n) with
      | (.error e, l2) => (.error e, l2)
      | (.ok _, l2) => (.ok (dst ++ l.take n), l2)

/-- Model of Reader.readBlob: expect the kind byte, read the length, reject a
negative length, then read the body. -/
def readBlob (lim : Int) (t : RType) (dst : List Nat) (l : List Nat) : Except RespError (List Nat) × List Nat :=
  match expect t l with
  | (.error e, l1) => (.error e, l1)
  | (.ok _, l1) =>
    match readNumber l1 with
    | (.error e, l2) => (.error e, l2)
    | (.ok n, l2) =>
      if n < 0 then (.error .invalidBlobLength, l2)
      else readBlobBody lim dst n.toNat l2

/-- Model of Reader.readChunkableBlob: the literal streamed header consumes
four bytes and reports chunked; otherwise an ordinary blob is read. -/
def readChunkableBlob (lim : Int) (t : RType) (dst : List Nat) (l : List Nat) :
    Except RespError (List Nat × Bool) × List Nat :=
  let c := consume [t.byte, 63, 13, 10] l
  if c.1 then (.ok (dst, true), c.2)
  else
    match readBlob lim t dst l with
    | (.error e, l1) => (.error e, l1)
    | (.ok b, l1) => (.ok (b, false), l1)

/-- Model of Reader.readSimple: expect the kind byte then read one line. -/
def readSimple (lim : Int) (t : RType) (dst : List Nat) (l : List Nat) : Except RespError (List Nat) × List Nat :=
  match expect t l with
  | (.error e, l1) => (.error e, l1)
  | (.ok _, l1) => readLine lim dst l1

/-- Model of Reader.readAggregateHeader: the literal streamed header gives
count -1 and chunked true; otherwise the kind byte and a number are read, and
a negative count or an invalid-number failure is reported as an
invalid-aggregate-type-length error. -/
def readAggregateHeader (t : RType) (l : List Nat) : Except RespError (Int × Bool) × List Nat :=
  let c := consume [t.byte, 63, 13, 10] l
  if c.1 then (.ok (-1, true), c.2)
  else
    match expect t l with
    | (.error e, l1) => (.error e, l1)
    | (.ok _, l1) =>
      match readNumber l1 with
      | (.error e, l2) =>
        if e = .invalidNumber then (.error .invalidAggregateTypeLength, l2) else (.error e, l2)
      | (.ok n, l2) =>
        if n < 0 then (.error .invalidAggregateTypeLength, l2) else (.ok (n, false), l2)

/-- Model of Reader.ReadArrayHeader. -/
def ReadArrayHeader (l : List Nat) : Except RespError (Int × Bool) × List Nat :=
  readAggregateHeader .array l

/-- Model of Reader.ReadAttributeHeader. -/
def ReadAttributeHeader (l : List Nat) : Except RespError (Int × Bool) × List Nat :=
  readAggregateHeader .attribute l

/-- Model of Reader.ReadMapHeader. -/
def ReadMapHeader (l : List Nat) : Except RespError (Int × Bool) × List Nat :=
  readAggregateHeader .map l

/-- Model of Reader.ReadPushHeader. -/
def ReadPushHeader (l : List Nat) : Except RespError (Int × Bool) × List Nat :=
  readAggregateHeader .push l

/-- Model of Reader.ReadSetHeader. -/
def ReadSetHeader (l : List Nat) : Except RespError (Int × Bool) × List Nat :=
  readAggregateHeader .set l

/-- Numeric value of a list of ASCII digit bytes, most significant first. -/
def digitsValN (ds : List Nat) : Nat := ds.foldl (fun a b => a * 10 + (b - 48)) 0

/-- Model of math/big Int.SetString with base 10: an optional leading plus or
minus sign followed by at least one decimal digit (underscores are not allowed
when an explicit base is given). -/
def bigIntSetString10 (s : List Nat) : Option Int :=
  match s with
  | [] => none
  | c :: rest =>
    let neg : Bool := c = 45
    let ds := if c = 45 ∨ c = 43 then rest else s
    if ds = [] then none
    else if ds.all (fun b => 48 ≤ b ∧ b ≤ 57) then
      some (if neg then -(digitsValN ds : Int) else (digitsValN ds : Int))
    else none

/-- Model of Reader.ReadBigNumber: expect the kind byte, read one line, reject
an empty line, then parse with arbitrary precision. -/
def ReadBigNumber (lim : Int) (l : List Nat) : Except RespError Int × List Nat :=
  match expect .bigNumber l with
  | (.error e, l1) => (.error e, l1)
  | (.ok _, l1) =>
    match readLine lim [] l1 with
    | (.error e, l2) => (.error e, l2)
    | (.ok b, l2) =>
      if b = [] then (.error .unexpectedEOL, l2)
      else
        match bigIntSetString10 b with
        | none => (.error .invalidBigNumber, l2)
        | some z => (.ok z, l2)

/-- Model of Reader.ReadBoolean: expect the kind byte, read one line, which
must be exactly the single byte t or f. -/
def ReadBoolean (lim : Int) (l : List Nat) : Except RespError Bool × List Nat :=
  match expect .boolean l with
  | (.error e, l1) => (.error e, l1)
  | (.ok _, l1) =>
    match readLine lim [] l1 with
    | (.error e, l2) => (.error e, l2)
    | (.ok b, l2) =>
      if b = [] then (.error .unexpectedEOL, l2)
      else if b = [116] then (.ok true, l2)
      else if b = [102] then (.ok false, l2)
      else (.error .invalidBoolean, l2)

/-- Model of Reader.ReadEnd: expect the kind byte then a CRLF terminator. -/
def ReadEnd (l : List Nat) : Except RespError Unit × List Nat :=
  match expect .streamEnd l with
  | (.error e, l1) => (.error e, l1)
  | (.ok _, l1) => readEOL l1

/-- Model of Reader.ReadNull, with the RESP2 legacy rule: an array or blob
string whose next bytes spell the literal -1 length field is consumed as a
null value; otherwise the null kind byte and a CRLF terminator are read. -/
def ReadNull (l : List Nat) : Except RespError Unit × List Nat :=
  match peek l with
  | .error e => (.error (wrapEOF e), l)
  | .ok ty =>
    let c := consume [ty.byte, 45, 49, 13, 10] l
    if (ty = .array ∨ ty = .blobString) ∧ c.1 then (.ok (), c.2)
    else
      match expect .null l with
      | (.error e, l1) => (.error e, l1)
      | (.ok _, l1) => readEOL l1

/-- Model of Reader.ReadNumber: expect the kind byte then read a number. -/
def ReadNumber (l : List Nat) : Except RespError Int × List Nat :=
  match expect .number l with
  | (.error e, l1) => (.error e, l1)
  | (.ok _, l1) => readNumber l1

/-- Model of Reader.ReadBlobChunk: the literal terminal chunk header consumes
four bytes and reports last true; otherwise an ordinary blob chunk is read and
last is false. -/
def ReadBlobChunk (lim : Int) (dst : List Nat) (l : List Nat) :
    Except RespError (List Nat × Bool) × List Nat :=
  let c := consume [RType.byte .blobChunk, 48, 13, 10] l
  if c.1 then (.ok (dst, true), c.2)
  else
    match readBlob lim .blobChunk dst l with
    | (.error e, l1) => (.error e, l1)
    | (.ok b, l1) => (.ok (b, false), l1)

/-- Model of Reader.ReadBlobError. -/
def ReadBlobError (lim : Int) (dst : List Nat) (l : List Nat) :
    Except RespError (List Nat × Bool) × List Nat :=
  readChunkableBlob lim .blobError dst l

/-- Model of Reader.ReadBlobString. -/
def ReadBlobString (lim : Int) (dst : List Nat) (l : List Nat) :
    Except RespError (List Nat × Bool) × List Nat :=
  readChunkableBlob lim .blobString dst l

/-- Model of Reader.ReadSimpleError. -/
def ReadSimpleError (lim : Int) (dst : List Nat) (l : List Nat) : Except RespError (List Nat) × List Nat :=
  readSimple lim .simpleError dst l

/-- Model of Reader.ReadSimpleString. -/
def ReadSimpleString (lim : Int) (dst : List Nat) (l : List Nat) : Except RespError (List Nat) × List Nat :=
  readSimple lim .simpleString dst l

/-- Model of Reader.ReadVerbatimString: an ordinary blob of the verbatim kind
whose payload must be at least four bytes with a colon at offset three. -/
def ReadVerbatimString (lim : Int) (dst : List Nat) (l : List Nat) : Except RespError (List Nat) × List Nat :=
  match readBlob lim .verbatimString dst l with
  | (.error e, l1) => (.error e, l1)
  | (.ok b, l1) =>
    let bs := b.drop dst.length
    if bs.length < 4 ∨ bs.get? 3 ≠ some 58 then (.error .invalidVerbatimString, l1)
    else (.ok b, l1)

end Reader

/-- Lower-casing of an ASCII byte as done by strconv (setting bit 0x20);
digits and punctuation used here are unaffected. -/
def lowerByte (b : Nat) : Nat := b ||| 32

/-- Decimal digit test. -/
def isDigitB (b : Nat) : Bool := 48 ≤ b && b ≤ 57

/-- Acceptance of the special float forms of strconv.ParseFloat: inf and
infinity with an optional sign, and an unsigned nan, all case-insensitive,
and nothing may follow them. -/
def floatSpecialAccepts (s : List Nat) : Bool :=
  let low := s.map lowerByte
  low = [105, 110, 102] ∨ low = [105, 110, 102, 105, 110, 105, 116, 121] ∨
    low = [43, 105, 110, 102] ∨ low = [45, 105, 110, 102] ∨
    low = [43, 105, 110, 102, 105, 110, 105, 116, 121] ∨
    low = [45, 105, 110, 102, 105, 110, 105, 116, 121] ∨
    low = [110, 97, 110]

/-- Modelled from the Go standard library: the subset of decimal literals
accepted by strconv.ParseFloat that this embedding captures - an optional
sign, then decimal digits with at most one dot and at least one digit.  The
full strconv grammar additionally has exponents, hexadecimal floats and
underscores; those forms, and the ErrRange failure at the edge of the float64
range, are floating-point behaviour deliberately left out of the model, so the
digit counts are bounded here to keep every accepted literal safely inside the
float64 range (no ErrRange).  Theorems about doubles range over this subset. -/
def floatDecimalAccepts (s : List Nat) : Bool :=
  let s1 := match s with
    | c :: r => if c = 43 ∨ c = 45 then r else s
    | [] => s
  let intPart := s1.takeWhile isDigitB
  let r1 := s1.drop intPart.length
  match r1 with
  | [] => intPart.length != 0 && intPart.length ≤ 300
  | c :: r2 =>
    c = 46 && r2.all isDigitB && (intPart.length + r2.length != 0) &&
      intPart.length ≤ 300 && r2.length ≤ 300

/-- Model of a successful strconv.ParseFloat call (see the two acceptance
functions for the modelled subset). -/
def goParseFloatOk (s : List Nat) : Bool :=
  floatSpecialAccepts s || floatDecimalAccepts s

/-- Result of parsing a double.  Only the infinities have wire-exact forms in
the package's writer, so finite values (and NaN) just record the accepted
literal; their IEEE-754 value is not modelled. -/
inductive GoFloat : Type where
  | inf
  | negInf
  | finite (lit : List Nat)
  deriving DecidableEq, Repr

/-- Classification of an accepted float literal. -/
def classifyFloat (s : List Nat) : GoFloat :=
  let low := s.map lowerByte
  if low = [105, 110, 102] ∨ low = [43, 105, 110, 102] ∨
      low = [105, 110, 102, 105, 110, 105, 116, 121] ∨
      low = [43, 105, 110, 102, 105, 110, 105, 116, 121] then .inf
  else if low = [45, 105, 110, 102] ∨ low = [45, 105, 110, 102, 105, 110, 105, 116, 121] then .negInf
  else .finite s

namespace Reader

/-- Model of the private Reader.readDouble: read one line, reject an empty
line, then parse it as a float; a parse failure is an invalid-double error. -/
def readDouble (lim : Int) (l : List Nat) : Except RespError GoFloat × List Nat :=
  match readLine lim [] l with
  | (.error e, l1) => (.error e, l1)
  | (.ok b, l1) =>
    if b = [] then (.error .unexpectedEOL, l1)
    else if goParseFloatOk b then (.ok (classifyFloat b), l1)
    else (.error .invalidDouble, l1)

/-- Model of Reader.ReadDouble: expect the kind byte then read a double. -/
def ReadDouble (lim : Int) (l : List Nat) : Except RespError GoFloat × List Nat :=
  match expect .double l with
  | (.error e, l1) => (.error e, l1)
  | (.ok _, l1) => readDouble lim l1

end Reader

/-- Decimal digits of a natural number, most significant first (the digits of
zero are the single byte for the character zero), as produced by
strconv.AppendUint. -/
def natDigits (n : Nat) : List Nat :=
  if h : n < 10 then [n + 48]
  else natDigits (n / 10) ++ [n % 10 + 48]
decreasing_by exact Nat.div_lt_self (by omega) (by omega)

/-- Decimal representation of an integer, a minus sign followed by the digits
of the magnitude for negative values, as produced by strconv.AppendInt and by
the Append method of math/big Int (which never writes a plus sign). -/
def intDecimal (n : Int) : List Nat :=
  if n < 0 then 45 :: natDigits (-n).toNat else natDigits n.toNat

namespace Writer

/-- Model of Writer.writeNumber: the kind byte, the decimal count, CRLF. -/
def writeNumber (t : RType) (n : Int) : List Nat :=
  t.byte :: intDecimal n ++ [13, 10]

/-- Model of Writer.writeAggregateHeader of the current writer source: every
negative count is rejected; a non-negative count is written in decimal. -/
def writeAggregateHeader (t : RType) (n : Int) : Except RespError (List Nat) :=
  if n < 0 then .error .invalidAggregateTypeLength
  else .ok (writeNumber t n)

/-- Model of Writer.writeAggregateStreamHeader: the kind byte, a question
mark, CRLF. -/
def writeAggregateStreamHeader (t : RType) : List Nat :=
  [t.byte, 63, 13, 10]

/-- Model of Writer.writeBlobStreamHeader. -/
def writeBlobStreamHeader (t : RType) : List Nat :=
  [t.byte, 63, 13, 10]

/-- Model of Writer.writeBlob: the kind byte, the decimal length, CRLF, the
payload, CRLF. -/
def writeBlob (t : RType) (s : List Nat) : List Nat :=
  t.byte :: natDigits s.length ++ [13, 10] ++ s ++ [13, 10]

/-- Model of Writer.writeSimple: a payload containing CR or LF is rejected;
otherwise the kind byte, the payload, CRLF. -/
def writeSimple (t : RType) (s : List Nat) : Except RespError (List Nat) :=
  if s.any (fun b => b = 13 ∨ b = 10) then .error .invalidSimpleValue
  else .ok (t.byte :: s ++ [13, 10])

/-- Model of Writer.WriteArrayHeader. -/
def WriteArrayHeader (n : Int) : Except RespError (List Nat) :=
  writeAggregateHeader .array n

/-- Model of Writer.WriteArrayStreamHeader. -/
def WriteArrayStreamHeader : List Nat := writeAggregateStreamHeader .array

/-- Model of Writer.WriteAttributeHeader. -/
def WriteAttributeHeader (n : Int) : Except RespError (List Nat) :=
  writeAggregateHeader .attribute n

/-- Model of Writer.WriteAttributeStreamHeader. -/
def WriteAttributeStreamHeader : List Nat := writeAggregateStreamHeader .attribute

/-- Model of Writer.WriteMapHeader. -/
def WriteMapHeader (n : Int) : Except RespError (List Nat) :=
  writeAggregateHeader .map n

/-- Model of Writer.WriteMapStreamHeader. -/
def WriteMapStreamHeader : List Nat := writeAggregateStreamHeader .map

/-- Model of Writer.WritePushHeader. -/
def WritePushHeader (n : Int) : Except RespError (List Nat) :=
  writeAggregateHeader .push n

/-- Model of Writer.WritePushStreamHeader. -/
def WritePushStreamHeader : List Nat := writeAggregateStreamHeader .push

/-- Model of Writer.WriteSetHeader. -/
def WriteSetHeader (n : Int) : Except RespError (List Nat) :=
  writeAggregateHeader .set n

/-- Model of Writer.WriteSetStreamHeader. -/
def WriteSetStreamHeader : List Nat := writeAggregateStreamHeader .set

/-- Model of Writer.WriteBigNumber: the kind byte, the arbitrary-precision
decimal (math/big writes a minus sign for negatives and never a plus), CRLF. -/
def WriteBigNumber (n : Int) : List Nat :=
  RType.byte .bigNumber :: intDecimal n ++ [13, 10]

/-- Model of Writer.WriteBlobChunk: the empty chunk is the terminal literal,
everything else is an ordinary blob of the chunk kind. -/
def WriteBlobChunk (s : List Nat) : List Nat :=
  if s = [] then [59, 48, 13, 10] else writeBlob .blobChunk s

/-- Model of Writer.WriteBlobError. -/
def WriteBlobError (s : List Nat) : List Nat := writeBlob .blobError s

/-- Model of Writer.WriteBlobErrorStreamHeader. -/
def WriteBlobErrorStreamHeader : List Nat := writeBlobStreamHeader .blobError

/-- Model of Writer.WriteBlobString. -/
def WriteBlobString (s : List Nat) : List Nat := writeBlob .blobString s

/-- Model of Writer.WriteBlobStringStreamHeader. -/
def WriteBlobStringStreamHeader : List Nat := writeBlobStreamHeader .blobString

/-- Model of Writer.WriteBoolean: the literal hash-t-CRLF or hash-f-CRLF. -/
def WriteBoolean (b : Bool) : List Nat :=
  if b then [35, 116, 13, 10] else [35, 102, 13, 10]

/-- Model of Writer.WriteDouble on the values whose wire form the source
special-cases: positive infinity is the literal comma-inf-CRLF and negative
infinity comma-minus-inf-CRLF.  Finite values are formatted by
strconv.AppendFloat (IEEE-754 shortest decimal), which is floating-point
behaviour outside this integer embedding, so they are not modelled. -/
def WriteDouble : GoFloat → Option (List Nat)
  | .inf => some [44, 105, 110, 102, 13, 10]
  | .negInf => some [44, 45, 105, 110, 102, 13, 10]
  | .finite _ => none

/-- Model of Writer.WriteEnd. -/
def WriteEnd : List Nat := [46, 13, 10]

/-- Model of Writer.WriteNull. -/
def WriteNull : List Nat := [95, 13, 10]

/-- Model of Writer.WriteNumber. -/
def WriteNumber (n : Int) : List Nat := writeNumber .number n

/-- Model of Writer.WriteSimpleError. -/
def WriteSimpleError (s : List Nat) : Except RespError (List Nat) :=
  writeSimple .simpleError s

/-- Model of Writer.WriteSimpleString. -/
def WriteSimpleString (s : List Nat) : Except RespError (List Nat) :=
  writeSimple .simpleString s

/-- Model of Writer.WriteVerbatimString: a prefix whose length is not three is
rejected; otherwise the kind byte, the decimal length of prefix, colon and
body, CRLF, the prefix, a colon, the body, CRLF. -/
def WriteVerbatimString (p s : List Nat) : Except RespError (List Nat) :=
  if p.length ≠ 3 then .error .invalidVerbatimString
  else .ok (RType.byte .verbatimString :: natDigits (p.length + 1 + s.length) ++ [13, 10] ++ p ++ [58] ++ s ++ [13, 10])

end Writer

namespace Reader

mutual

/-- Fueled model of Reader.Discard.  The fuel argument is a modelling device
for Lean's termination checker only: out of fuel is the none result, and the
progress theorems below show that fuel exceeding the stream length can never
run out, which is exactly the no-spin property of the skip engine.  The body
mirrors the Go switch: Peek classifies the value (a top-level peek error
propagates unwrapped), aggregates read their header and, when nested, discard
either chunks until an End value or the counted elements (doubled for
attribute and map, with int64 wrap-around as in the source), blobs consume the
streamed marker or the whole body, a blob chunk at top level drains the chunk
sequence when nested, and all scalar kinds are fully decoded and dropped.  An
error from any sub-operation is wrapped by wrapEOF and aborts. -/
def discardF : Nat → Bool → Int → List Nat → Option (Except RespError RType × List Nat)
  | 0, _, _, _ => none
  | f + 1, nested, lim, l =>
    match (Peek l).1 with
    | .error e => some (.error e, l)
    | .ok t =>
      match t with
      | .array | .attribute | .map | .push | .set =>
        match readAggregateHeader t l with
        | (.error e, l1) => some (.error (wrapEOF e), l1)
        | (.ok (n, chunked), l1) =>
          if nested then
            if chunked then
              match discardChunksF f lim l1 with
              | none => none
              | some (.error e, l2) => some (.error (wrapEOF e), l2)
              | some (.ok _, l2) => some (.ok t, l2)
            else
              let n2 : Int := if t = .attribute ∨ t = .map then wrap64 (n * 2) else n
              match discardNF f n2.toNat lim l1 with
              | none => none
              | some (.error e, l2) => some (.error (wrapEOF e), l2)
              | some (.ok _, l2) => some (.ok t, l2)
          else some (.ok t, l1)
      | .blobError | .blobString =>
        let c := consume [t.byte, 63, 13, 10] l
        if c.1 then
          if nested then
            match readBlobChunksF f lim [] c.2 with
            | none => none
            | some (.error e, l2) => some (.error (wrapEOF e), l2)
            | some (.ok _, l2) => some (.ok t, l2)
          else some (.ok t, c.2)
        else
          match readBlob lim t [] l with
          | (.error e, l1) => some (.error (wrapEOF e), l1)
          | (.ok _, l1) => some (.ok t, l1)
      | .blobChunk =>
        if nested then
          match readBlobChunksF f lim [] l with
          | none => none
          | some (.error e, l2) => some (.error (wrapEOF e), l2)
          | some (.ok _, l2) => some (.ok t, l2)
        else
          match ReadBlobChunk lim [] l with
          | (.error e, l1) => some (.error (wrapEOF e), l1)
          | (.ok _, l1) => some (.ok t, l1)
      | .simpleError | .simpleString =>
        match readSimple lim t [] l with
        | (.error e, l1) => some (.error (wrapEOF e), l1)
        | (.ok _, l1) => some (.ok t, l1)
      | .bigNumber =>
        match ReadBigNumber lim l with
        | (.error e, l1) => some (.error (wrapEOF e), l1)
        | (.ok _, l1) => some (.ok t, l1)
      | .boolean =>
        match ReadBoolean lim l with
        | (.error e, l1) => some (.error (wrapEOF e), l1)
        | (.ok _, l1) => some (.ok t, l1)
      | .double =>
        match ReadDouble lim l with
        | (.error e, l1) => some (.error (wrapEOF e), l1)
        | (.ok _, l1) => some (.ok t, l1)
      | .streamEnd =>
        match ReadEnd l with
        | (.error e, l1) => some (.error (wrapEOF e), l1)
        | (.ok _, l1) => some (.ok t, l1)
      | .number =>
        match ReadNumber l with
        | (.error e, l1) => some (.error (wrapEOF e), l1)
        | (.ok _, l1) => some (.ok t, l1)
      | .null =>
        match ReadNull l with
        | (.error e, l1) => some (.error (wrapEOF e), l1)
        | (.ok _, l1) => some (.ok t, l1)
      | .verbatimString =>
        match ReadVerbatimString lim [] l with
        | (.error e, l1) => some (.error (wrapEOF e), l1)
        | (.ok _, l1) => some (.ok t, l1)
      | .invalid => some (.ok t, l)
termination_by f _ _ _ => (f, 0)

/-- Fueled model of Reader.discardAggregateChunks: discard values until an
End value is seen (or an error aborts the loop). -/
def discardChunksF : Nat → Int → List Nat → Option (Except RespError Unit × List Nat)
  | 0, _, _ => none
  | f + 1, lim, l =>
    match discardF (f + 1) true lim l with
    | none => none
    | some (.error e, l1) => some (.error e, l1)
    | some (.ok t, l1) =>
      if t = .streamEnd then some (.ok (), l1)
      else discardChunksF f lim l1
termination_by f _ _ => (f, 1)

/-- Fueled model of Reader.discardN: discard count values recursively (the
count is already clamped to zero for non-positive values by the caller). -/
def discardNF (f : Nat) : Nat → Int → List Nat → Option (Except RespError Unit × List Nat)
  | 0, _, l => some (.ok (), l)
  | k + 1, lim, l =>
    match discardF f true lim l with
    | none => none
    | some (.error e, l1) => some (.error e, l1)
    | some (.ok _, l1) => discardNF f k lim l1
termination_by k _ _ => (f, k + 2)

/-- Fueled model of Reader.ReadBlobChunks: read chunks, appending each body,
until the terminal chunk. -/
def readBlobChunksF : Nat → Int → List Nat → List Nat → Option (Except RespError (List Nat) × List Nat)
  | 0, _, _, _ => none
  | f + 1, lim, dst, l =>
    match ReadBlobChunk lim dst l with
    | (.error e, l1) => some (.error e, l1)
    | (.ok (b, last), l1) =>
      if last then some (.ok b, l1)
      else readBlobChunksF f lim b l1
termination_by f _ _ _ => (f, 1)

end

/-- Model of Reader.ReadBlobChunks via the fueled loop; the progress theorems
show the fuel bound below can never be exhausted. -/
def ReadBlobChunks (lim : Int) (dst : List Nat) (l : List Nat) : Except RespError (List Nat) × List Nat :=
  match readBlobChunksF (l.length + 1) lim dst l with
  | some r => r
  | none => (.error .unexpectedEOL, l)

/-- Model of Reader.Discard via the fueled engine; the progress theorems show
the fuel bound below can never be exhausted. -/
def Discard (nested : Bool) (lim : Int) (l : List Nat) : Except RespError RType × List Nat :=
  match discardF (l.length + 1) nested lim l with
  | some r => r
  | none => (.error .unexpectedEOL, l)

end Reader

/-! A syntactically valid wire value: the quantification domain of the
skip-engine exactness theorem. -/

/-- A wire value in canonical encoding: every kind of the protocol, with
arbitrary nesting, counted and streamed (chunked) aggregates, plain and
chunked blobs, and the legacy RESP2 null spellings. -/
inductive WireVal : Type where
  | blobString (body : List Nat)
  | blobError (body : List Nat)
  | verbatimString (pfx body : List Nat)
  | chunkedBlobString (chunks : List (List Nat))
  | chunkedBlobError (chunks : List (List Nat))
  | simpleString (body : List Nat)
  | simpleError (body : List Nat)
  | number (n : Int)
  | bigNumber (n : Int)
  | boolean (b : Bool)
  | dbl (lit : List Nat)
  | null
  | legacyNullArray
  | legacyNullBlob
  | arr (xs : List WireVal)
  | push (xs : List WireVal)
  | set (xs : List WireVal)
  | mp (ps : List (WireVal × WireVal))
  | att (ps : List (WireVal × WireVal))
  | streamArr (xs : List WireVal)
  | streamPush (xs : List WireVal)
  | streamSet (xs : List WireVal)
  | streamMp (xs : List WireVal)
  | streamAtt (xs : List WireVal)

/-- Concatenated encodings of blob chunks, each written as an ordinary blob
of the chunk kind (as Writer.WriteBlobChunk does for non-empty chunks). -/
def encChunks : List (List Nat) → List Nat
  | [] => []
  | c :: cs => Writer.writeBlob .blobChunk c ++ encChunks cs

/-- Validity of a chunk list: each chunk is non-empty (the empty chunk is
the terminal marker) with its length on the int64 wire. -/
def wfChunks (cs : List (List Nat)) : Bool :=
  cs.all (fun c => !c.isEmpty && decide ((c.length : Int) < 9223372036854775808))

mutual

/-- Canonical wire encoding of a value, built from the writer's byte-level
operations. -/
def WireVal.enc : WireVal → List Nat
  | .blobString body => Writer.writeBlob .blobString body
  | .blobError body => Writer.writeBlob .blobError body
  | .verbatimString pfx body =>
    RType.byte .verbatimString :: natDigits (pfx.length + 1 + body.length) ++ [13, 10] ++ pfx ++ [58] ++ body ++ [13, 10]
  | .chunkedBlobString chunks =>
    [RType.byte .blobString, 63, 13, 10] ++ encChunks chunks ++ [RType.byte .blobChunk, 48, 13, 10]
  | .chunkedBlobError chunks =>
    [RType.byte .blobError, 63, 13, 10] ++ encChunks chunks ++ [RType.byte .blobChunk, 48, 13, 10]
  | .simpleString body => RType.byte .simpleString :: body ++ [13, 10]
  | .simpleError body => RType.byte .simpleError :: body ++ [13, 10]
  | .number n => Writer.WriteNumber n
  | .bigNumber n => Writer.WriteBigNumber n
  | .boolean b => Writer.WriteBoolean b
  | .dbl lit => RType.byte .double :: lit ++ [13, 10]
  | .null => Writer.WriteNull
  | .legacyNullArray => [RType.byte .array, 45, 49, 13, 10]
  | .legacyNullBlob => [RType.byte .blobString, 45, 49, 13, 10]
  | .arr xs => Writer.writeNumber .array xs.length ++ encList xs
  | .push xs => Writer.writeNumber .push xs.length ++ encList xs
  | .set xs => Writer.writeNumber .set xs.length ++ encList xs
  | .mp ps => Writer.writeNumber .map ps.length ++ encPairs ps
  | .att ps => Writer.writeNumber .attribute ps.length ++ encPairs ps
  | .streamArr xs => [RType.byte .array, 63, 13, 10] ++ encList xs ++ [46, 13, 10]
  | .streamPush xs => [RType.byte .push, 63, 13, 10] ++ encList xs ++ [46, 13, 10]
  | .streamSet xs => [RType.byte .set, 63, 13, 10] ++ encList xs ++ [46, 13, 10]
  | .streamMp xs => [RType.byte .map, 63, 13, 10] ++ encList xs ++ [46, 13, 10]
  | .streamAtt xs => [RType.byte .attribute, 63, 13, 10] ++ encList xs ++ [46, 13, 10]

/-- Concatenated encodings of a list of values. -/
def encList : List WireVal → List Nat
  | [] => []
  | v :: vs => v.enc ++ encList vs

/-- Concatenated encodings of a list of key-value pairs. -/
def encPairs : List (WireVal × WireVal) → List Nat
  | [] => []
  | p :: ps => p.1.enc ++ p.2.enc ++ encPairs ps

end

mutual

/-- Validity of a wire value: count and payload bounds of the int64 wire
grammar, LF-freedom of line-oriented payloads, the three-byte verbatim
prefix, non-empty chunk bodies, an accepted parse for a double literal,
and validity of every nested element. -/
def WireVal.wf : WireVal → Bool
  | .blobString body => decide ((body.length : Int) < 9223372036854775808)
  | .blobError body => decide ((body.length : Int) < 9223372036854775808)
  | .verbatimString pfx body =>
    decide (pfx.length = 3) && decide (((pfx.length + 1 + body.length : Nat) : Int) < 9223372036854775808)
  | .chunkedBlobString chunks => wfChunks chunks
  | .chunkedBlobError chunks => wfChunks chunks
  | .simpleString body => body.all (fun b => b ≠ 10)
  | .simpleError body => body.all (fun b => b ≠ 10)
  | .number n => decide (-9223372036854775808 < n) && decide (n < 9223372036854775808)
  | .bigNumber _ => true
  | .boolean _ => true
  | .dbl lit => goParseFloatOk lit && lit.all (fun b => b ≠ 10)
  | .null => true
  | .legacyNullArray => true
  | .legacyNullBlob => true
  | .arr xs => decide ((xs.length : Int) < 9223372036854775808) && wfList xs
  | .push xs => decide ((xs.length : Int) < 9223372036854775808) && wfList xs
  | .set xs => decide ((xs.length : Int) < 9223372036854775808) && wfList xs
  | .mp ps => decide ((ps.length : Int) * 2 < 9223372036854775808) && wfPairs ps
  | .att ps => decide ((ps.length : Int) * 2 < 9223372036854775808) && wfPairs ps
  | .streamArr xs => wfList xs
  | .streamPush xs => wfList xs
  | .streamSet xs => wfList xs
  | .streamMp xs => wfList xs
  | .streamAtt xs => wfList xs

/-- Validity of a list of values. -/
def wfList : List WireVal → Bool
  | [] => true
  | v :: vs => v.wf && wfList vs

/-- Validity of a list of key-value pairs. -/
def wfPairs : List (WireVal × WireVal) → Bool
  | [] => true
  | p :: ps => p.1.wf && p.2.wf && wfPairs ps

end

/-- The kind the reader's Peek reports for a value: its lead kind, with the
legacy RESP2 null spellings reported as null. -/
def WireVal.kind : WireVal → RType
  | .blobString _ => .blobString
  | .blobError _ => .blobError
  | .verbatimString _ _ => .verbatimString
  | .chunkedBlobString _ => .blobString
  | .chunkedBlobError _ => .blobError
  | .simpleString _ => .simpleString
  | .simpleError _ => .simpleError
  | .number _ => .number
  | .bigNumber _ => .bigNumber
  | .boolean _ => .boolean
  | .dbl _ => .double
  | .null => .null
  | .legacyNullArray => .null
  | .legacyNullBlob => .null
  | .arr _ => .array
  | .push _ => .push
  | .set _ => .set
  | .mp _ => .map
  | .att _ => .attribute
  | .streamArr _ => .array
  | .streamPush _ => .push
  | .streamSet _ => .set
  | .streamMp _ => .map
  | .streamAtt _ => .attribute

/-- The values of a pair list, flattened in wire order. -/
def pairsFlat (ps : List (WireVal × WireVal)) : List WireVal :=
  ps.flatMap (fun p => [p.1, p.2])

/-! Basic lemmas about the primitives. -/

/-- The type table sends the lead byte of every non-invalid kind back to that
kind. -/
theorem typeOfByte_byte : ∀ t : RType, t ≠ .invalid → typeOfByte t.byte = t := by
  decide

/-- Lead bytes of non-invalid kinds are injective. -/
theorem byte_inj : ∀ s t : RType, s ≠ .invalid → t ≠ .invalid → s.byte = t.byte → s = t := by
  decide

namespace Reader

/-- Matching a literal against the literal followed by anything succeeds. -/
theorem matchBytes_append (lit r : List Nat) : matchBytes lit (lit ++ r) = true := by
  induction lit with
  | nil => rfl
  | cons c cs ih => simp [matchBytes, ih]

/-- A literal match forces the stream to start with the literal. -/
theorem matchBytes_eq_true_iff (lit l : List Nat) :
    matchBytes lit l = true ↔ ∃ r, l = lit ++ r := by
  induction lit generalizing l with
  | nil => simp [matchBytes]
  | cons c cs ih =>
    cases l with
    | nil => simp [matchBytes]
    | cons x xs =>
      simp only [matchBytes, Bool.and_eq_true, beq_iff_eq, ih, List.cons_append, List.cons.injEq]
      constructor
      · rintro ⟨rfl, r, rfl⟩; exact ⟨r, rfl, rfl⟩
      · rintro ⟨r, rfl, rfl⟩; exact ⟨rfl, r, rfl⟩

/-- Streams returned by readEOL never grow. -/
theorem readEOL_len (l : List Nat) : (readEOL l).2.length ≤ l.length := by
  unfold readEOL
  split <;> simp <;> omega

/-- On success readEOL consumed exactly the two terminator bytes. -/
theorem readEOL_ok {l l' : List Nat} (h : readEOL l = (.ok (), l')) :
    l = 13 :: 10 :: l' := by
  unfold readEOL at h
  split at h <;> simp_all

/-- Streams returned by expect never grow. -/
theorem expect_len (t : RType) (l : List Nat) : (expect t l).2.length ≤ l.length := by
  unfold expect
  split
  · simp
  · split <;> simp [List.length_drop]

/-- Any byte classified as a non-invalid kind is that kind's lead byte. -/
theorem typeOfByte_eq {b : Nat} {t : RType} (ht : t ≠ .invalid) (h : typeOfByte b = t) :
    b = t.byte := by
  unfold typeOfByte at h
  split at h <;> simp_all <;> subst h <;> rfl

/-- On success expect consumed exactly the one lead byte of the expected
kind. -/
theorem expect_ok {t : RType} {l l' : List Nat} (h : expect t l = (.ok (), l')) :
    l = t.byte :: l' ∧ t ≠ .invalid := by
  cases l with
  | nil => simp [expect, peek] at h
  | cons b bs =>
    simp only [expect, peek] at h
    by_cases hb : typeOfByte b = .invalid
    · simp [hb] at h
    · rw [if_neg hb] at h
      simp only at h
      by_cases hg : typeOfByte b = t
      · rw [if_pos hg] at h
        simp only [Prod.mk.injEq, List.drop_one, List.tail_cons] at h
        obtain ⟨-, rfl⟩ := h
        have : b = t.byte := typeOfByte_eq (hg ▸ hb) hg
        subst this
        exact ⟨rfl, hg ▸ hb⟩
      · rw [if_neg hg] at h
        simp at h

/-- Expecting a non-invalid kind at its own encoded lead byte succeeds and
consumes that byte. -/
theorem expect_cons_byte (t : RType) (ht : t ≠ .invalid) (r : List Nat) :
    expect t (t.byte :: r) = (.ok (), r) := by
  have h1 : typeOfByte t.byte = t := typeOfByte_byte t ht
  unfold expect peek
  simp [h1, ht]

/-- Streams returned by the digit loop never grow. -/
theorem readNumberLoop_len (l : List Nat) (i : Nat) (n : Int) (neg : Bool) :
    (readNumberLoop l i n neg).2.length ≤ l.length := by
  induction l generalizing i n neg with
  | nil => simp [readNumberLoop]
  | cons b bs ih =>
    unfold readNumberLoop
    split
    · exact le_trans (ih _ _ _) (by simp)
    · split
      · dsimp only
        split
        · simp
        · exact le_trans (ih _ _ _) (by simp)
      · split
        · simp
        · simp

/-- On success the digit loop consumed one byte per count of the index. -/
theorem readNumberLoop_ok_len {l l' : List Nat} {i i' : Nat} {n n' : Int} {neg neg' : Bool}
    (h : readNumberLoop l i n neg = (.ok (n', neg', i'), l')) :
    l.length + i = l'.length + i' ∧ i ≤ i' := by
  induction l generalizing i n neg with
  | nil => simp [readNumberLoop] at h
  | cons b bs ih =>
    unfold readNumberLoop at h
    split at h
    · obtain ⟨h1, h2⟩ := ih h
      simp only [List.length_cons]
      constructor <;> omega
    · split at h
      · dsimp only at h
        split at h
        · simp at h
        · obtain ⟨h1, h2⟩ := ih h
          simp only [List.length_cons]
          constructor <;> omega
      · split at h
        · simp only [Prod.mk.injEq, Except.ok.injEq] at h
          obtain ⟨⟨-, -, h3⟩, h4⟩ := h
          subst h3
          subst h4
          simp
        · simp at h

/-- Streams returned by readNumber never grow. -/
theorem readNumber_len (l : List Nat) : (readNumber l).2.length ≤ l.length := by
  unfold readNumber
  have h1 := readNumberLoop_len l 0 0 false
  split
  · rename_i e l1 h
    rw [h] at h1
    exact h1
  · rename_i n neg i l1 h
    rw [h] at h1
    simp only at h1
    have h2 := readEOL_len l1
    split
    · rename_i e' l2 h'
      rw [h'] at h2
      dsimp only
      dsimp only at h2
      omega
    · rename_i l2 h'
      rw [h'] at h2
      dsimp only at h2
      split <;> dsimp only <;> omega

/-- On success readNumber consumed at least three bytes (a digit or sign plus
the two terminator bytes). -/
theorem readNumber_ok_len {l l' : List Nat} {n : Int} (h : readNumber l = (.ok n, l')) :
    l'.length + 3 ≤ l.length := by
  unfold readNumber at h
  split at h
  · simp at h
  · rename_i m neg i l1 hloop
    obtain ⟨h1, h2⟩ := readNumberLoop_ok_len hloop
    split at h
    · simp at h
    · rename_i l2 heol
      have h3 := readEOL_ok heol
      split at h
      · simp at h
      · rename_i hi
        simp only [Prod.mk.injEq, Except.ok.injEq] at h
        obtain ⟨-, rfl⟩ := h
        subst h3
        simp only [List.length_cons] at h1
        omega

/-- Values already inside the signed 64-bit range are fixed by wrap64. -/
theorem wrap64_eq_self {x : Int} (h1 : -9223372036854775808 ≤ x) (h2 : x < 9223372036854775808) :
    wrap64 x = x := by
  unfold wrap64
  omega

/-- Folding decimal digits from an arbitrary accumulator. -/
theorem foldl_digits_eq (ds : List Nat) (a : Nat) :
    ds.foldl (fun x b => x * 10 + (b - 48)) a = a * 10 ^ ds.length + digitsValN ds := by
  induction ds generalizing a with
  | nil => simp [digitsValN]
  | cons d ds ih =>
    simp only [List.foldl_cons, List.length_cons, digitsValN]
    rw [ih, ih (0 * 10 + (d - 48))]
    ring

/-- The digit loop of readNumber, run over a list of decimal digit bytes whose
value keeps the int64 accumulator in range, folds exactly that value and stops
at the following CR or LF without consuming it. -/
theorem readNumberLoop_digits (ds : List Nat) (c : Nat) (r : List Nat) (i : Nat) (a : Int) (neg : Bool)
    (hds : ∀ b ∈ ds, 48 ≤ b ∧ b ≤ 57)
    (ha : 0 ≤ a)
    (hbound : a * 10 ^ ds.length + (digitsValN ds : Int) < 9223372036854775808)
    (hc : c = 13 ∨ c = 10) :
    readNumberLoop (ds ++ c :: r) i a neg =
      (.ok (a * 10 ^ ds.length + (digitsValN ds : Int), neg, i + ds.length), c :: r) := by
  induction ds generalizing i a with
  | nil =>
    unfold readNumberLoop
    have hc45 : ¬(c = 45 ∧ i = 0) := by omega
    have hcd : ¬(48 ≤ c ∧ c ≤ 57) := by omega
    simp [hc45, hcd, hc, digitsValN]
  | cons d ds ih =>
    have hd := hds d (by simp)
    have hds' : ∀ b ∈ ds, 48 ≤ b ∧ b ≤ 57 := fun b hb => hds b (by simp [hb])
    -- the true value after folding this digit
    have h48 : 48 ≤ d := hd.1
    have hvalN : digitsValN (d :: ds) = (d - 48) * 10 ^ ds.length + digitsValN ds := by
      have hu : digitsValN (d :: ds) = List.foldl (fun x b => x * 10 + (b - 48)) (0 * 10 + (d - 48)) ds := rfl
      rw [hu, foldl_digits_eq]
      simp
    have hval : (digitsValN (d :: ds) : Int) = ((d : Int) - 48) * 10 ^ ds.length + digitsValN ds := by
      rw [hvalN]
      push_cast [h48]
      ring
    have hvalnn : (0 : Int) ≤ (digitsValN ds : Int) := by positivity
    have hpow : (1 : Int) ≤ 10 ^ ds.length := one_le_pow₀ (by norm_num)
    have hd48 : (0 : Int) ≤ (d : Int) - 48 := by
      have : (48 : Int) ≤ (d : Int) := by exact_mod_cast hd.1
      omega
    -- bounds on the new accumulator
    have ha' : 0 ≤ a * 10 + ((d : Int) - 48) := by positivity
    have hstep : (a * 10 + ((d : Int) - 48)) * 10 ^ ds.length + (digitsValN ds : Int) =
        a * 10 ^ (d :: ds).length + (digitsValN (d :: ds) : Int) := by
      rw [hval]
      simp only [List.length_cons]
      ring
    have hbound' : (a * 10 + ((d : Int) - 48)) * 10 ^ ds.length + (digitsValN ds : Int) <
        9223372036854775808 := by rw [hstep]; exact hbound
    have hle : a * 10 + ((d : Int) - 48) ≤
        (a * 10 + ((d : Int) - 48)) * 10 ^ ds.length + (digitsValN ds : Int) := by
      nlinarith
    have hw1 : wrap64 (a * 10) = a * 10 := by
      apply wrap64_eq_self
      · omega
      · nlinarith
    have hw2 : wrap64 (a * 10 + ((d : Int) - 48)) = a * 10 + ((d : Int) - 48) := by
      apply wrap64_eq_self
      · omega
      · omega
    unfold readNumberLoop
    have h45 : ¬(d = 45 ∧ i = 0) := by omega
    simp only [List.cons_append, h45, if_false, hd.1, hd.2, and_self, if_true]
    rw [hw1, hw2]
    have hnlt : ¬(a * 10 + ((d : Int) - 48) < a) := by nlinarith
    rw [if_neg hnlt]
    rw [ih (i + 1) (a * 10 + ((d : Int) - 48)) hds' ha' hbound']
    rw [hstep]
    simp only [List.length_cons]
    have hidx : i + 1 + ds.length = i + (ds.length + 1) := by omega
    rw [hidx]

/-- readNumber on a nonempty CRLF-terminated digit string whose value is in
the int64 range returns exactly that value and consumes through the
terminator. -/
theorem readNumber_digits (ds rest : List Nat) (h1 : ds ≠ [])
    (h2 : ∀ b ∈ ds, 48 ≤ b ∧ b ≤ 57)
    (h3 : (digitsValN ds : Int) < 9223372036854775808) :
    readNumber (ds ++ 13 :: 10 :: rest) = (.ok (digitsValN ds), rest) := by
  unfold readNumber
  have hloop := readNumberLoop_digits ds 13 (10 :: rest) 0 0 false h2 le_rfl
    (by simpa using h3) (Or.inl rfl)
  rw [hloop]
  simp only [readEOL, Bool.false_eq_true, and_false, or_false]
  have hds0 : ds.length ≠ 0 := by simpa using h1
  rw [if_neg (by omega : ¬(0 + ds.length < 1))]
  simp

/-- readNumber on a minus sign followed by a nonempty CRLF-terminated digit
string whose value is in the int64 range returns the negated value. -/
theorem readNumber_neg_digits (ds rest : List Nat) (h1 : ds ≠ [])
    (h2 : ∀ b ∈ ds, 48 ≤ b ∧ b ≤ 57)
    (h3 : (digitsValN ds : Int) < 9223372036854775808) :
    readNumber (45 :: ds ++ 13 :: 10 :: rest) = (.ok (-(digitsValN ds : Int)), rest) := by
  unfold readNumber
  have hfirst : readNumberLoop ((45 : Nat) :: ds ++ 13 :: 10 :: rest) 0 0 false =
      readNumberLoop (ds ++ 13 :: 10 :: rest) 1 0 true := by
    rw [List.cons_append]
    conv_lhs => rw [readNumberLoop]
    simp
  rw [hfirst]
  have hloop := readNumberLoop_digits ds 13 (10 :: rest) 1 0 true h2 le_rfl
    (by simpa using h3) (Or.inl rfl)
  rw [hloop]
  simp only [readEOL, eq_self_iff_true, and_true, if_true, zero_mul, zero_add]
  have hds0 : ds.length ≠ 0 := by simpa using h1
  rw [if_neg (by omega : ¬(1 + ds.length < 1 ∨ 1 + ds.length = 1))]
  have h0 : (0 : Int) ≤ (digitsValN ds : Int) := by positivity
  have hwv : wrap64 (-(digitsValN ds : Int)) = -(digitsValN ds : Int) :=
    wrap64_eq_self (by omega) (by omega)
  simp [hwv]

end Reader

/-- Characterization of checkReadSizeLimit through the effective limit. -/
theorem checkReadSizeLimit_spec (lim n : Int) :
    checkReadSizeLimit lim n =
      if 0 < effLimit lim ∧ effLimit lim < n then .error .singleReadSizeLimitExceeded else .ok () := by
  unfold checkReadSizeLimit effLimit
  rfl

/-- A negative limit never fails a size check. -/
theorem checkReadSizeLimit_neg {lim : Int} (h : lim < 0) (n : Int) :
    checkReadSizeLimit lim n = .ok () := by
  rw [checkReadSizeLimit_spec]
  have he : effLimit lim = lim := by
    unfold effLimit
    rw [if_neg (by omega)]
  rw [he, if_neg (by omega)]

/-- Size checks are monotone: passing at a larger size passes at any smaller
size. -/
theorem checkReadSizeLimit_mono {lim n : Int} (h : checkReadSizeLimit lim n = .ok ())
    {m : Int} (hm : m ≤ n) : checkReadSizeLimit lim m = .ok () := by
  rw [checkReadSizeLimit_spec] at h ⊢
  by_cases hc : 0 < effLimit lim ∧ effLimit lim < n
  · rw [if_pos hc] at h
    exact absurd h (by simp)
  · rw [if_neg (by omega)]

namespace Reader

/-- A list without LF has no LF index. -/
theorem findLF_none {p : List Nat} (hp : ∀ b ∈ p, b ≠ 10) : findLF p = none := by
  induction p with
  | nil => rfl
  | cons b bs ih =>
    have hb := hp b (by simp)
    unfold findLF
    rw [if_neg hb, ih (fun x hx => hp x (by simp [hx]))]
    rfl

/-- The first LF after an LF-free prefix is at the prefix's length. -/
theorem findLF_after {p : List Nat} (hp : ∀ b ∈ p, b ≠ 10) (r : List Nat) :
    findLF (p ++ 10 :: r) = some p.length := by
  induction p with
  | nil => simp [findLF]
  | cons b bs ih =>
    have hb := hp b (by simp)
    rw [List.cons_append]
    unfold findLF
    rw [if_neg hb, ih (fun x hx => hp x (by simp [hx]))]
    rfl

/-- ReadSlice finds the LF right after an LF-free prefix short enough to fit
the buffer. -/
theorem readSliceLF_found {p : List Nat} (hp : ∀ b ∈ p, b ≠ 10)
    (hlen : p.length < bufioBufSize) (r : List Nat) :
    readSliceLF (p ++ 10 :: r) = .found (p ++ [10]) r := by
  have htake : (p ++ 10 :: r).take bufioBufSize = p ++ 10 :: r.take (bufioBufSize - p.length - 1) := by
    rw [List.take_append_eq_append_take]
    rw [List.take_of_length_le (by omega)]
    congr 1
    have h1 : bufioBufSize - p.length = (bufioBufSize - p.length - 1) + 1 := by omega
    rw [h1]
    rfl
  have ht2 : (p ++ 10 :: r).take (p.length + 1) = p ++ [10] := by
    rw [List.take_append_eq_append_take]
    rw [List.take_of_length_le (by omega)]
    have h1 : p.length + 1 - p.length = 1 := by omega
    rw [h1]
    rfl
  have hd2 : (p ++ 10 :: r).drop (p.length + 1) = r := by
    rw [List.drop_append_eq_append_drop]
    rw [List.drop_of_length_le (by omega)]
    have h1 : p.length + 1 - p.length = 1 := by omega
    rw [h1]
    rfl
  unfold readSliceLF
  rw [htake, findLF_after hp]
  simp only [ht2, hd2]

/-- ReadSlice returns a full LF-free buffer when enough input is available. -/
theorem readSliceLF_full {l : List Nat} (hp : ∀ b ∈ l.take bufioBufSize, b ≠ 10)
    (hlen : bufioBufSize ≤ l.length) :
    readSliceLF l = .full (l.take bufioBufSize) (l.drop bufioBufSize) := by
  unfold readSliceLF
  rw [findLF_none hp]
  rw [if_pos hlen]

/-- ReadSlice reports EOF on a short LF-free stream. -/
theorem readSliceLF_eof {l : List Nat} (hp : ∀ b ∈ l, b ≠ 10)
    (hlen : l.length < bufioBufSize) :
    readSliceLF l = .eofR := by
  unfold readSliceLF
  rw [List.take_of_length_le (by omega)]
  rw [findLF_none hp]
  rw [if_neg (by omega)]


/-- Unfolding of the readLine loop in the found case of ReadSlice. -/
theorem readLineLoop_found {lim : Int} {slen : Nat} {dst l chunk rest : List Nat}
    (h : readSliceLF l = .found chunk rest) :
    readLineLoop lim slen dst l =
      match checkReadSizeLimit lim ((chunk.length : Int) - 2 + ((dst.length : Int) - (slen : Int))) with
      | .error e => (.error e, rest)
      | .ok _ =>
        if (dst ++ chunk).length < 2 then (.error .unexpectedEOL, rest)
        else if (dst ++ chunk).drop ((dst ++ chunk).length - 2) = [13, 10] then
          (.ok ((dst ++ chunk).take ((dst ++ chunk).length - 2)), rest)
        else (.error .unexpectedEOL, rest) := by
  rw [readLineLoop]
  split
  · rename_i heq
    rw [h] at heq
    cases heq
  · rename_i c r heq
    rw [h] at heq
    injection heq with h1 h2
    subst h1
    subst h2
    rfl
  · rename_i c r heq
    rw [h] at heq
    cases heq

/-- Unfolding of the readLine loop in the buffer-full case of ReadSlice. -/
theorem readLineLoop_full {lim : Int} {slen : Nat} {dst l chunk rest : List Nat}
    (h : readSliceLF l = .full chunk rest) :
    readLineLoop lim slen dst l =
      match checkReadSizeLimit lim ((chunk.length : Int) - 2 + ((dst.length : Int) - (slen : Int))) with
      | .error e => (.error e, rest)
      | .ok _ => readLineLoop lim slen (dst ++ chunk) rest := by
  rw [readLineLoop]
  split
  · rename_i heq
    rw [h] at heq
    cases heq
  · rename_i c r heq
    rw [h] at heq
    cases heq
  · rename_i c r heq
    rw [h] at heq
    injection heq with h1 h2
    subst h1
    subst h2
    rfl

/-- Unfolding of the readLine loop in the EOF case of ReadSlice. -/
theorem readLineLoop_eof {lim : Int} {slen : Nat} {dst l : List Nat}
    (h : readSliceLF l = .eofR) :
    readLineLoop lim slen dst l = (.error .unexpectedEOL, []) := by
  rw [readLineLoop]
  split
  · rfl
  · rename_i c r heq
    rw [h] at heq
    cases heq
  · rename_i c r heq
    rw [h] at heq
    cases heq

/-- Found case with a passing size check. -/
theorem readLineLoop_found_ok {lim : Int} {slen : Nat} {dst l chunk rest : List Nat}
    (h : readSliceLF l = .found chunk rest)
    (hc : checkReadSizeLimit lim ((chunk.length : Int) - 2 + ((dst.length : Int) - (slen : Int))) = .ok ()) :
    readLineLoop lim slen dst l =
      if (dst ++ chunk).length < 2 then (.error .unexpectedEOL, rest)
      else if (dst ++ chunk).drop ((dst ++ chunk).length - 2) = [13, 10] then
        (.ok ((dst ++ chunk).take ((dst ++ chunk).length - 2)), rest)
      else (.error .unexpectedEOL, rest) := by
  rw [readLineLoop_found h, hc]

/-- Found case with a failing size check. -/
theorem readLineLoop_found_err {lim : Int} {slen : Nat} {dst l chunk rest : List Nat} {e : RespError}
    (h : readSliceLF l = .found chunk rest)
    (hc : checkReadSizeLimit lim ((chunk.length : Int) - 2 + ((dst.length : Int) - (slen : Int))) = .error e) :
    readLineLoop lim slen dst l = (.error e, rest) := by
  rw [readLineLoop_found h, hc]

/-- Full-buffer case with a passing size check. -/
theorem readLineLoop_full_ok {lim : Int} {slen : Nat} {dst l chunk rest : List Nat}
    (h : readSliceLF l = .full chunk rest)
    (hc : checkReadSizeLimit lim ((chunk.length : Int) - 2 + ((dst.length : Int) - (slen : Int))) = .ok ()) :
    readLineLoop lim slen dst l = readLineLoop lim slen (dst ++ chunk) rest := by
  rw [readLineLoop_full h, hc]

/-- Full-buffer case with a failing size check. -/
theorem readLineLoop_full_err {lim : Int} {slen : Nat} {dst l chunk rest : List Nat} {e : RespError}
    (h : readSliceLF l = .full chunk rest)
    (hc : checkReadSizeLimit lim ((chunk.length : Int) - 2 + ((dst.length : Int) - (slen : Int))) = .error e) :
    readLineLoop lim slen dst l = (.error e, rest) := by
  rw [readLineLoop_full h, hc]

/-- ReadSlice on a short LF-free line with its CRLF terminator: one chunk. -/
theorem readSlice_line_small {line : List Nat} (rest : List Nat)
    (hLF : ∀ b ∈ line, b ≠ 10) (hsmall : line.length + 2 ≤ bufioBufSize) :
    readSliceLF (line ++ 13 :: 10 :: rest) = .found (line ++ [13, 10]) rest := by
  have h1 : (line ++ [13]) ++ 10 :: rest = line ++ 13 :: 10 :: rest := by simp
  have h2 := readSliceLF_found (p := line ++ [13])
    (by intro b hb
        rcases List.mem_append.1 hb with h | h
        · exact hLF b h
        · simp at h; omega)
    (by simp only [List.length_append, List.length_cons, List.length_nil]; omega) rest
  rw [h1] at h2
  rw [h2]
  simp

/-- ReadSlice when the CR lands exactly at the end of the buffer. -/
theorem readSlice_line_cr {line : List Nat} (rest : List Nat)
    (hLF : ∀ b ∈ line, b ≠ 10) (hcr : line.length + 1 = bufioBufSize) :
    readSliceLF (line ++ 13 :: 10 :: rest) = .full (line ++ [13]) (10 :: rest) := by
  have h1 := readSliceLF_full (l := line ++ 13 :: 10 :: rest)
    (by intro b hb
        rw [List.take_append_eq_append_take, List.take_of_length_le (by omega)] at hb
        rcases List.mem_append.1 hb with h | h
        · exact hLF b h
        · have h2 : bufioBufSize - line.length = 1 := by omega
          rw [h2] at h
          simp at h
          omega)
    (by simp; omega)
  rw [h1]
  have ht : (line ++ 13 :: 10 :: rest).take bufioBufSize = line ++ [13] := by
    rw [List.take_append_eq_append_take, List.take_of_length_le (by omega)]
    have h2 : bufioBufSize - line.length = 1 := by omega
    rw [h2]
    rfl
  have hd : (line ++ 13 :: 10 :: rest).drop bufioBufSize = 10 :: rest := by
    rw [List.drop_append_eq_append_drop, List.drop_of_length_le (by omega)]
    have h2 : bufioBufSize - line.length = 1 := by omega
    rw [h2]
    rfl
  rw [ht, hd]

/-- ReadSlice on a line longer than the buffer: a full LF-free buffer. -/
theorem readSlice_line_big {line : List Nat} (rest : List Nat)
    (hLF : ∀ b ∈ line, b ≠ 10) (hbig : bufioBufSize ≤ line.length) :
    readSliceLF (line ++ 13 :: 10 :: rest) =
      .full (line.take bufioBufSize) (line.drop bufioBufSize ++ 13 :: 10 :: rest) := by
  have h1 := readSliceLF_full (l := line ++ 13 :: 10 :: rest)
    (by intro b hb
        rw [List.take_append_eq_append_take] at hb
        have h2 : bufioBufSize - line.length = 0 := by omega
        rw [h2] at hb
        simp only [List.take_zero, List.append_nil] at hb
        exact hLF b (List.mem_of_mem_take hb))
    (by simp; omega)
  rw [h1]
  have ht : (line ++ 13 :: 10 :: rest).take bufioBufSize = line.take bufioBufSize := by
    rw [List.take_append_eq_append_take]
    have h2 : bufioBufSize - line.length = 0 := by omega
    rw [h2]
    simp
  have hd : (line ++ 13 :: 10 :: rest).drop bufioBufSize =
      line.drop bufioBufSize ++ 13 :: 10 :: rest := by
    rw [List.drop_append_eq_append_drop]
    have h2 : bufioBufSize - line.length = 0 := by omega
    rw [h2]
    simp
  rw [ht, hd]

/-- The readLine loop on an LF-free line followed by CRLF: if the cumulative
size check passes at the full line length, the loop consumes through the
terminator and returns the accumulated destination with the line appended,
leaving the rest of the stream untouched.  The induction follows the
ReadSlice chunking of the buffered reader. -/
theorem readLineLoop_ok : ∀ (n : Nat) (lim : Int) (slen : Nat) (dst line rest : List Nat),
    line.length ≤ n → (∀ b ∈ line, b ≠ 10) → slen ≤ dst.length →
    checkReadSizeLimit lim (((dst.length : Int) - slen) + line.length) = .ok () →
    readLineLoop lim slen dst (line ++ 13 :: 10 :: rest) = (.ok (dst ++ line), rest) := by
  intro n
  induction n using Nat.strong_induction_on with
  | _ n ih =>
    intro lim slen dst line rest hn hLF hslen hchk
    by_cases hsmall : line.length + 2 ≤ bufioBufSize
    · -- the whole line and terminator fit in one chunk
      have hfound := readSlice_line_small rest hLF hsmall
      have hchk1 : checkReadSizeLimit lim
          (((line ++ [13, 10]).length : Int) - 2 + ((dst.length : Int) - (slen : Int))) = .ok () := by
        apply checkReadSizeLimit_mono hchk
        simp only [List.length_append, List.length_cons, List.length_nil]
        push_cast
        omega
      rw [readLineLoop_found_ok hfound hchk1]
      have hdst1 : dst ++ (line ++ [13, 10]) = (dst ++ line) ++ [13, 10] :=
        (List.append_assoc dst line [13, 10]).symm
      rw [hdst1]
      have hlen1 : ((dst ++ line) ++ [13, 10]).length = (dst ++ line).length + 2 := by
        simp only [List.length_append, List.length_cons, List.length_nil]
      rw [hlen1]
      rw [if_neg (show ¬((dst ++ line).length + 2 < 2) by omega)]
      have h2 : (dst ++ line).length + 2 - 2 = (dst ++ line).length := by omega
      rw [h2]
      rw [if_pos (List.drop_left (dst ++ line) [13, 10])]
      rw [List.take_left]
    · by_cases hcr : line.length + 1 = bufioBufSize
      · -- the CR lands at the end of the buffer; the LF arrives alone next
        have hfull := readSlice_line_cr rest hLF hcr
        have hchk1 : checkReadSizeLimit lim
            (((line ++ [13]).length : Int) - 2 + ((dst.length : Int) - (slen : Int))) = .ok () := by
          apply checkReadSizeLimit_mono hchk
          simp only [List.length_append, List.length_cons, List.length_nil]
          push_cast
          omega
        rw [readLineLoop_full_ok hfull hchk1]
        -- second round: a lone LF chunk
        have hfound2 : readSliceLF (10 :: rest) = .found [10] rest := by
          have h2 := readSliceLF_found (p := []) (by simp) (by simp [bufioBufSize]) rest
          simpa using h2
        have hchk2 : checkReadSizeLimit lim
            ((([10] : List Nat).length : Int) - 2 + (((dst ++ (line ++ [13])).length : Int) - (slen : Int))) = .ok () := by
          apply checkReadSizeLimit_mono hchk
          simp only [List.length_append, List.length_cons, List.length_nil]
          push_cast
          omega
        rw [readLineLoop_found_ok hfound2 hchk2]
        have hdst1 : (dst ++ (line ++ [13])) ++ [10] = (dst ++ line) ++ [13, 10] := by
          simp only [List.append_assoc, List.cons_append, List.nil_append]
        rw [hdst1]
        have hlen1 : ((dst ++ line) ++ [13, 10]).length = (dst ++ line).length + 2 := by
          simp only [List.length_append, List.length_cons, List.length_nil]
        rw [hlen1]
        rw [if_neg (show ¬((dst ++ line).length + 2 < 2) by omega)]
        have h2 : (dst ++ line).length + 2 - 2 = (dst ++ line).length := by omega
        rw [h2]
        rw [if_pos (List.drop_left (dst ++ line) [13, 10])]
        rw [List.take_left]
      · -- a full buffer of line bytes, then recurse on the rest of the line
        have hbig : bufioBufSize ≤ line.length := by omega
        have hfull := readSlice_line_big rest hLF hbig
        have hchk1 : checkReadSizeLimit lim
            (((line.take bufioBufSize).length : Int) - 2 + ((dst.length : Int) - (slen : Int))) = .ok () := by
          apply checkReadSizeLimit_mono hchk
          simp only [List.length_take]
          push_cast
          omega
        rw [readLineLoop_full_ok hfull hchk1]
        have hrec := ih (n - bufioBufSize) (by unfold bufioBufSize at *; omega)
          lim slen (dst ++ line.take bufioBufSize) (line.drop bufioBufSize) rest
          (by simp only [List.length_drop]; omega)
          (fun b hb => hLF b (List.mem_of_mem_drop hb))
          (by simp only [List.length_append]; omega)
          (by apply checkReadSizeLimit_mono hchk
              simp only [List.length_append, List.length_take, List.length_drop]
              push_cast
              omega)
        rw [hrec]
        simp

/-- The readLine loop on an LF-free line followed by CRLF whose content
exceeds a positive effective limit fails with the size-limit error; the
cumulative check fires at some chunk (possibly before the terminator). -/
theorem readLineLoop_limit_err : ∀ (n : Nat) (lim : Int) (slen : Nat) (dst line rest : List Nat),
    line.length ≤ n → (∀ b ∈ line, b ≠ 10) → slen ≤ dst.length →
    0 < effLimit lim → effLimit lim < ((dst.length : Int) - slen) + line.length →
    ∃ l', readLineLoop lim slen dst (line ++ 13 :: 10 :: rest) =
      (.error .singleReadSizeLimitExceeded, l') := by
  intro n
  induction n using Nat.strong_induction_on with
  | _ n ih =>
    intro lim slen dst line rest hn hLF hslen hpos hlt
    by_cases hsmall : line.length + 2 ≤ bufioBufSize
    · have hfound := readSlice_line_small rest hLF hsmall
      have hchk : checkReadSizeLimit lim
          (((line ++ [13, 10]).length : Int) - 2 + ((dst.length : Int) - (slen : Int))) =
          .error .singleReadSizeLimitExceeded := by
        rw [checkReadSizeLimit_spec]
        rw [if_pos]
        refine ⟨hpos, ?_⟩
        simp only [List.length_append, List.length_cons, List.length_nil]
        push_cast
        omega
      exact ⟨rest, readLineLoop_found_err hfound hchk⟩
    · by_cases hcr : line.length + 1 = bufioBufSize
      · have hfull := readSlice_line_cr rest hLF hcr
        by_cases hfirst : effLimit lim < ((line ++ [13]).length : Int) - 2 + ((dst.length : Int) - (slen : Int))
        · have hchk : checkReadSizeLimit lim
              (((line ++ [13]).length : Int) - 2 + ((dst.length : Int) - (slen : Int))) =
              .error .singleReadSizeLimitExceeded := by
            rw [checkReadSizeLimit_spec, if_pos ⟨hpos, hfirst⟩]
          exact ⟨10 :: rest, readLineLoop_full_err hfull hchk⟩
        · have hchk : checkReadSizeLimit lim
              (((line ++ [13]).length : Int) - 2 + ((dst.length : Int) - (slen : Int))) = .ok () := by
            rw [checkReadSizeLimit_spec, if_neg (by omega)]
          rw [readLineLoop_full_ok hfull hchk]
          have hfound2 : readSliceLF ((10 : Nat) :: rest) = .found [10] rest := by
            have h2 := readSliceLF_found (p := []) (by simp) (by simp [bufioBufSize]) rest
            simpa using h2
          have hchk2 : checkReadSizeLimit lim
              ((([10] : List Nat).length : Int) - 2 + (((dst ++ (line ++ [13])).length : Int) - (slen : Int))) =
              .error .singleReadSizeLimitExceeded := by
            rw [checkReadSizeLimit_spec]
            rw [if_pos]
            refine ⟨hpos, ?_⟩
            simp only [List.length_append, List.length_cons, List.length_nil]
            push_cast
            omega
          exact ⟨rest, readLineLoop_found_err hfound2 hchk2⟩
      · have hbig : bufioBufSize ≤ line.length := by omega
        have hfull := readSlice_line_big rest hLF hbig
        by_cases hfirst : effLimit lim < ((line.take bufioBufSize).length : Int) - 2 + ((dst.length : Int) - (slen : Int))
        · have hchk : checkReadSizeLimit lim
              (((line.take bufioBufSize).length : Int) - 2 + ((dst.length : Int) - (slen : Int))) =
              .error .singleReadSizeLimitExceeded := by
            rw [checkReadSizeLimit_spec, if_pos ⟨hpos, hfirst⟩]
          exact ⟨line.drop bufioBufSize ++ 13 :: 10 :: rest, readLineLoop_full_err hfull hchk⟩
        · have hchk : checkReadSizeLimit lim
              (((line.take bufioBufSize).length : Int) - 2 + ((dst.length : Int) - (slen : Int))) = .ok () := by
            rw [checkReadSizeLimit_spec, if_neg (by omega)]
          rw [readLineLoop_full_ok hfull hchk]
          exact ih (n - bufioBufSize) (by unfold bufioBufSize at *; omega)
            lim slen (dst ++ line.take bufioBufSize) (line.drop bufioBufSize) rest
            (by simp only [List.length_drop]; omega)
            (fun b hb => hLF b (List.mem_of_mem_drop hb))
            (by simp only [List.length_append]; omega)
            hpos
            (by simp only [List.length_append, List.length_take, List.length_drop]
                push_cast
                omega)

/-- Model of Reader.readLine applied to an LF-free line with its terminator:
success when the content passes the size check at its full length. -/
theorem readLine_ok {lim : Int} {dst line rest : List Nat}
    (hLF : ∀ b ∈ line, b ≠ 10)
    (hchk : checkReadSizeLimit lim (line.length : Int) = .ok ()) :
    readLine lim dst (line ++ 13 :: 10 :: rest) = (.ok (dst ++ line), rest) := by
  unfold readLine
  apply readLineLoop_ok line.length lim dst.length dst line rest le_rfl hLF le_rfl
  have h1 : ((dst.length : Int) - dst.length) + line.length = (line.length : Int) := by ring
  rw [h1]
  exact hchk

/-- Model of Reader.readLine on an over-limit LF-free line: the size-limit
error fires. -/
theorem readLine_limit_err {lim : Int} {dst line rest : List Nat}
    (hLF : ∀ b ∈ line, b ≠ 10)
    (hpos : 0 < effLimit lim) (hlt : effLimit lim < (line.length : Int)) :
    ∃ l', readLine lim dst (line ++ 13 :: 10 :: rest) =
      (.error .singleReadSizeLimitExceeded, l') := by
  unfold readLine
  apply readLineLoop_limit_err line.length lim dst.length dst line rest le_rfl hLF le_rfl hpos
  omega


/-! Lemmas about decimal rendering. -/

/-- The digits produced by natDigits are decimal digit bytes. -/
theorem natDigits_digits (n : Nat) : ∀ b ∈ natDigits n, 48 ≤ b ∧ b ≤ 57 := by
  induction n using Nat.strong_induction_on with
  | _ n ih =>
    intro b hb
    unfold natDigits at hb
    split at hb
    · rename_i h
      simp at hb
      omega
    · rename_i h
      rcases List.mem_append.1 hb with h1 | h1
      · exact ih (n / 10) (Nat.div_lt_self (by omega) (by omega)) b h1
      · simp at h1
        have := Nat.mod_lt n (y := 10) (by omega)
        omega

/-- natDigits is never empty. -/
theorem natDigits_ne_nil (n : Nat) : natDigits n ≠ [] := by
  unfold natDigits
  split
  · simp
  · intro hc
    simp at hc

/-- Reading back the digits of n yields n. -/
theorem digitsValN_natDigits (n : Nat) : digitsValN (natDigits n) = n := by
  induction n using Nat.strong_induction_on with
  | _ n ih =>
    unfold natDigits
    split
    · rename_i h
      unfold digitsValN
      simp
    · rename_i h
      unfold digitsValN
      rw [List.foldl_append]
      have h1 := ih (n / 10) (Nat.div_lt_self (by omega) (by omega))
      unfold digitsValN at h1
      rw [h1]
      simp only [List.foldl_cons, List.foldl_nil]
      omega

/-- The leading digit of the decimal rendering of a positive number is a
nonzero digit. -/
theorem natDigits_pos_head {n : Nat} (h : 0 < n) :
    ∃ d ds, natDigits n = d :: ds ∧ 49 ≤ d ∧ d ≤ 57 := by
  induction n using Nat.strong_induction_on with
  | _ n ih =>
    unfold natDigits
    split
    · rename_i hlt
      exact ⟨n + 48, [], rfl, by omega, by omega⟩
    · rename_i hlt
      obtain ⟨d, ds, hd, h1, h2⟩ := ih (n / 10) (Nat.div_lt_self (by omega) (by omega))
        (by omega)
      exact ⟨d, ds ++ [n % 10 + 48], by rw [hd]; rfl, h1, h2⟩

/-- SetString on a plain nonempty digit string parses its value. -/
theorem bigIntSetString10_digits {ds : List Nat} (h : ds ≠ [])
    (hdig : ∀ b ∈ ds, 48 ≤ b ∧ b ≤ 57) :
    bigIntSetString10 ds = some ((digitsValN ds : Int)) := by
  cases ds with
  | nil => exact absurd rfl h
  | cons c cs =>
    have hc := hdig c (by simp)
    have hall : ((c :: cs).all fun b => decide (48 ≤ b ∧ b ≤ 57)) = true := by
      simp only [List.all_eq_true, decide_eq_true_eq]
      exact hdig
    unfold bigIntSetString10
    have h45 : ¬(c = 45 ∨ c = 43) := by omega
    have h45' : c ≠ 45 := by omega
    have h43 : c ≠ 43 := by omega
    simp [h45, hall, h45', h43]
    refine ⟨hc.1, hc.2, fun x hx => hdig x (by simp [hx])⟩

/-- SetString accepts a leading plus sign before the digits. -/
theorem bigIntSetString10_plus {ds : List Nat} (h : ds ≠ [])
    (hdig : ∀ b ∈ ds, 48 ≤ b ∧ b ≤ 57) :
    bigIntSetString10 (43 :: ds) = some ((digitsValN ds : Int)) := by
  have hall : (ds.all fun b => decide (48 ≤ b ∧ b ≤ 57)) = true := by
    simp only [List.all_eq_true, decide_eq_true_eq]
    exact hdig
  unfold bigIntSetString10
  simp [h, hall]
  exact hdig

/-- SetString accepts a leading minus sign and negates the value. -/
theorem bigIntSetString10_minus {ds : List Nat} (h : ds ≠ [])
    (hdig : ∀ b ∈ ds, 48 ≤ b ∧ b ≤ 57) :
    bigIntSetString10 (45 :: ds) = some (-(digitsValN ds : Int)) := by
  have hall : (ds.all fun b => decide (48 ≤ b ∧ b ≤ 57)) = true := by
    simp only [List.all_eq_true, decide_eq_true_eq]
    exact hdig
  unfold bigIntSetString10
  simp [h, hall]
  exact hdig

/-- Consuming a literal at the head of the stream drops exactly it. -/
theorem consume_append (lit r : List Nat) : consume lit (lit ++ r) = (true, r) := by
  unfold consume
  rw [if_pos (matchBytes_append lit r)]
  rw [List.drop_left]

/-- A literal match fails as soon as the second byte differs. -/
theorem matchBytes_cons_cons_ne {c0 c1 x0 x1 : Nat} {cs xs : List Nat} (h : x1 ≠ c1) :
    matchBytes (c0 :: c1 :: cs) (x0 :: x1 :: xs) = false := by
  unfold matchBytes matchBytes
  simp [h]

/-- readBlobBody on a body of the declared length followed by CRLF: the body
is appended to the destination and the stream is left after the terminator. -/
theorem readBlobBody_ok {lim : Int} {dst body rest : List Nat}
    (hchk : checkReadSizeLimit lim (body.length : Int) = .ok ()) :
    readBlobBody lim dst body.length (body ++ 13 :: 10 :: rest) = (.ok (dst ++ body), rest) := by
  unfold readBlobBody
  rw [hchk]
  dsimp only
  rw [if_neg (by simp only [List.length_append, List.length_cons]; omega)]
  rw [List.drop_left]
  have heol : readEOL (13 :: 10 :: rest) = (.ok (), rest) := rfl
  rw [heol]
  dsimp only
  rw [List.take_left]

/-- readBlob on the canonical wire form of a blob of a given kind: the tag
byte, the decimal length, CRLF, the body, CRLF. -/
theorem readBlob_ok {lim : Int} {t : RType} {dst body rest : List Nat}
    (ht : t ≠ .invalid)
    (hlen : (body.length : Int) < 9223372036854775808)
    (hchk : checkReadSizeLimit lim (body.length : Int) = .ok ()) :
    readBlob lim t dst (t.byte :: (natDigits body.length ++ 13 :: 10 :: (body ++ 13 :: 10 :: rest))) =
      (.ok (dst ++ body), rest) := by
  unfold readBlob
  rw [expect_cons_byte t ht _]
  dsimp only
  have hnum := readNumber_digits (natDigits body.length) (body ++ 13 :: 10 :: rest)
    (natDigits_ne_nil _) (natDigits_digits _)
    (by rw [digitsValN_natDigits]; exact hlen)
  rw [digitsValN_natDigits] at hnum
  rw [hnum]
  dsimp only
  rw [if_neg (by omega)]
  have htn : ((body.length : Int)).toNat = body.length := by omega
  rw [htn]
  exact readBlobBody_ok hchk

/-- The streamed marker never matches a header whose length field starts with
a decimal digit (the digit differs from the question mark). -/
theorem consume_marker_digits (t : RType) (n : Nat) (x : List Nat) :
    consume [t.byte, 63, 13, 10] (t.byte :: (natDigits n ++ x)) =
      (false, t.byte :: (natDigits n ++ x)) := by
  obtain ⟨d, ds, hd⟩ : ∃ d ds, natDigits n = d :: ds := by
    cases h : natDigits n with
    | nil => exact absurd h (natDigits_ne_nil n)
    | cons d ds => exact ⟨d, ds, rfl⟩
  have hdig := natDigits_digits n d (by rw [hd]; simp)
  unfold consume
  rw [if_neg]
  rw [hd]
  simp only [List.cons_append]
  rw [matchBytes_cons_cons_ne (by omega)]
  simp

/-- readChunkableBlob on the canonical wire form of a non-streamed blob. -/
theorem readChunkableBlob_ok {lim : Int} {t : RType} {dst body rest : List Nat}
    (ht : t ≠ .invalid)
    (hlen : (body.length : Int) < 9223372036854775808)
    (hchk : checkReadSizeLimit lim (body.length : Int) = .ok ()) :
    readChunkableBlob lim t dst (t.byte :: (natDigits body.length ++ 13 :: 10 :: (body ++ 13 :: 10 :: rest))) =
      (.ok (dst ++ body, false), rest) := by
  unfold readChunkableBlob
  have hshape : (natDigits body.length ++ 13 :: 10 :: (body ++ 13 :: 10 :: rest)) =
      (natDigits body.length ++ (13 :: 10 :: (body ++ 13 :: 10 :: rest))) := rfl
  rw [consume_marker_digits t body.length _]
  dsimp only
  rw [readBlob_ok ht hlen hchk]
  rfl

/-- readChunkableBlob fails with the size-limit error when the declared
length exceeds the effective limit. -/
theorem readChunkableBlob_limit_err {lim : Int} {t : RType} {dst body rest : List Nat}
    (ht : t ≠ .invalid)
    (hlen : (body.length : Int) < 9223372036854775808)
    (hchk : checkReadSizeLimit lim (body.length : Int) = .error .singleReadSizeLimitExceeded) :
    readChunkableBlob lim t dst (t.byte :: (natDigits body.length ++ 13 :: 10 :: (body ++ 13 :: 10 :: rest))) =
      (.error .singleReadSizeLimitExceeded, body ++ 13 :: 10 :: rest) := by
  unfold readChunkableBlob
  rw [consume_marker_digits t body.length _]
  dsimp only
  unfold readBlob
  rw [expect_cons_byte t ht _]
  dsimp only
  have hnum := readNumber_digits (natDigits body.length) (body ++ 13 :: 10 :: rest)
    (natDigits_ne_nil _) (natDigits_digits _)
    (by rw [digitsValN_natDigits]; exact hlen)
  rw [digitsValN_natDigits] at hnum
  rw [hnum]
  dsimp only
  rw [if_neg (show ¬((body.length : Int) < 0) by omega)]
  unfold readBlobBody
  have htn : ((body.length : Int)).toNat = body.length := by omega
  rw [htn, hchk]
  rfl

/-- Expecting one kind at the lead byte of a different valid kind is an
unexpected-type error that consumes nothing. -/
theorem expect_mismatch {b : Nat} (t : RType) (r : List Nat)
    (hb : typeOfByte b ≠ .invalid) (hne : typeOfByte b ≠ t) :
    expect t (b :: r) = (.error .unexpectedType, b :: r) := by
  unfold expect peek
  dsimp only
  rw [if_neg hb]
  dsimp only
  rw [if_neg hne]

/-- A valid lead byte of one kind differs from the lead byte of any other
kind. -/
theorem byte_ne_of_type_ne {b : Nat} {t : RType} (hb : typeOfByte b ≠ .invalid)
    (ht : t ≠ .invalid) (hne : typeOfByte b ≠ t) : b ≠ t.byte := by
  intro h
  exact hne (h ▸ typeOfByte_byte t ht)

/-- Consuming a literal fails at once when the first byte differs, leaving
the stream untouched. -/
theorem consume_head_ne {c b : Nat} (cs r : List Nat) (h : b ≠ c) :
    consume (c :: cs) (b :: r) = (false, b :: r) := by
  simp [consume, matchBytes, h]

/-- Consuming a literal fails when the tail does not match, leaving the
stream untouched. -/
theorem consume_tail_false {c b : Nat} (cs r : List Nat) (h : matchBytes cs r = false) :
    consume (c :: cs) (b :: r) = (false, b :: r) := by
  simp [consume, matchBytes, h]

/-- readBlob under a kind mismatch: the unexpected-type error, nothing
consumed. -/
theorem readBlob_mismatch {b : Nat} (lim : Int) (t : RType) (dst r : List Nat)
    (hb : typeOfByte b ≠ .invalid) (hne : typeOfByte b ≠ t) :
    readBlob lim t dst (b :: r) = (.error .unexpectedType, b :: r) := by
  unfold readBlob
  rw [expect_mismatch t r hb hne]

/-- readChunkableBlob under a kind mismatch: the streamed marker cannot match
either, so the unexpected-type error is reported with nothing consumed. -/
theorem readChunkableBlob_mismatch {b : Nat} (lim : Int) (t : RType) (dst r : List Nat)
    (hb : typeOfByte b ≠ .invalid) (ht : t ≠ .invalid) (hne : typeOfByte b ≠ t) :
    readChunkableBlob lim t dst (b :: r) = (.error .unexpectedType, b :: r) := by
  unfold readChunkableBlob
  rw [consume_head_ne _ _ (byte_ne_of_type_ne hb ht hne)]
  dsimp only
  rw [readBlob_mismatch lim t dst r hb hne]
  rfl

/-- readSimple under a kind mismatch. -/
theorem readSimple_mismatch {b : Nat} (lim : Int) (t : RType) (dst r : List Nat)
    (hb : typeOfByte b ≠ .invalid) (hne : typeOfByte b ≠ t) :
    readSimple lim t dst (b :: r) = (.error .unexpectedType, b :: r) := by
  unfold readSimple
  rw [expect_mismatch t r hb hne]

/-- readAggregateHeader under a kind mismatch. -/
theorem readAggregateHeader_mismatch {b : Nat} (t : RType) (r : List Nat)
    (hb : typeOfByte b ≠ .invalid) (ht : t ≠ .invalid) (hne : typeOfByte b ≠ t) :
    readAggregateHeader t (b :: r) = (.error .unexpectedType, b :: r) := by
  unfold readAggregateHeader
  rw [consume_head_ne _ _ (byte_ne_of_type_ne hb ht hne)]
  dsimp only
  rw [expect_mismatch t r hb hne]
  rfl

/-- ReadBigNumber under a kind mismatch. -/
theorem ReadBigNumber_mismatch {b : Nat} (lim : Int) (r : List Nat)
    (hb : typeOfByte b ≠ .invalid) (hne : typeOfByte b ≠ .bigNumber) :
    ReadBigNumber lim (b :: r) = (.error .unexpectedType, b :: r) := by
  unfold ReadBigNumber
  rw [expect_mismatch _ r hb hne]

/-- ReadBoolean under a kind mismatch. -/
theorem ReadBoolean_mismatch {b : Nat} (lim : Int) (r : List Nat)
    (hb : typeOfByte b ≠ .invalid) (hne : typeOfByte b ≠ .boolean) :
    ReadBoolean lim (b :: r) = (.error .unexpectedType, b :: r) := by
  unfold ReadBoolean
  rw [expect_mismatch _ r hb hne]

/-- ReadEnd under a kind mismatch. -/
theorem ReadEnd_mismatch {b : Nat} (r : List Nat)
    (hb : typeOfByte b ≠ .invalid) (hne : typeOfByte b ≠ .streamEnd) :
    ReadEnd (b :: r) = (.error .unexpectedType, b :: r) := by
  unfold ReadEnd
  rw [expect_mismatch _ r hb hne]

/-- ReadNumber under a kind mismatch. -/
theorem ReadNumber_mismatch {b : Nat} (r : List Nat)
    (hb : typeOfByte b ≠ .invalid) (hne : typeOfByte b ≠ .number) :
    ReadNumber (b :: r) = (.error .unexpectedType, b :: r) := by
  unfold ReadNumber
  rw [expect_mismatch _ r hb hne]

/-- ReadDouble under a kind mismatch. -/
theorem ReadDouble_mismatch {b : Nat} (lim : Int) (r : List Nat)
    (hb : typeOfByte b ≠ .invalid) (hne : typeOfByte b ≠ .double) :
    ReadDouble lim (b :: r) = (.error .unexpectedType, b :: r) := by
  unfold ReadDouble
  rw [expect_mismatch _ r hb hne]

/-- ReadBlobChunk under a kind mismatch: the terminal-chunk literal cannot
match either. -/
theorem ReadBlobChunk_mismatch {b : Nat} (lim : Int) (dst r : List Nat)
    (hb : typeOfByte b ≠ .invalid) (hne : typeOfByte b ≠ .blobChunk) :
    ReadBlobChunk lim dst (b :: r) = (.error .unexpectedType, b :: r) := by
  unfold ReadBlobChunk
  rw [consume_head_ne _ _ (byte_ne_of_type_ne hb (by simp) hne)]
  dsimp only
  rw [readBlob_mismatch lim _ dst r hb hne]
  rfl

/-- ReadVerbatimString under a kind mismatch. -/
theorem ReadVerbatimString_mismatch {b : Nat} (lim : Int) (dst r : List Nat)
    (hb : typeOfByte b ≠ .invalid) (hne : typeOfByte b ≠ .verbatimString) :
    ReadVerbatimString lim dst (b :: r) = (.error .unexpectedType, b :: r) := by
  unfold ReadVerbatimString
  rw [readBlob_mismatch lim _ dst r hb hne]

/-- ReadNull under a kind mismatch, when the tail does not spell the legacy
-1 length field: the unexpected-type error, nothing consumed. -/
theorem ReadNull_mismatch {b : Nat} (r : List Nat)
    (hb : typeOfByte b ≠ .invalid) (hne : typeOfByte b ≠ .null)
    (hleg : matchBytes [45, 49, 13, 10] r = false) :
    ReadNull (b :: r) = (.error .unexpectedType, b :: r) := by
  have hc : consume [(typeOfByte b).byte, 45, 49, 13, 10] (b :: r) = (false, b :: r) :=
    consume_tail_false _ r hleg
  unfold ReadNull peek
  dsimp only
  rw [if_neg hb]
  dsimp only
  rw [hc]
  dsimp only
  rw [if_neg (show ¬((typeOfByte b = .array ∨ typeOfByte b = .blobString) ∧ false = true) from
    fun h => by simp at h)]
  rw [expect_mismatch .null r hb hne]

/-- The terminal-chunk literal never matches a chunk header whose length
field renders a positive length (the leading digit is nonzero). -/
theorem consume_chunk_digits {n : Nat} (hn : 0 < n) (x : List Nat) :
    consume [RType.byte .blobChunk, 48, 13, 10] (RType.byte .blobChunk :: (natDigits n ++ x)) =
      (false, RType.byte .blobChunk :: (natDigits n ++ x)) := by
  obtain ⟨d, ds, hd, h1, h2⟩ := natDigits_pos_head hn
  unfold consume
  rw [if_neg]
  rw [hd]
  simp only [List.cons_append]
  rw [matchBytes_cons_cons_ne (by omega)]
  simp

/-- The wire bytes of a written blob followed by further input, reshaped
into the canonical form used by the blob-reading lemmas. -/
theorem writeBlob_shape (t : RType) (s rest : List Nat) :
    Writer.writeBlob t s ++ rest =
      t.byte :: (natDigits s.length ++ 13 :: 10 :: (s ++ 13 :: 10 :: rest)) := by
  simp [Writer.writeBlob, List.append_assoc]

/-- A written blob (string or error kind) reads back through
readChunkableBlob as the unchanged payload with the chunked flag false. -/
theorem readChunkableBlob_write_read {lim : Int} (t : RType) (body rest : List Nat)
    (ht : t ≠ .invalid) (hlim : lim < 0)
    (hlen : (body.length : Int) < 9223372036854775808) :
    readChunkableBlob lim t [] (Writer.writeBlob t body ++ rest) = (.ok (body, false), rest) := by
  rw [writeBlob_shape]
  have h := @readChunkableBlob_ok lim t [] body rest ht hlen (checkReadSizeLimit_neg hlim _)
  simpa using h

/-- A written non-empty blob chunk reads back: the terminal literal does not
match, and the body returns with last false. -/
theorem ReadBlobChunk_write_read {lim : Int} (body rest : List Nat)
    (hne : body ≠ []) (hlim : lim < 0)
    (hlen : (body.length : Int) < 9223372036854775808) :
    ReadBlobChunk lim [] (Writer.WriteBlobChunk body ++ rest) = (.ok (body, false), rest) := by
  have hbl : 0 < body.length := List.length_pos.2 hne
  unfold Writer.WriteBlobChunk
  rw [if_neg hne]
  rw [writeBlob_shape]
  unfold ReadBlobChunk
  rw [consume_chunk_digits hbl _]
  dsimp only
  rw [@readBlob_ok lim .blobChunk [] body rest (by simp) hlen (checkReadSizeLimit_neg hlim _)]
  simp

/-- A counted aggregate header written in canonical form reads back as the
same count with the chunked flag false. -/
theorem readAggregateHeader_write_read (t : RType) (m : Int) (rest : List Nat)
    (ht : t ≠ .invalid) (hm0 : 0 ≤ m) (hmb : m < 9223372036854775808) :
    readAggregateHeader t (Writer.writeNumber t m ++ rest) = (.ok (m, false), rest) := by
  have hnn : ¬ m < 0 := by omega
  have hshape : Writer.writeNumber t m ++ rest =
      t.byte :: (natDigits m.toNat ++ (13 :: 10 :: rest)) := by
    simp [Writer.writeNumber, intDecimal, hnn, List.append_assoc]
  rw [hshape]
  unfold readAggregateHeader
  rw [consume_marker_digits t m.toNat _]
  dsimp only
  rw [expect_cons_byte t ht _]
  dsimp only
  have hnum := readNumber_digits (natDigits m.toNat) rest (natDigits_ne_nil _) (natDigits_digits _)
    (by rw [digitsValN_natDigits]; omega)
  rw [digitsValN_natDigits] at hnum
  rw [hnum]
  dsimp only
  rw [if_neg (by omega : ¬((m.toNat : Int) < 0))]
  have hval : ((m.toNat : Int)) = m := by omega
  rw [hval]
  rfl

/-- A successfully written aggregate header reads back as the same count. -/
theorem readAggregateHeader_write_roundtrip (t : RType) {m : Int} {w : List Nat} (rest : List Nat)
    (ht : t ≠ .invalid) (hmb : m < 9223372036854775808)
    (hw : Writer.writeAggregateHeader t m = .ok w) :
    readAggregateHeader t (w ++ rest) = (.ok (m, false), rest) := by
  unfold Writer.writeAggregateHeader at hw
  split at hw
  · cases hw
  · rename_i hm
    injection hw with hw2
    subst hw2
    exact readAggregateHeader_write_read t m rest ht (by omega) hmb

/-- A written simple value (LF-free by the writer contract) reads back
unchanged. -/
theorem readSimple_write_read {lim : Int} (t : RType) (s rest : List Nat)
    (ht : t ≠ .invalid) (hlim : lim < 0) (hLF : ∀ b ∈ s, b ≠ 10) :
    readSimple lim t [] (t.byte :: (s ++ 13 :: 10 :: rest)) = (.ok s, rest) := by
  unfold readSimple
  rw [expect_cons_byte t ht _]
  dsimp only
  have h := @readLine_ok lim [] s rest hLF (checkReadSizeLimit_neg hlim _)
  simpa using h

/-- A successfully written simple value reads back unchanged. -/
theorem readSimple_write_roundtrip {lim : Int} (t : RType) (s rest : List Nat) {w : List Nat}
    (ht : t ≠ .invalid) (hlim : lim < 0)
    (hw : Writer.writeSimple t s = .ok w) :
    readSimple lim t [] (w ++ rest) = (.ok s, rest) := by
  unfold Writer.writeSimple at hw
  split at hw
  · cases hw
  · rename_i hany
    injection hw with hw2
    subst hw2
    have hLF : ∀ b ∈ s, b ≠ 10 := by
      intro b hb hbe
      apply hany
      simp only [List.any_eq_true, decide_eq_true_eq]
      exact ⟨b, hb, Or.inr hbe⟩
    have hshape : (t.byte :: s ++ [13, 10]) ++ rest = t.byte :: (s ++ 13 :: 10 :: rest) := by
      simp
    rw [hshape]
    exact readSimple_write_read t s rest ht hlim hLF

/-- A written number in the open int64 interval reads back exactly. -/
theorem ReadNumber_write_read (n : Int) (rest : List Nat)
    (hlo : -9223372036854775808 < n) (hhi : n < 9223372036854775808) :
    ReadNumber (Writer.WriteNumber n ++ rest) = (.ok n, rest) := by
  unfold ReadNumber
  by_cases hneg : n < 0
  · have hshape : Writer.WriteNumber n ++ rest =
        RType.byte .number :: (45 :: natDigits (-n).toNat ++ (13 :: 10 :: rest)) := by
      simp [Writer.WriteNumber, Writer.writeNumber, intDecimal, hneg, List.append_assoc]
    rw [hshape]
    rw [expect_cons_byte .number (by simp) _]
    dsimp only
    have hnum := readNumber_neg_digits (natDigits (-n).toNat) rest (natDigits_ne_nil _)
      (natDigits_digits _) (by rw [digitsValN_natDigits]; omega)
    rw [digitsValN_natDigits] at hnum
    rw [hnum]
    have hval : -((((-n).toNat : Int))) = n := by omega
    rw [hval]
  · have hshape : Writer.WriteNumber n ++ rest =
        RType.byte .number :: (natDigits n.toNat ++ (13 :: 10 :: rest)) := by
      simp [Writer.WriteNumber, Writer.writeNumber, intDecimal, hneg, List.append_assoc]
    rw [hshape]
    rw [expect_cons_byte .number (by simp) _]
    dsimp only
    have hnum := readNumber_digits (natDigits n.toNat) rest (natDigits_ne_nil _)
      (natDigits_digits _) (by rw [digitsValN_natDigits]; omega)
    rw [digitsValN_natDigits] at hnum
    rw [hnum]
    have hval : ((n.toNat : Int)) = n := by omega
    rw [hval]

/-- A written big number reads back exactly, for every integer. -/
theorem ReadBigNumber_write_read {lim : Int} (n : Int) (rest : List Nat) (hlim : lim < 0) :
    ReadBigNumber lim (Writer.WriteBigNumber n ++ rest) = (.ok n, rest) := by
  unfold ReadBigNumber
  by_cases hneg : n < 0
  · have hshape : Writer.WriteBigNumber n ++ rest =
        RType.byte .bigNumber :: ((45 :: natDigits (-n).toNat) ++ 13 :: 10 :: rest) := by
      simp [Writer.WriteBigNumber, intDecimal, hneg, List.append_assoc]
    rw [hshape]
    rw [expect_cons_byte .bigNumber (by simp) _]
    dsimp only
    have hLF : ∀ b ∈ (45 :: natDigits (-n).toNat), b ≠ 10 := by
      intro b hb
      rcases List.mem_cons.1 hb with rfl | hb
      · omega
      · have := natDigits_digits _ b hb
        omega
    have hline := @readLine_ok lim [] (45 :: natDigits (-n).toNat) rest hLF
      (checkReadSizeLimit_neg hlim _)
    simp only [List.nil_append] at hline
    rw [hline]
    dsimp only
    have hne : (45 :: natDigits (-n).toNat) ≠ [] := by simp
    rw [if_neg hne]
    rw [bigIntSetString10_minus (natDigits_ne_nil _) (natDigits_digits _)]
    dsimp only
    rw [digitsValN_natDigits]
    have hval : -(((-n).toNat : Int)) = n := by omega
    rw [hval]
  · have hshape : Writer.WriteBigNumber n ++ rest =
        RType.byte .bigNumber :: (natDigits n.toNat ++ 13 :: 10 :: rest) := by
      simp [Writer.WriteBigNumber, intDecimal, hneg, List.append_assoc]
    rw [hshape]
    rw [expect_cons_byte .bigNumber (by simp) _]
    dsimp only
    have hLF : ∀ b ∈ natDigits n.toNat, b ≠ 10 := by
      intro b hb
      have := natDigits_digits _ b hb
      omega
    have hline := @readLine_ok lim [] (natDigits n.toNat) rest hLF
      (checkReadSizeLimit_neg hlim _)
    simp only [List.nil_append] at hline
    rw [hline]
    dsimp only
    rw [if_neg (natDigits_ne_nil _)]
    rw [bigIntSetString10_digits (natDigits_ne_nil _) (natDigits_digits _)]
    dsimp only
    rw [digitsValN_natDigits]
    have hval : ((n.toNat : Int)) = n := by omega
    rw [hval]

/-- A written boolean reads back exactly. -/
theorem ReadBoolean_write_read {lim : Int} (bl : Bool) (rest : List Nat) (hlim : lim < 0) :
    ReadBoolean lim (Writer.WriteBoolean bl ++ rest) = (.ok bl, rest) := by
  cases bl
  · have hline := @readLine_ok lim [] [102] rest (by decide) (checkReadSizeLimit_neg hlim _)
    simp only [List.nil_append, List.cons_append] at hline
    unfold ReadBoolean Writer.WriteBoolean
    simp only [Bool.false_eq_true, if_false, List.cons_append, List.nil_append]
    have hexp : ∀ X, expect .boolean ((35 : Nat) :: X) = (.ok (), X) :=
      fun X => expect_cons_byte .boolean (by simp) X
    rw [hexp]
    dsimp only
    rw [hline]
    rfl
  · have hline := @readLine_ok lim [] [116] rest (by decide) (checkReadSizeLimit_neg hlim _)
    simp only [List.nil_append, List.cons_append] at hline
    unfold ReadBoolean Writer.WriteBoolean
    simp only [if_true, List.cons_append, List.nil_append]
    have hexp : ∀ X, expect .boolean ((35 : Nat) :: X) = (.ok (), X) :=
      fun X => expect_cons_byte .boolean (by simp) X
    rw [hexp]
    dsimp only
    rw [hline]
    rfl

/-- The written positive-infinity double reads back as positive infinity. -/
theorem ReadDouble_inf_read {lim : Int} (rest : List Nat) (hlim : lim < 0) :
    ReadDouble lim ([44, 105, 110, 102, 13, 10] ++ rest) = (.ok .inf, rest) := by
  have hline := @readLine_ok lim [] [105, 110, 102] rest (by decide)
    (checkReadSizeLimit_neg hlim _)
  simp only [List.nil_append, List.cons_append] at hline
  unfold ReadDouble
  simp only [List.cons_append, List.nil_append]
  have hexp : ∀ X, expect .double ((44 : Nat) :: X) = (.ok (), X) :=
    fun X => expect_cons_byte .double (by simp) X
  rw [hexp]
  dsimp only
  unfold readDouble
  rw [hline]
  rfl

/-- The written negative-infinity double reads back as negative infinity. -/
theorem ReadDouble_negInf_read {lim : Int} (rest : List Nat) (hlim : lim < 0) :
    ReadDouble lim ([44, 45, 105, 110, 102, 13, 10] ++ rest) = (.ok .negInf, rest) := by
  have hline := @readLine_ok lim [] [45, 105, 110, 102] rest (by decide)
    (checkReadSizeLimit_neg hlim _)
  simp only [List.nil_append, List.cons_append] at hline
  unfold ReadDouble
  simp only [List.cons_append, List.nil_append]
  have hexp : ∀ X, expect .double ((44 : Nat) :: X) = (.ok (), X) :=
    fun X => expect_cons_byte .double (by simp) X
  rw [hexp]
  dsimp only
  unfold readDouble
  rw [hline]
  rfl

/-- A successfully written verbatim string reads back as its full payload:
the three-byte prefix, the colon, the body. -/
theorem ReadVerbatimString_write_read {lim : Int} (p s rest : List Nat) {w : List Nat}
    (hlim : lim < 0)
    (hlen : (p.length : Int) + 1 + s.length < 9223372036854775808)
    (hw : Writer.WriteVerbatimString p s = .ok w) :
    ReadVerbatimString lim [] (w ++ rest) = (.ok (p ++ 58 :: s), rest) := by
  unfold Writer.WriteVerbatimString at hw
  split at hw
  · cases hw
  · rename_i hp
    injection hw with hw2
    subst hw2
    have hp3 : p.length = 3 := by omega
    obtain ⟨a, b2, c, rfl⟩ : ∃ a b2 c, p = [a, b2, c] := by
      cases p with
      | nil => simp at hp3
      | cons a t1 =>
        cases t1 with
        | nil => simp at hp3
        | cons b2 t2 =>
          cases t2 with
          | nil => simp at hp3
          | cons c t3 =>
            cases t3 with
            | nil => exact ⟨a, b2, c, rfl⟩
            | cons d t4 => simp at hp3
    have hbl : (([a, b2, c] ++ 58 :: s) : List Nat).length = 3 + 1 + s.length := by
      simp
      omega
    have hshape : (RType.byte .verbatimString ::
          natDigits (([a, b2, c] : List Nat).length + 1 + s.length) ++ [13, 10] ++
            [a, b2, c] ++ [58] ++ s ++ [13, 10]) ++ rest =
        RType.byte .verbatimString :: (natDigits (([a, b2, c] ++ 58 :: s) : List Nat).length ++
          13 :: 10 :: (([a, b2, c] ++ 58 :: s) ++ 13 :: 10 :: rest)) := by
      rw [hbl]
      simp [List.append_assoc]
    unfold ReadVerbatimString
    rw [hshape]
    rw [@readBlob_ok lim .verbatimString [] ([a, b2, c] ++ 58 :: s) rest (by simp)
      (by rw [hbl]; push_cast; push_cast at hlen; simp at hlen; omega)
      (checkReadSizeLimit_neg hlim _)]
    dsimp only
    simp only [List.nil_append, List.cons_append, List.length_nil, List.drop_zero]
    rw [if_neg (by simp)]

/-! Length and progress lemmas for the skip engine. -/

/-- Inversion of a found result of ReadSlice: the rest is a tail drop. -/
theorem readSliceLF_found_inv {l chunk rest : List Nat}
    (h : readSliceLF l = .found chunk rest) :
    ∃ k, chunk = l.take (k + 1) ∧ rest = l.drop (k + 1) := by
  unfold readSliceLF at h
  split at h
  · rename_i k hk
    injection h with h1 h2
    exact ⟨k, h1.symm, h2.symm⟩
  · split at h
    · cases h
    · cases h

/-- Inversion of a buffer-full result of ReadSlice. -/
theorem readSliceLF_full_inv {l chunk rest : List Nat}
    (h : readSliceLF l = .full chunk rest) :
    bufioBufSize ≤ l.length ∧ rest = l.drop bufioBufSize := by
  unfold readSliceLF at h
  split at h
  · cases h
  · split at h
    · rename_i hlen
      injection h with h1 h2
      exact ⟨hlen, h2.symm⟩
    · cases h

/-- The stream left by the readLine loop never exceeds the input stream. -/
theorem readLineLoop_len : ∀ (n : Nat) (lim : Int) (slen : Nat) (dst l : List Nat),
    l.length ≤ n → (readLineLoop lim slen dst l).2.length ≤ l.length := by
  intro n
  induction n using Nat.strong_induction_on with
  | _ n ih =>
    intro lim slen dst l hn
    cases hsl : readSliceLF l with
    | eofR =>
      rw [readLineLoop_eof hsl]
      simp
    | found chunk rest =>
      obtain ⟨k, -, hrest⟩ := readSliceLF_found_inv hsl
      have hr : rest.length ≤ l.length := by
        rw [hrest]
        simp
      cases hc : checkReadSizeLimit lim ((chunk.length : Int) - 2 + ((dst.length : Int) - (slen : Int))) with
      | error e =>
        rw [readLineLoop_found_err hsl hc]
        exact hr
      | ok u =>
        cases u
        rw [readLineLoop_found_ok hsl hc]
        split
        · exact hr
        · split
          · exact hr
          · exact hr
    | full chunk rest =>
      obtain ⟨hbs, hrest⟩ := readSliceLF_full_inv hsl
      have hpos : 0 < bufioBufSize := by norm_num [bufioBufSize]
      have hr : rest.length < l.length := by
        rw [hrest]
        simp only [List.length_drop]
        omega
      cases hc : checkReadSizeLimit lim ((chunk.length : Int) - 2 + ((dst.length : Int) - (slen : Int))) with
      | error e =>
        rw [readLineLoop_full_err hsl hc]
        exact Nat.le_of_lt hr
      | ok u =>
        cases u
        rw [readLineLoop_full_ok hsl hc]
        have h2 := ih rest.length (by omega) lim slen (dst ++ chunk) rest le_rfl
        omega

/-- The stream left by readLine never exceeds the input stream. -/
theorem readLine_len (lim : Int) (dst l : List Nat) : (readLine lim dst l).2.length ≤ l.length :=
  readLineLoop_len l.length lim dst.length dst l le_rfl

/-- The stream left by readBlobBody never exceeds the input stream. -/
theorem readBlobBody_len (lim : Int) (dst : List Nat) (n : Nat) (l : List Nat) :
    (readBlobBody lim dst n l).2.length ≤ l.length := by
  unfold readBlobBody
  split
  · exact le_rfl
  · split
    · simp
    · have h := readEOL_len (l.drop n)
      simp only [List.length_drop] at h
      split
      · rename_i e l2 heq
        rw [heq] at h
        dsimp only at h ⊢
        omega
      · rename_i u l2 heq
        rw [heq] at h
        dsimp only at h ⊢
        omega

/-- A consumed literal accounts exactly for its own length. -/
theorem consume_true_len {lit l : List Nat} (h : (consume lit l).1 = true) :
    (consume lit l).2.length + lit.length = l.length := by
  unfold consume at h ⊢
  split at h
  · rename_i hm
    obtain ⟨r, rfl⟩ := (matchBytes_eq_true_iff lit l).1 hm
    rw [if_pos hm]
    simp only [List.drop_left, List.length_append]
    omega
  · simp at h

/-- A successful readBlob consumed at least the tag, one length digit and
both terminators. -/
theorem readBlob_ok_len {lim : Int} {t : RType} {dst l l' b : List Nat}
    (h : readBlob lim t dst l = (.ok b, l')) : l'.length + 4 ≤ l.length := by
  unfold readBlob at h
  cases hexp : expect t l with
  | mk r l1 =>
    rw [hexp] at h
    cases r with
    | error e => simp at h
    | ok u =>
      cases u
      dsimp only at h
      obtain ⟨hl, -⟩ := expect_ok hexp
      cases hnum : readNumber l1 with
      | mk r2 l2 =>
        rw [hnum] at h
        cases r2 with
        | error e => simp at h
        | ok n =>
          have h2 : l2.length + 3 ≤ l1.length := readNumber_ok_len hnum
          dsimp only at h
          split at h
          · simp at h
          · have h3 := readBlobBody_len lim dst n.toNat l2
            rw [h] at h3
            dsimp only at h3
            subst hl
            simp only [List.length_cons]
            omega

/-- A successful readSimple consumed at least the lead byte. -/
theorem readSimple_ok_len {lim : Int} {t : RType} {dst l l' b : List Nat}
    (h : readSimple lim t dst l = (.ok b, l')) : l'.length < l.length := by
  unfold readSimple at h
  cases hexp : expect t l with
  | mk r l1 =>
    rw [hexp] at h
    cases r with
    | error e => simp at h
    | ok u =>
      cases u
      dsimp only at h
      obtain ⟨hl, -⟩ := expect_ok hexp
      have h2 := readLine_len lim dst l1
      rw [h] at h2
      dsimp only at h2
      subst hl
      simp only [List.length_cons]
      omega

/-- A successful ReadBigNumber consumed at least the lead byte. -/
theorem ReadBigNumber_ok_len {lim : Int} {l l' : List Nat} {z : Int}
    (h : ReadBigNumber lim l = (.ok z, l')) : l'.length < l.length := by
  unfold ReadBigNumber at h
  cases hexp : expect .bigNumber l with
  | mk r l1 =>
    rw [hexp] at h
    cases r with
    | error e => simp at h
    | ok u =>
      cases u
      dsimp only at h
      obtain ⟨hl, -⟩ := expect_ok hexp
      cases hline : readLine lim [] l1 with
      | mk r2 l2 =>
        rw [hline] at h
        have h2 : l2.length ≤ l1.length := by
          have h0 := readLine_len lim [] l1
          rw [hline] at h0
          simpa using h0
        cases r2 with
        | error e => simp at h
        | ok b =>
          dsimp only at h
          split at h
          · simp at h
          · split at h
            · simp at h
            · injection h with h1 h2'
              subst h2'
              subst hl
              simp only [List.length_cons]
              omega

/-- A successful ReadBoolean consumed at least the lead byte. -/
theorem ReadBoolean_ok_len {lim : Int} {l l' : List Nat} {bv : Bool}
    (h : ReadBoolean lim l = (.ok bv, l')) : l'.length < l.length := by
  unfold ReadBoolean at h
  cases hexp : expect .boolean l with
  | mk r l1 =>
    rw [hexp] at h
    cases r with
    | error e => simp at h
    | ok u =>
      cases u
      dsimp only at h
      obtain ⟨hl, -⟩ := expect_ok hexp
      cases hline : readLine lim [] l1 with
      | mk r2 l2 =>
        rw [hline] at h
        have h2 : l2.length ≤ l1.length := by
          have h0 := readLine_len lim [] l1
          rw [hline] at h0
          simpa using h0
        cases r2 with
        | error e => simp at h
        | ok b =>
          dsimp only at h
          split at h
          · simp at h
          · split at h
            · injection h with h1 h2'
              subst h2'
              subst hl
              simp only [List.length_cons]
              omega
            · split at h
              · injection h with h1 h2'
                subst h2'
                subst hl
                simp only [List.length_cons]
                omega
              · simp at h

/-- A successful ReadDouble consumed at least the lead byte. -/
theorem ReadDouble_ok_len {lim : Int} {l l' : List Nat} {g : GoFloat}
    (h : ReadDouble lim l = (.ok g, l')) : l'.length < l.length := by
  unfold ReadDouble at h
  cases hexp : expect .double l with
  | mk r l1 =>
    rw [hexp] at h
    cases r with
    | error e => simp at h
    | ok u =>
      cases u
      dsimp only at h
      obtain ⟨hl, -⟩ := expect_ok hexp
      unfold readDouble at h
      cases hline : readLine lim [] l1 with
      | mk r2 l2 =>
        rw [hline] at h
        have h2 : l2.length ≤ l1.length := by
          have h0 := readLine_len lim [] l1
          rw [hline] at h0
          simpa using h0
        cases r2 with
        | error e => simp at h
        | ok b =>
          dsimp only at h
          split at h
          · simp at h
          · split at h
            · injection h with h1 h2'
              subst h2'
              subst hl
              simp only [List.length_cons]
              omega
            · simp at h

/-- A successful ReadEnd consumed the lead byte and the terminator. -/
theorem ReadEnd_ok_len {l l' : List Nat}
    (h : ReadEnd l = (.ok (), l')) : l'.length < l.length := by
  unfold ReadEnd at h
  cases hexp : expect .streamEnd l with
  | mk r l1 =>
    rw [hexp] at h
    cases r with
    | error e => simp at h
    | ok u =>
      cases u
      dsimp only at h
      obtain ⟨hl, -⟩ := expect_ok hexp
      have h2 := readEOL_len l1
      rw [h] at h2
      dsimp only at h2
      subst hl
      simp only [List.length_cons]
      omega

/-- A successful ReadNumber consumed at least the lead byte. -/
theorem ReadNumber_ok_len {l l' : List Nat} {n : Int}
    (h : ReadNumber l = (.ok n, l')) : l'.length < l.length := by
  unfold ReadNumber at h
  cases hexp : expect .number l with
  | mk r l1 =>
    rw [hexp] at h
    cases r with
    | error e => simp at h
    | ok u =>
      cases u
      dsimp only at h
      obtain ⟨hl, -⟩ := expect_ok hexp
      have h2 := readNumber_len l1
      rw [h] at h2
      dsimp only at h2
      subst hl
      simp only [List.length_cons]
      omega

/-- A successful ReadNull consumed at least the lead byte. -/
theorem ReadNull_ok_len {l l' : List Nat}
    (h : ReadNull l = (.ok (), l')) : l'.length < l.length := by
  unfold ReadNull at h
  cases hp : peek l with
  | error e => rw [hp] at h; simp at h
  | ok ty =>
    rw [hp] at h
    dsimp only at h
    split at h
    · rename_i hcond
      injection h with h1 h2
      subst h2
      have := consume_true_len hcond.2
      simp only [List.length_cons, List.length_nil] at this
      omega
    · cases hexp : expect .null l with
      | mk r l1 =>
        rw [hexp] at h
        cases r with
        | error e => simp at h
        | ok u =>
          cases u
          dsimp only at h
          obtain ⟨hl, -⟩ := expect_ok hexp
          have h2 := readEOL_len l1
          rw [h] at h2
          dsimp only at h2
          subst hl
          simp only [List.length_cons]
          omega

/-- A successful ReadVerbatimString consumed at least four bytes. -/
theorem ReadVerbatimString_ok_len {lim : Int} {dst l l' b : List Nat}
    (h : ReadVerbatimString lim dst l = (.ok b, l')) : l'.length + 4 ≤ l.length := by
  unfold ReadVerbatimString at h
  cases hblob : readBlob lim .verbatimString dst l with
  | mk r l1 =>
    rw [hblob] at h
    cases r with
    | error e => simp at h
    | ok b0 =>
      dsimp only at h
      split at h
      · simp at h
      · injection h with h1 h2
        subst h2
        exact readBlob_ok_len hblob

/-- A successful ReadBlobChunk consumed at least four bytes. -/
theorem ReadBlobChunk_ok_len {lim : Int} {dst l l' b : List Nat} {last : Bool}
    (h : ReadBlobChunk lim dst l = (.ok (b, last), l')) : l'.length + 4 ≤ l.length := by
  unfold ReadBlobChunk at h
  dsimp only at h
  split at h
  · rename_i hc
    injection h with h1 h2
    subst h2
    have := consume_true_len hc
    simp only [List.length_cons, List.length_nil] at this
    omega
  · cases hblob : readBlob lim .blobChunk dst l with
    | mk r l1 =>
      rw [hblob] at h
      cases r with
      | error e => simp at h
      | ok b0 =>
        dsimp only at h
        injection h with h1 h2
        subst h2
        exact readBlob_ok_len hblob

/-- A successful readAggregateHeader consumed at least four bytes. -/
theorem readAggregateHeader_ok_len {t : RType} {l l' : List Nat} {p : Int × Bool}
    (h : readAggregateHeader t l = (.ok p, l')) : l'.length + 4 ≤ l.length := by
  unfold readAggregateHeader at h
  dsimp only at h
  split at h
  · rename_i hc
    injection h with h1 h2
    subst h2
    have := consume_true_len hc
    simp only [List.length_cons, List.length_nil] at this
    omega
  · cases hexp : expect t l with
    | mk r l1 =>
      rw [hexp] at h
      cases r with
      | error e => simp at h
      | ok u =>
        cases u
        dsimp only at h
        obtain ⟨hl, -⟩ := expect_ok hexp
        cases hnum : readNumber l1 with
        | mk r2 l2 =>
          rw [hnum] at h
          cases r2 with
          | error e =>
            dsimp only at h
            split at h <;> simp at h
          | ok n =>
            have h2 : l2.length + 3 ≤ l1.length := readNumber_ok_len hnum
            dsimp only at h
            split at h
            · simp at h
            · injection h with h1 h2'
              subst h2'
              subst hl
              simp only [List.length_cons]
              omega

/-- peek never classifies a byte as the invalid kind. -/
theorem peek_ok_ne_invalid {l : List Nat} {t : RType} (h : peek l = .ok t) : t ≠ .invalid := by
  unfold peek at h
  cases l with
  | nil => cases h
  | cons b r =>
    dsimp only at h
    by_cases hb : typeOfByte b = .invalid
    · rw [if_pos hb] at h
      cases h
    · rw [if_neg hb] at h
      injection h with h1
      exact h1 ▸ hb

/-- Peek never reports the invalid kind on success. -/
theorem Peek_ok_ne_invalid {l : List Nat} {t : RType} (h : (Peek l).1 = .ok t) :
    t ≠ .invalid := by
  unfold Peek at h
  cases hp : peek l with
  | error e =>
    rw [hp] at h
    cases h
  | ok g =>
    rw [hp] at h
    dsimp only at h
    split at h
    · injection h with h1
      subst h1
      intro hc
      cases hc
    · injection h with h1
      subst h1
      exact peek_ok_ne_invalid hp

/-- A successful Peek implies a nonempty stream. -/
theorem Peek_ok_ne_nil {l : List Nat} {t : RType} (h : (Peek l).1 = .ok t) : l ≠ [] := by
  intro hl
  subst hl
  simp [Peek, peek] at h

/-- Totality and progress of the fueled skip engine: with fuel exceeding the
stream length the engine never runs out, every successful skip consumes at
least one input byte, the counted and chunked element loops never grow the
stream, and a successful chunk drain consumes at least the terminal chunk.
This is the no-spin property: each recursive call works on a strictly
shorter stream, so fuel equal to the stream length plus one always
suffices. -/
theorem discard_total : ∀ f : Nat,
    (∀ (nested : Bool) (lim : Int) (l : List Nat), l.length < f →
      (discardF f nested lim l ≠ none) ∧
      (∀ t l', discardF f nested lim l = some (.ok t, l') → l'.length < l.length)) ∧
    (∀ (k : Nat) (lim : Int) (l : List Nat), l.length < f →
      (discardNF f k lim l ≠ none) ∧
      (∀ l', discardNF f k lim l = some (.ok (), l') → l'.length ≤ l.length)) ∧
    (∀ (lim : Int) (l : List Nat), l.length < f →
      (discardChunksF f lim l ≠ none) ∧
      (∀ l', discardChunksF f lim l = some (.ok (), l') → l'.length ≤ l.length)) ∧
    (∀ (lim : Int) (dst l : List Nat), l.length ≤ f → 0 < f →
      (readBlobChunksF f lim dst l ≠ none) ∧
      (∀ b l', readBlobChunksF f lim dst l = some (.ok b, l') → l'.length + 4 ≤ l.length)) := by
  intro f
  induction f using Nat.strong_induction_on with
  | _ f ih =>
    have hPB : ∀ (lim : Int) (dst l : List Nat), l.length ≤ f → 0 < f →
        (readBlobChunksF f lim dst l ≠ none) ∧
        (∀ b l', readBlobChunksF f lim dst l = some (.ok b, l') → l'.length + 4 ≤ l.length) := by
      intro lim dst l hlen hf
      cases f with
      | zero => omega
      | succ f' =>
        rw [readBlobChunksF]
        cases hrc : ReadBlobChunk lim dst l with
        | mk r l1 =>
          cases r with
          | error e => exact ⟨(by intro hc; cases hc), fun b l' heq => by cases heq⟩
          | ok p =>
            obtain ⟨b0, last⟩ := p
            have h4 := ReadBlobChunk_ok_len hrc
            cases last with
            | true =>
              refine ⟨(by intro hc; cases hc), ?_⟩
              intro b l' heq
              injection heq with h1
              injection h1 with ha hb
              subst hb
              omega
            | false =>
              simp only [Bool.false_eq_true, if_false]
              have hrec := (ih f' (by omega)).2.2.2 lim b0 l1 (by omega) (by omega)
              refine ⟨hrec.1, ?_⟩
              intro b l' heq
              have := hrec.2 b l' heq
              omega
    have hPD : ∀ (nested : Bool) (lim : Int) (l : List Nat), l.length < f →
        (discardF f nested lim l ≠ none) ∧
        (∀ t l', discardF f nested lim l = some (.ok t, l') → l'.length < l.length) := by
      intro nested lim l hlen
      cases f with
      | zero => omega
      | succ f' =>
        rw [discardF]
        cases hp : (Peek l).1 with
        | error e =>
          exact ⟨(by intro hc; cases hc), fun t0 l' heq => by cases heq⟩
        | ok t =>
          have htinv := Peek_ok_ne_invalid hp
          have hnil := Peek_ok_ne_nil hp
          have hlpos : 0 < l.length := List.length_pos.2 hnil
          cases t with
          | invalid => exact absurd rfl htinv
          | array =>
            dsimp only
            cases hop : readAggregateHeader RType.array l with
            | mk r l1 =>
              cases r with
              | error e => exact ⟨(by intro hc; cases hc), fun t0 l' heq => by cases heq⟩
              | ok p =>
                obtain ⟨n, chunked⟩ := p
                have hl1 := readAggregateHeader_ok_len hop
                dsimp only
                rw [if_neg (show ¬(RType.array = RType.attribute ∨ RType.array = RType.map) from by simp)]
                cases nested with
                | false =>
                  simp only [Bool.false_eq_true, if_false]
                  refine ⟨(by intro hc; cases hc), ?_⟩
                  intro t0 l' heq
                  injection heq with h1
                  injection h1 with ha hb
                  subst hb
                  omega
                | true =>
                  simp only [if_true]
                  cases chunked with
                  | false =>
                    simp only [Bool.false_eq_true, if_false]
                    cases hrc : discardNF f' n.toNat lim l1 with
                    | none => exact absurd hrc ((ih f' (by omega)).2.1 _ lim l1 (by omega)).1
                    | some r2 =>
                      obtain ⟨r3, l2⟩ := r2
                      cases r3 with
                      | error e => exact ⟨(by intro hc; cases hc), fun t0 l' heq => by cases heq⟩
                      | ok u =>
                        cases u
                        have hl2 := ((ih f' (by omega)).2.1 _ lim l1 (by omega)).2 l2 hrc
                        refine ⟨(by intro hc; cases hc), ?_⟩
                        intro t0 l' heq
                        injection heq with h1
                        injection h1 with ha hb
                        subst hb
                        omega
                  | true =>
                    simp only [if_true]
                    cases hrc : discardChunksF f' lim l1 with
                    | none => exact absurd hrc ((ih f' (by omega)).2.2.1 lim l1 (by omega)).1
                    | some r2 =>
                      obtain ⟨r3, l2⟩ := r2
                      cases r3 with
                      | error e => exact ⟨(by intro hc; cases hc), fun t0 l' heq => by cases heq⟩
                      | ok u =>
                        cases u
                        have hl2 := ((ih f' (by omega)).2.2.1 lim l1 (by omega)).2 l2 hrc
                        refine ⟨(by intro hc; cases hc), ?_⟩
                        intro t0 l' heq
                        injection heq with h1
                        injection h1 with ha hb
                        subst hb
                        omega
          | push =>
            dsimp only
            cases hop : readAggregateHeader RType.push l with
            | mk r l1 =>
              cases r with
              | error e => exact ⟨(by intro hc; cases hc), fun t0 l' heq => by cases heq⟩
              | ok p =>
                obtain ⟨n, chunked⟩ := p
                have hl1 := readAggregateHeader_ok_len hop
                dsimp only
                rw [if_neg (show ¬(RType.push = RType.attribute ∨ RType.push = RType.map) from by simp)]
                cases nested with
                | false =>
                  simp only [Bool.false_eq_true, if_false]
                  refine ⟨(by intro hc; cases hc), ?_⟩
                  intro t0 l' heq
                  injection heq with h1
                  injection h1 with ha hb
                  subst hb
                  omega
                | true =>
                  simp only [if_true]
                  cases chunked with
                  | false =>
                    simp only [Bool.false_eq_true, if_false]
                    cases hrc : discardNF f' n.toNat lim l1 with
                    | none => exact absurd hrc ((ih f' (by omega)).2.1 _ lim l1 (by omega)).1
                    | some r2 =>
                      obtain ⟨r3, l2⟩ := r2
                      cases r3 with
                      | error e => exact ⟨(by intro hc; cases hc), fun t0 l' heq => by cases heq⟩
                      | ok u =>
                        cases u
                        have hl2 := ((ih f' (by omega)).2.1 _ lim l1 (by omega)).2 l2 hrc
                        refine ⟨(by intro hc; cases hc), ?_⟩
                        intro t0 l' heq
                        injection heq with h1
                        injection h1 with ha hb
                        subst hb
                        omega
                  | true =>
                    simp only [if_true]
                    cases hrc : discardChunksF f' lim l1 with
                    | none => exact absurd hrc ((ih f' (by omega)).2.2.1 lim l1 (by omega)).1
                    | some r2 =>
                      obtain ⟨r3, l2⟩ := r2
                      cases r3 with
                      | error e => exact ⟨(by intro hc; cases hc), fun t0 l' heq => by cases heq⟩
                      | ok u =>
                        cases u
                        have hl2 := ((ih f' (by omega)).2.2.1 lim l1 (by omega)).2 l2 hrc
                        refine ⟨(by intro hc; cases hc), ?_⟩
                        intro t0 l' heq
                        injection heq with h1
                        injection h1 with ha hb
                        subst hb
                        omega
          | set =>
            dsimp only
            cases hop : readAggregateHeader RType.set l with
            | mk r l1 =>
              cases r with
              | error e => exact ⟨(by intro hc; cases hc), fun t0 l' heq => by cases heq⟩
              | ok p =>
                obtain ⟨n, chunked⟩ := p
                have hl1 := readAggregateHeader_ok_len hop
                dsimp only
                rw [if_neg (show ¬(RType.set = RType.attribute ∨ RType.set = RType.map) from by simp)]
                cases nested with
                | false =>
                  simp only [Bool.false_eq_true, if_false]
                  refine ⟨(by intro hc; cases hc), ?_⟩
                  intro t0 l' heq
                  injection heq with h1
                  injection h1 with ha hb
                  subst hb
                  omega
                | true =>
                  simp only [if_true]
                  cases chunked with
                  | false =>
                    simp only [Bool.false_eq_true, if_false]
                    cases hrc : discardNF f' n.toNat lim l1 with
                    | none => exact absurd hrc ((ih f' (by omega)).2.1 _ lim l1 (by omega)).1
                    | some r2 =>
                      obtain ⟨r3, l2⟩ := r2
                      cases r3 with
                      | error e => exact ⟨(by intro hc; cases hc), fun t0 l' heq => by cases heq⟩
                      | ok u =>
                        cases u
                        have hl2 := ((ih f' (by omega)).2.1 _ lim l1 (by omega)).2 l2 hrc
                        refine ⟨(by intro hc; cases hc), ?_⟩
                        intro t0 l' heq
                        injection heq with h1
                        injection h1 with ha hb
                        subst hb
                        omega
                  | true =>
                    simp only [if_true]
                    cases hrc : discardChunksF f' lim l1 with
                    | none => exact absurd hrc ((ih f' (by omega)).2.2.1 lim l1 (by omega)).1
                    | some r2 =>
                      obtain ⟨r3, l2⟩ := r2
                      cases r3 with
                      | error e => exact ⟨(by intro hc; cases hc), fun t0 l' heq => by cases heq⟩
                      | ok u =>
                        cases u
                        have hl2 := ((ih f' (by omega)).2.2.1 lim l1 (by omega)).2 l2 hrc
                        refine ⟨(by intro hc; cases hc), ?_⟩
                        intro t0 l' heq
                        injection heq with h1
                        injection h1 with ha hb
                        subst hb
                        omega
          | «attribute» =>
            dsimp only
            cases hop : readAggregateHeader RType.attribute l with
            | mk r l1 =>
              cases r with
              | error e => exact ⟨(by intro hc; cases hc), fun t0 l' heq => by cases heq⟩
              | ok p =>
                obtain ⟨n, chunked⟩ := p
                have hl1 := readAggregateHeader_ok_len hop
                dsimp only
                rw [if_pos (show RType.attribute = RType.attribute ∨ RType.attribute = RType.map from Or.inl rfl)]
                cases nested with
                | false =>
                  simp only [Bool.false_eq_true, if_false]
                  refine ⟨(by intro hc; cases hc), ?_⟩
                  intro t0 l' heq
                  injection heq with h1
                  injection h1 with ha hb
                  subst hb
                  omega
                | true =>
                  simp only [if_true]
                  cases chunked with
                  | false =>
                    simp only [Bool.false_eq_true, if_false]
                    cases hrc : discardNF f' (wrap64 (n * 2)).toNat lim l1 with
                    | none => exact absurd hrc ((ih f' (by omega)).2.1 _ lim l1 (by omega)).1
                    | some r2 =>
                      obtain ⟨r3, l2⟩ := r2
                      cases r3 with
                      | error e => exact ⟨(by intro hc; cases hc), fun t0 l' heq => by cases heq⟩
                      | ok u =>
                        cases u
                        have hl2 := ((ih f' (by omega)).2.1 _ lim l1 (by omega)).2 l2 hrc
                        refine ⟨(by intro hc; cases hc), ?_⟩
                        intro t0 l' heq
                        injection heq with h1
                        injection h1 with ha hb
                        subst hb
                        omega
                  | true =>
                    simp only [if_true]
                    cases hrc : discardChunksF f' lim l1 with
                    | none => exact absurd hrc ((ih f' (by omega)).2.2.1 lim l1 (by omega)).1
                    | some r2 =>
                      obtain ⟨r3, l2⟩ := r2
                      cases r3 with
                      | error e => exact ⟨(by intro hc; cases hc), fun t0 l' heq => by cases heq⟩
                      | ok u =>
                        cases u
                        have hl2 := ((ih f' (by omega)).2.2.1 lim l1 (by omega)).2 l2 hrc
                        refine ⟨(by intro hc; cases hc), ?_⟩
                        intro t0 l' heq
                        injection heq with h1
                        injection h1 with ha hb
                        subst hb
                        omega
          | map =>
            dsimp only
            cases hop : readAggregateHeader RType.map l with
            | mk r l1 =>
              cases r with
              | error e => exact ⟨(by intro hc; cases hc), fun t0 l' heq => by cases heq⟩
              | ok p =>
                obtain ⟨n, chunked⟩ := p
                have hl1 := readAggregateHeader_ok_len hop
                dsimp only
                rw [if_pos (show RType.map = RType.attribute ∨ RType.map = RType.map from Or.inr rfl)]
                cases nested with
                | false =>
                  simp only [Bool.false_eq_true, if_false]
                  refine ⟨(by intro hc; cases hc), ?_⟩
                  intro t0 l' heq
                  injection heq with h1
                  injection h1 with ha hb
                  subst hb
                  omega
                | true =>
                  simp only [if_true]
                  cases chunked with
                  | false =>
                    simp only [Bool.false_eq_true, if_false]
                    cases hrc : discardNF f' (wrap64 (n * 2)).toNat lim l1 with
                    | none => exact absurd hrc ((ih f' (by omega)).2.1 _ lim l1 (by omega)).1
                    | some r2 =>
                      obtain ⟨r3, l2⟩ := r2
                      cases r3 with
                      | error e => exact ⟨(by intro hc; cases hc), fun t0 l' heq => by cases heq⟩
                      | ok u =>
                        cases u
                        have hl2 := ((ih f' (by omega)).2.1 _ lim l1 (by omega)).2 l2 hrc
                        refine ⟨(by intro hc; cases hc), ?_⟩
                        intro t0 l' heq
                        injection heq with h1
                        injection h1 with ha hb
                        subst hb
                        omega
                  | true =>
                    simp only [if_true]
                    cases hrc : discardChunksF f' lim l1 with
                    | none => exact absurd hrc ((ih f' (by omega)).2.2.1 lim l1 (by omega)).1
                    | some r2 =>
                      obtain ⟨r3, l2⟩ := r2
                      cases r3 with
                      | error e => exact ⟨(by intro hc; cases hc), fun t0 l' heq => by cases heq⟩
                      | ok u =>
                        cases u
                        have hl2 := ((ih f' (by omega)).2.2.1 lim l1 (by omega)).2 l2 hrc
                        refine ⟨(by intro hc; cases hc), ?_⟩
                        intro t0 l' heq
                        injection heq with h1
                        injection h1 with ha hb
                        subst hb
                        omega
          | blobError =>
            dsimp only
            cases hc : (consume [RType.byte RType.blobError, 63, 13, 10] l).1 with
            | true =>
              have hcl := consume_true_len hc
              simp only [List.length_cons, List.length_nil] at hcl
              simp only [if_true]
              cases nested with
              | false =>
                simp only [Bool.false_eq_true, if_false]
                refine ⟨(by intro hc2; cases hc2), ?_⟩
                intro t0 l' heq
                injection heq with h1
                injection h1 with ha hb
                subst hb
                omega
              | true =>
                simp only [if_true]
                have hrec := (ih f' (by omega)).2.2.2 lim []
                  (consume [RType.byte RType.blobError, 63, 13, 10] l).2 (by omega) (by omega)
                cases hrc : readBlobChunksF f' lim [] (consume [RType.byte RType.blobError, 63, 13, 10] l).2 with
                | none => exact absurd hrc hrec.1
                | some r2 =>
                  obtain ⟨r3, l2⟩ := r2
                  cases r3 with
                  | error e => exact ⟨(by intro hc2; cases hc2), fun t0 l' heq => by cases heq⟩
                  | ok b2 =>
                    have hl2 := hrec.2 b2 l2 hrc
                    refine ⟨(by intro hc2; cases hc2), ?_⟩
                    intro t0 l' heq
                    injection heq with h1
                    injection h1 with ha hb
                    subst hb
                    omega
            | false =>
              simp only [Bool.false_eq_true, if_false]
              cases hop : readBlob lim RType.blobError [] l with
              | mk r l1 =>
                cases r with
                | error e => exact ⟨(by intro hc2; cases hc2), fun t0 l' heq => by cases heq⟩
                | ok b2 =>
                  have hl1 := readBlob_ok_len hop
                  refine ⟨(by intro hc2; cases hc2), ?_⟩
                  intro t0 l' heq
                  injection heq with h1
                  injection h1 with ha hb
                  subst hb
                  omega
          | blobString =>
            dsimp only
            cases hc : (consume [RType.byte RType.blobString, 63, 13, 10] l).1 with
            | true =>
              have hcl := consume_true_len hc
              simp only [List.length_cons, List.length_nil] at hcl
              simp only [if_true]
              cases nested with
              | false =>
                simp only [Bool.false_eq_true, if_false]
                refine ⟨(by intro hc2; cases hc2), ?_⟩
                intro t0 l' heq
                injection heq with h1
                injection h1 with ha hb
                subst hb
                omega
              | true =>
                simp only [if_true]
                have hrec := (ih f' (by omega)).2.2.2 lim []
                  (consume [RType.byte RType.blobString, 63, 13, 10] l).2 (by omega) (by omega)
                cases hrc : readBlobChunksF f' lim [] (consume [RType.byte RType.blobString, 63, 13, 10] l).2 with
                | none => exact absurd hrc hrec.1
                | some r2 =>
                  obtain ⟨r3, l2⟩ := r2
                  cases r3 with
                  | error e => exact ⟨(by intro hc2; cases hc2), fun t0 l' heq => by cases heq⟩
                  | ok b2 =>
                    have hl2 := hrec.2 b2 l2 hrc
                    refine ⟨(by intro hc2; cases hc2), ?_⟩
                    intro t0 l' heq
                    injection heq with h1
                    injection h1 with ha hb
                    subst hb
                    omega
            | false =>
              simp only [Bool.false_eq_true, if_false]
              cases hop : readBlob lim RType.blobString [] l with
              | mk r l1 =>
                cases r with
                | error e => exact ⟨(by intro hc2; cases hc2), fun t0 l' heq => by cases heq⟩
                | ok b2 =>
                  have hl1 := readBlob_ok_len hop
                  refine ⟨(by intro hc2; cases hc2), ?_⟩
                  intro t0 l' heq
                  injection heq with h1
                  injection h1 with ha hb
                  subst hb
                  omega
          | blobChunk =>
            dsimp only
            cases nested with
            | false =>
              simp only [Bool.false_eq_true, if_false]
              cases hop : ReadBlobChunk lim [] l with
              | mk r l1 =>
                cases r with
                | error e => exact ⟨(by intro hc; cases hc), fun t0 l' heq => by cases heq⟩
                | ok p =>
                  obtain ⟨b2, last⟩ := p
                  have hl1 := ReadBlobChunk_ok_len hop
                  refine ⟨(by intro hc; cases hc), ?_⟩
                  intro t0 l' heq
                  injection heq with h1
                  injection h1 with ha hb
                  subst hb
                  omega
            | true =>
              simp only [if_true]
              have hrec := (ih f' (by omega)).2.2.2 lim [] l (by omega) (by omega)
              cases hrc : readBlobChunksF f' lim [] l with
              | none => exact absurd hrc hrec.1
              | some r2 =>
                obtain ⟨r3, l2⟩ := r2
                cases r3 with
                | error e => exact ⟨(by intro hc; cases hc), fun t0 l' heq => by cases heq⟩
                | ok b2 =>
                  have hl2 := hrec.2 b2 l2 hrc
                  refine ⟨(by intro hc; cases hc), ?_⟩
                  intro t0 l' heq
                  injection heq with h1
                  injection h1 with ha hb
                  subst hb
                  omega
          | simpleError =>
            dsimp only
            cases hop : readSimple lim RType.simpleError [] l with
            | mk r l1 =>
              cases r with
              | error e => exact ⟨(by intro hc; cases hc), fun t0 l' heq => by cases heq⟩
              | ok z =>
                have hl1 := readSimple_ok_len hop
                refine ⟨(by intro hc; cases hc), ?_⟩
                intro t0 l' heq
                injection heq with h1
                injection h1 with ha hb
                subst hb
                omega
          | simpleString =>
            dsimp only
            cases hop : readSimple lim RType.simpleString [] l with
            | mk r l1 =>
              cases r with
              | error e => exact ⟨(by intro hc; cases hc), fun t0 l' heq => by cases heq⟩
              | ok z =>
                have hl1 := readSimple_ok_len hop
                refine ⟨(by intro hc; cases hc), ?_⟩
                intro t0 l' heq
                injection heq with h1
                injection h1 with ha hb
                subst hb
                omega
          | bigNumber =>
            dsimp only
            cases hop : ReadBigNumber lim l with
            | mk r l1 =>
              cases r with
              | error e => exact ⟨(by intro hc; cases hc), fun t0 l' heq => by cases heq⟩
              | ok z =>
                have hl1 := ReadBigNumber_ok_len hop
                refine ⟨(by intro hc; cases hc), ?_⟩
                intro t0 l' heq
                injection heq with h1
                injection h1 with ha hb
                subst hb
                omega
          | boolean =>
            dsimp only
            cases hop : ReadBoolean lim l with
            | mk r l1 =>
              cases r with
              | error e => exact ⟨(by intro hc; cases hc), fun t0 l' heq => by cases heq⟩
              | ok z =>
                have hl1 := ReadBoolean_ok_len hop
                refine ⟨(by intro hc; cases hc), ?_⟩
                intro t0 l' heq
                injection heq with h1
                injection h1 with ha hb
                subst hb
                omega
          | double =>
            dsimp only
            cases hop : ReadDouble lim l with
            | mk r l1 =>
              cases r with
              | error e => exact ⟨(by intro hc; cases hc), fun t0 l' heq => by cases heq⟩
              | ok z =>
                have hl1 := ReadDouble_ok_len hop
                refine ⟨(by intro hc; cases hc), ?_⟩
                intro t0 l' heq
                injection heq with h1
                injection h1 with ha hb
                subst hb
                omega
          | streamEnd =>
            dsimp only
            cases hop : ReadEnd l with
            | mk r l1 =>
              cases r with
              | error e => exact ⟨(by intro hc; cases hc), fun t0 l' heq => by cases heq⟩
              | ok z =>
                have hl1 := ReadEnd_ok_len hop
                refine ⟨(by intro hc; cases hc), ?_⟩
                intro t0 l' heq
                injection heq with h1
                injection h1 with ha hb
                subst hb
                omega
          | number =>
            dsimp only
            cases hop : ReadNumber l with
            | mk r l1 =>
              cases r with
              | error e => exact ⟨(by intro hc; cases hc), fun t0 l' heq => by cases heq⟩
              | ok z =>
                have hl1 := ReadNumber_ok_len hop
                refine ⟨(by intro hc; cases hc), ?_⟩
                intro t0 l' heq
                injection heq with h1
                injection h1 with ha hb
                subst hb
                omega
          | null =>
            dsimp only
            cases hop : ReadNull l with
            | mk r l1 =>
              cases r with
              | error e => exact ⟨(by intro hc; cases hc), fun t0 l' heq => by cases heq⟩
              | ok z =>
                have hl1 := ReadNull_ok_len hop
                refine ⟨(by intro hc; cases hc), ?_⟩
                intro t0 l' heq
                injection heq with h1
                injection h1 with ha hb
                subst hb
                omega
          | verbatimString =>
            dsimp only
            cases hop : ReadVerbatimString lim [] l with
            | mk r l1 =>
              cases r with
              | error e => exact ⟨(by intro hc; cases hc), fun t0 l' heq => by cases heq⟩
              | ok z =>
                have hl1 := ReadVerbatimString_ok_len hop
                refine ⟨(by intro hc; cases hc), ?_⟩
                intro t0 l' heq
                injection heq with h1
                injection h1 with ha hb
                subst hb
                omega
    have hPN : ∀ (k : Nat) (lim : Int) (l : List Nat), l.length < f →
        (discardNF f k lim l ≠ none) ∧
        (∀ l', discardNF f k lim l = some (.ok (), l') → l'.length ≤ l.length) := by
      intro k
      induction k with
      | zero =>
        intro lim l hlen
        rw [discardNF]
        refine ⟨(by intro hc; cases hc), ?_⟩
        intro l' heq
        injection heq with h1
        injection h1 with ha hb
        subst hb
        omega
      | succ k ihk =>
        intro lim l hlen
        rw [discardNF]
        cases hd : discardF f true lim l with
        | none => exact absurd hd (hPD true lim l hlen).1
        | some r =>
          obtain ⟨r3, l1⟩ := r
          cases r3 with
          | error e => exact ⟨(by intro hc; cases hc), fun l' heq => by cases heq⟩
          | ok t =>
            have hl1 : l1.length < l.length := (hPD true lim l hlen).2 t l1 hd
            have hrec := ihk lim l1 (by omega)
            refine ⟨hrec.1, ?_⟩
            intro l' heq
            have := hrec.2 l' heq
            omega
    have hPC : ∀ (lim : Int) (l : List Nat), l.length < f →
        (discardChunksF f lim l ≠ none) ∧
        (∀ l', discardChunksF f lim l = some (.ok (), l') → l'.length ≤ l.length) := by
      intro lim l hlen
      cases f with
      | zero => omega
      | succ f' =>
        rw [discardChunksF]
        cases hd : discardF (f' + 1) true lim l with
        | none => exact absurd hd (hPD true lim l hlen).1
        | some r =>
          obtain ⟨r3, l1⟩ := r
          cases r3 with
          | error e => exact ⟨(by intro hc; cases hc), fun l' heq => by cases heq⟩
          | ok t =>
            have hl1 : l1.length < l.length := (hPD true lim l hlen).2 t l1 hd
            dsimp only
            by_cases ht : t = RType.streamEnd
            · rw [if_pos ht]
              refine ⟨(by intro hc; cases hc), ?_⟩
              intro l' heq
              injection heq with h1
              injection h1 with ha hb
              subst hb
              omega
            · rw [if_neg ht]
              have hrec := (ih f' (by omega)).2.2.1 lim l1 (by omega)
              refine ⟨hrec.1, ?_⟩
              intro l' heq
              have := hrec.2 l' heq
              omega
    exact ⟨hPD, hPN, hPC, hPB⟩

/-! Lemmas for the skip-engine exactness theorem. -/

/-- natDigits has at least one digit. -/
theorem natDigits_len_pos (n : Nat) : 0 < (natDigits n).length :=
  List.length_pos.2 (natDigits_ne_nil n)

/-- A literal match fails as soon as the first byte differs. -/
theorem matchBytes_head_ne {c0 x0 : Nat} {cs xs : List Nat} (h : x0 ≠ c0) :
    matchBytes (c0 :: cs) (x0 :: xs) = false := by
  simp [matchBytes, h]

/-- The legacy -1 length field never follows where decimal digits stand. -/
theorem matchBytes_45_natDigits (n : Nat) (x : List Nat) :
    matchBytes [45, 49, 13, 10] (natDigits n ++ x) = false := by
  obtain ⟨d, ds, hd⟩ : ∃ d ds, natDigits n = d :: ds := by
    cases h : natDigits n with
    | nil => exact absurd h (natDigits_ne_nil n)
    | cons d ds => exact ⟨d, ds, rfl⟩
  have hdig := natDigits_digits n d (by rw [hd]; simp)
  rw [hd]
  simp only [List.cons_append]
  exact matchBytes_head_ne (by omega)

/-- Peek at a valid lead byte whose tail rules out the legacy null form:
the byte's kind, nothing consumed. -/
theorem Peek_cons_of {b : Nat} {r : List Nat}
    (hb : typeOfByte b ≠ .invalid)
    (hleg : ¬((typeOfByte b = .array ∨ typeOfByte b = .blobString) ∧
      matchBytes [45, 49, 13, 10] r = true)) :
    Peek (b :: r) = (.ok (typeOfByte b), b :: r) := by
  unfold Peek peek
  dsimp only
  rw [if_neg hb]
  dsimp only
  rw [if_neg]
  intro hcond
  apply hleg
  refine ⟨hcond.1, ?_⟩
  have h2 := hcond.2
  simp only [matchBytes, Bool.and_eq_true] at h2
  exact h2.2

/-- A written double literal reads back as its classification. -/
theorem ReadDouble_lit_read {lim : Int} (lit rest : List Nat)
    (hok : goParseFloatOk lit = true) (hLF : ∀ b ∈ lit, b ≠ 10) (hlim : lim < 0) :
    ReadDouble lim (RType.byte .double :: (lit ++ 13 :: 10 :: rest)) =
      (.ok (classifyFloat lit), rest) := by
  have hne : lit ≠ [] := by
    intro he
    subst he
    revert hok
    decide
  unfold ReadDouble
  rw [expect_cons_byte .double (by simp) _]
  dsimp only
  unfold readDouble
  have hline := @readLine_ok lim [] lit rest hLF (checkReadSizeLimit_neg hlim _)
  simp only [List.nil_append] at hline
  rw [hline]
  dsimp only
  rw [if_neg hne, if_pos hok]

/-- A written non-empty blob chunk reads back onto any destination. -/
theorem ReadBlobChunk_chunk_dst {lim : Int} (dst c X : List Nat)
    (hne : c ≠ []) (hlim : lim < 0)
    (hlen : (c.length : Int) < 9223372036854775808) :
    ReadBlobChunk lim dst (Writer.writeBlob .blobChunk c ++ X) = (.ok (dst ++ c, false), X) := by
  have hbl : 0 < c.length := List.length_pos.2 hne
  rw [writeBlob_shape]
  unfold ReadBlobChunk
  rw [consume_chunk_digits hbl _]
  dsimp only
  rw [@readBlob_ok lim .blobChunk dst c X (by simp) hlen (checkReadSizeLimit_neg hlim _)]
  rfl

/-- readAggregateHeader on the streamed header literal. -/
theorem readAggregateHeader_stream (t : RType) (X : List Nat) :
    readAggregateHeader t ([t.byte, 63, 13, 10] ++ X) = (.ok (-1, true), X) := by
  unfold readAggregateHeader
  rw [consume_append]
  rfl

/-- The skip engine on a stream-end value. -/
theorem discardF_end (f : Nat) (nested : Bool) (lim : Int) (rest : List Nat) :
    discardF (f + 1) nested lim (46 :: 13 :: 10 :: rest) = some (.ok .streamEnd, rest) := by
  rw [discardF]
  rfl

/-- Every encoding is non-empty. -/
theorem WireVal.enc_pos (v : WireVal) : 0 < v.enc.length := by
  cases v <;>
    simp [WireVal.enc, Writer.writeBlob, Writer.writeNumber, Writer.WriteNumber,
      Writer.WriteBigNumber, Writer.WriteBoolean, Writer.WriteNull]
  case boolean b => cases b <;> simp

/-- No value has the stream-end kind. -/
theorem WireVal.kind_ne_end (v : WireVal) : v.kind ≠ .streamEnd := by
  cases v <;> simp [WireVal.kind]

/-- Pair encodings are the encodings of the flattened value list. -/
theorem encPairs_eq (ps : List (WireVal × WireVal)) :
    encPairs ps = encList (pairsFlat ps) := by
  induction ps with
  | nil => rfl
  | cons p ps ih =>
    simp only [encPairs, pairsFlat, List.flatMap_cons, encList, ih, List.append_assoc]
    rfl

/-- The flattened pair list has twice the pairs' length. -/
theorem pairsFlat_length (ps : List (WireVal × WireVal)) :
    (pairsFlat ps).length = 2 * ps.length := by
  induction ps with
  | nil => rfl
  | cons p ps ih =>
    simp only [pairsFlat, List.flatMap_cons] at ih ⊢
    simp only [List.length_append, List.length_cons, List.length_nil, ih]
    omega

/-- Validity of pairs gives validity of the flattened list. -/
theorem wfPairs_flat {ps : List (WireVal × WireVal)} (h : wfPairs ps = true) :
    wfList (pairsFlat ps) = true := by
  induction ps with
  | nil => rfl
  | cons p ps ih =>
    simp only [wfPairs, Bool.and_eq_true] at h
    simp only [pairsFlat, List.flatMap_cons, List.cons_append, wfList, Bool.and_eq_true]
    exact ⟨h.1.1, h.1.2, by simpa [pairsFlat] using ih h.2⟩

/-- Length of a written blob. -/
theorem writeBlob_length (t : RType) (s : List Nat) :
    (Writer.writeBlob t s).length = s.length + (natDigits s.length).length + 5 := by
  simp [Writer.writeBlob]
  omega

/-- Length of a written number line. -/
theorem writeNumber_length (t : RType) (m : Int) :
    (Writer.writeNumber t m).length = (intDecimal m).length + 3 := by
  simp [Writer.writeNumber]

/-- intDecimal always has at least one byte. -/
theorem intDecimal_len_pos (m : Int) : 0 < (intDecimal m).length := by
  unfold intDecimal
  split
  · simp
  · exact natDigits_len_pos _

/-- Exact consumption by the skip engine: on every syntactically valid wire
value, with any fuel bound above the stream length, the engine returns the
value's Peek kind and leaves the stream exactly at the first byte after the
value - scalars, blobs, verbatim strings, counted and streamed aggregates,
chunked blobs, legacy nulls, and arbitrary nesting.  The companion
conjuncts state the matching facts for the counted element loop, the
chunked element loop, and the blob chunk drain. -/
theorem discard_exact : ∀ f : Nat,
    (∀ (lim : Int) (v : WireVal) (rest : List Nat), lim < 0 → v.wf = true →
      (v.enc ++ rest).length < f →
      discardF f true lim (v.enc ++ rest) = some (.ok v.kind, rest)) ∧
    (∀ (lim : Int) (xs : List WireVal) (rest : List Nat), lim < 0 → wfList xs = true →
      (encList xs ++ rest).length < f →
      discardNF f xs.length lim (encList xs ++ rest) = some (.ok (), rest)) ∧
    (∀ (lim : Int) (xs : List WireVal) (rest : List Nat), lim < 0 → wfList xs = true →
      (encList xs ++ 46 :: 13 :: 10 :: rest).length < f →
      discardChunksF f lim (encList xs ++ 46 :: 13 :: 10 :: rest) = some (.ok (), rest)) ∧
    (∀ (lim : Int) (dst : List Nat) (cs : List (List Nat)) (rest : List Nat), lim < 0 →
      wfChunks cs = true →
      (encChunks cs ++ RType.byte RType.blobChunk :: 48 :: 13 :: 10 :: rest).length ≤ f → 0 < f →
      readBlobChunksF f lim dst (encChunks cs ++ RType.byte RType.blobChunk :: 48 :: 13 :: 10 :: rest) =
        some (.ok (dst ++ cs.flatten), rest)) := by
  intro f
  induction f using Nat.strong_induction_on with
  | _ f ih =>
    have hMB : ∀ (lim : Int) (dst : List Nat) (cs : List (List Nat)) (rest : List Nat), lim < 0 →
        wfChunks cs = true →
        (encChunks cs ++ RType.byte RType.blobChunk :: 48 :: 13 :: 10 :: rest).length ≤ f → 0 < f →
        readBlobChunksF f lim dst (encChunks cs ++ RType.byte RType.blobChunk :: 48 :: 13 :: 10 :: rest) =
          some (.ok (dst ++ cs.flatten), rest) := by
      intro lim dst cs rest hlim hwf hlen hf
      cases f with
      | zero => omega
      | succ f' =>
        cases cs with
        | nil =>
          rw [readBlobChunksF]
          simp only [encChunks, List.nil_append]
          rw [show ReadBlobChunk lim dst (RType.byte RType.blobChunk :: 48 :: 13 :: 10 :: rest) =
            (.ok (dst, true), rest) from rfl]
          simp
        | cons c cs =>
          simp only [wfChunks, List.all_cons, Bool.and_eq_true, decide_eq_true_eq] at hwf
          obtain ⟨⟨hcne0, hclen⟩, hwf2⟩ := hwf
          have hcne : c ≠ [] := by
            intro he
            subst he
            simp at hcne0
          have hwl := writeBlob_length RType.blobChunk c
          have hdp := natDigits_len_pos c.length
          have hcp : 0 < c.length := List.length_pos.2 hcne
          rw [readBlobChunksF]
          simp only [encChunks, List.append_assoc]
          rw [ReadBlobChunk_chunk_dst dst c _ hcne hlim hclen]
          dsimp only
          simp only [Bool.false_eq_true, if_false]
          have hrec := (ih f' (by omega)).2.2.2 lim (dst ++ c) cs rest hlim
            (by simpa [wfChunks] using hwf2)
            (by simp only [encChunks, List.length_append, List.length_cons] at hlen hwl ⊢; omega)
            (by simp only [encChunks, List.length_append, List.length_cons] at hlen hwl; omega)
          rw [hrec]
          simp [List.append_assoc]
    have hMD : ∀ (lim : Int) (v : WireVal) (rest : List Nat), lim < 0 → v.wf = true →
        (v.enc ++ rest).length < f →
        discardF f true lim (v.enc ++ rest) = some (.ok v.kind, rest) := by
      intro lim v rest hlim hwf hlen
      cases f with
      | zero => omega
      | succ f' =>
        rw [discardF]
        cases v with
          | blobString body =>
            simp only [WireVal.enc, WireVal.kind, WireVal.wf, decide_eq_true_eq] at hwf hlen ⊢
            rw [writeBlob_shape]
            have hpeek := Peek_cons_of (b := RType.byte RType.blobString)
              (r := natDigits body.length ++ 13 :: 10 :: (body ++ 13 :: 10 :: rest))
              (by decide)
              (fun hcond => absurd hcond.2 (by simp [matchBytes_45_natDigits]))
            rw [show typeOfByte (RType.byte RType.blobString) = RType.blobString from rfl] at hpeek
            rw [hpeek]
            dsimp only
            rw [consume_marker_digits RType.blobString body.length _]
            dsimp only
            rw [@readBlob_ok lim RType.blobString [] body rest (by simp) hwf (checkReadSizeLimit_neg hlim _)]
            rfl
          | blobError body =>
            simp only [WireVal.enc, WireVal.kind, WireVal.wf, decide_eq_true_eq] at hwf hlen ⊢
            rw [writeBlob_shape]
            have hpeek := Peek_cons_of (b := RType.byte RType.blobError)
              (r := natDigits body.length ++ 13 :: 10 :: (body ++ 13 :: 10 :: rest))
              (by decide)
              (fun hcond => absurd hcond.2 (by simp [matchBytes_45_natDigits]))
            rw [show typeOfByte (RType.byte RType.blobError) = RType.blobError from rfl] at hpeek
            rw [hpeek]
            dsimp only
            rw [consume_marker_digits RType.blobError body.length _]
            dsimp only
            rw [@readBlob_ok lim RType.blobError [] body rest (by simp) hwf (checkReadSizeLimit_neg hlim _)]
            rfl
          | verbatimString pfx body =>
            simp only [WireVal.enc, WireVal.kind, WireVal.wf, Bool.and_eq_true, decide_eq_true_eq] at hwf hlen ⊢
            obtain ⟨hp3, hvlen⟩ := hwf
            have hw : Writer.WriteVerbatimString pfx body = .ok
                (RType.byte .verbatimString :: natDigits (pfx.length + 1 + body.length) ++ [13, 10] ++ pfx ++ [58] ++ body ++ [13, 10]) := by
              unfold Writer.WriteVerbatimString
              rw [if_neg (by omega)]
            have hvb := ReadVerbatimString_write_read pfx body rest hlim (by push_cast at hvlen ⊢; omega) hw
            simp only [List.append_assoc, List.cons_append, List.nil_append] at hvb ⊢
            have hpeek := Peek_cons_of (b := RType.byte RType.verbatimString)
              (r := natDigits (pfx.length + 1 + body.length) ++ 13 :: 10 :: (pfx ++ 58 :: (body ++ 13 :: 10 :: rest)))
              (by decide)
              (fun hcond => absurd hcond.2 (by simp [matchBytes_45_natDigits]))
            rw [show typeOfByte (RType.byte RType.verbatimString) = RType.verbatimString from rfl] at hpeek
            rw [hpeek]
            dsimp only
            rw [hvb]
          | chunkedBlobString chunks =>
            simp only [WireVal.enc, WireVal.kind, WireVal.wf] at hwf hlen ⊢
            simp only [List.cons_append, List.nil_append, List.append_assoc] at hlen ⊢
            have hpeek := Peek_cons_of (b := RType.byte RType.blobString)
              (r := (63 : Nat) :: 13 :: 10 :: (encChunks chunks ++ RType.byte RType.blobChunk :: 48 :: 13 :: 10 :: rest))
              (by decide)
              (fun hcond => absurd hcond.2 (by rw [matchBytes_head_ne (by norm_num)]; simp))
            rw [show typeOfByte (RType.byte RType.blobString) = RType.blobString from rfl] at hpeek
            rw [hpeek]
            dsimp only
            have hcons : consume [RType.byte RType.blobString, 63, 13, 10]
                (RType.byte RType.blobString :: (63 : Nat) :: 13 :: 10 :: (encChunks chunks ++ RType.byte RType.blobChunk :: 48 :: 13 :: 10 :: rest)) =
                (true, encChunks chunks ++ RType.byte RType.blobChunk :: 48 :: 13 :: 10 :: rest) := by
              have := consume_append [RType.byte RType.blobString, 63, 13, 10]
                (encChunks chunks ++ RType.byte RType.blobChunk :: 48 :: 13 :: 10 :: rest)
              simpa using this
            rw [hcons]
            dsimp only
            simp only [if_true]
            have hrec := (ih f' (by omega)).2.2.2 lim [] chunks rest hlim hwf
              (by simp only [List.length_append, List.length_cons] at hlen ⊢; omega)
              (by simp only [List.length_append, List.length_cons] at hlen; omega)
            rw [hrec]
          | chunkedBlobError chunks =>
            simp only [WireVal.enc, WireVal.kind, WireVal.wf] at hwf hlen ⊢
            simp only [List.cons_append, List.nil_append, List.append_assoc] at hlen ⊢
            have hpeek := Peek_cons_of (b := RType.byte RType.blobError)
              (r := (63 : Nat) :: 13 :: 10 :: (encChunks chunks ++ RType.byte RType.blobChunk :: 48 :: 13 :: 10 :: rest))
              (by decide)
              (fun hcond => absurd hcond.2 (by rw [matchBytes_head_ne (by norm_num)]; simp))
            rw [show typeOfByte (RType.byte RType.blobError) = RType.blobError from rfl] at hpeek
            rw [hpeek]
            dsimp only
            have hcons : consume [RType.byte RType.blobError, 63, 13, 10]
                (RType.byte RType.blobError :: (63 : Nat) :: 13 :: 10 :: (encChunks chunks ++ RType.byte RType.blobChunk :: 48 :: 13 :: 10 :: rest)) =
                (true, encChunks chunks ++ RType.byte RType.blobChunk :: 48 :: 13 :: 10 :: rest) := by
              have := consume_append [RType.byte RType.blobError, 63, 13, 10]
                (encChunks chunks ++ RType.byte RType.blobChunk :: 48 :: 13 :: 10 :: rest)
              simpa using this
            rw [hcons]
            dsimp only
            simp only [if_true]
            have hrec := (ih f' (by omega)).2.2.2 lim [] chunks rest hlim hwf
              (by simp only [List.length_append, List.length_cons] at hlen ⊢; omega)
              (by simp only [List.length_append, List.length_cons] at hlen; omega)
            rw [hrec]
          | simpleString body =>
            simp only [WireVal.enc, WireVal.kind, WireVal.wf, List.all_eq_true, decide_eq_true_eq, ne_eq] at hwf hlen ⊢
            simp only [List.cons_append, List.append_assoc, List.nil_append] at hlen ⊢
            have hpeek := Peek_cons_of (b := RType.byte RType.simpleString) (r := body ++ 13 :: 10 :: rest)
              (by decide) (fun hcond => absurd hcond.1 (by decide))
            rw [show typeOfByte (RType.byte RType.simpleString) = RType.simpleString from rfl] at hpeek
            rw [hpeek]
            dsimp only
            rw [readSimple_write_read RType.simpleString body rest (by simp) hlim hwf]
          | simpleError body =>
            simp only [WireVal.enc, WireVal.kind, WireVal.wf, List.all_eq_true, decide_eq_true_eq, ne_eq] at hwf hlen ⊢
            simp only [List.cons_append, List.append_assoc, List.nil_append] at hlen ⊢
            have hpeek := Peek_cons_of (b := RType.byte RType.simpleError) (r := body ++ 13 :: 10 :: rest)
              (by decide) (fun hcond => absurd hcond.1 (by decide))
            rw [show typeOfByte (RType.byte RType.simpleError) = RType.simpleError from rfl] at hpeek
            rw [hpeek]
            dsimp only
            rw [readSimple_write_read RType.simpleError body rest (by simp) hlim hwf]
          | number n =>
            simp only [WireVal.enc, WireVal.kind, WireVal.wf, Bool.and_eq_true, decide_eq_true_eq] at hwf hlen ⊢
            obtain ⟨hlo, hhi⟩ := hwf
            have hsh : Writer.WriteNumber n ++ rest = RType.byte RType.number :: (intDecimal n ++ 13 :: 10 :: rest) := by
              simp [Writer.WriteNumber, Writer.writeNumber, List.append_assoc]
            rw [hsh]
            have hpeek := Peek_cons_of (b := RType.byte RType.number) (r := intDecimal n ++ 13 :: 10 :: rest)
              (by decide) (fun hcond => absurd hcond.1 (by decide))
            rw [show typeOfByte (RType.byte RType.number) = RType.number from rfl] at hpeek
            rw [hpeek]
            dsimp only
            have hnum := ReadNumber_write_read n rest hlo hhi
            rw [hsh] at hnum
            rw [hnum]
          | bigNumber n =>
            simp only [WireVal.enc, WireVal.kind] at hlen ⊢
            have hsh : Writer.WriteBigNumber n ++ rest = RType.byte RType.bigNumber :: (intDecimal n ++ 13 :: 10 :: rest) := by
              simp [Writer.WriteBigNumber, List.append_assoc]
            rw [hsh]
            have hpeek := Peek_cons_of (b := RType.byte RType.bigNumber) (r := intDecimal n ++ 13 :: 10 :: rest)
              (by decide) (fun hcond => absurd hcond.1 (by decide))
            rw [show typeOfByte (RType.byte RType.bigNumber) = RType.bigNumber from rfl] at hpeek
            rw [hpeek]
            dsimp only
            have hnum := ReadBigNumber_write_read n rest hlim
            rw [hsh] at hnum
            rw [hnum]
          | boolean bv =>
            cases bv
            · simp only [WireVal.enc, WireVal.kind] at hlen ⊢
              have hsh : Writer.WriteBoolean false ++ rest = (35 : Nat) :: 102 :: 13 :: 10 :: rest := rfl
              rw [hsh]
              have hpeek := Peek_cons_of (b := (35 : Nat)) (r := (102 : Nat) :: 13 :: 10 :: rest)
                (by decide) (fun hcond => absurd hcond.1 (by decide))
              rw [show typeOfByte 35 = RType.boolean from rfl] at hpeek
              rw [hpeek]
              dsimp only
              have hb := ReadBoolean_write_read false rest hlim
              rw [hsh] at hb
              rw [hb]
            · simp only [WireVal.enc, WireVal.kind] at hlen ⊢
              have hsh : Writer.WriteBoolean true ++ rest = (35 : Nat) :: 116 :: 13 :: 10 :: rest := rfl
              rw [hsh]
              have hpeek := Peek_cons_of (b := (35 : Nat)) (r := (116 : Nat) :: 13 :: 10 :: rest)
                (by decide) (fun hcond => absurd hcond.1 (by decide))
              rw [show typeOfByte 35 = RType.boolean from rfl] at hpeek
              rw [hpeek]
              dsimp only
              have hb := ReadBoolean_write_read true rest hlim
              rw [hsh] at hb
              rw [hb]
          | dbl lit =>
            simp only [WireVal.enc, WireVal.kind, WireVal.wf, Bool.and_eq_true, List.all_eq_true, decide_eq_true_eq, ne_eq] at hwf hlen ⊢
            obtain ⟨hok, hLF⟩ := hwf
            simp only [List.cons_append, List.append_assoc, List.nil_append] at hlen ⊢
            have hpeek := Peek_cons_of (b := RType.byte RType.double) (r := lit ++ 13 :: 10 :: rest)
              (by decide) (fun hcond => absurd hcond.1 (by decide))
            rw [show typeOfByte (RType.byte RType.double) = RType.double from rfl] at hpeek
            rw [hpeek]
            dsimp only
            rw [ReadDouble_lit_read lit rest hok hLF hlim]
          | null =>
            simp only [WireVal.enc, WireVal.kind, Writer.WriteNull, List.cons_append, List.nil_append] at hlen ⊢
            rfl
          | legacyNullArray =>
            simp only [WireVal.enc, WireVal.kind, List.cons_append, List.nil_append] at hlen ⊢
            rfl
          | legacyNullBlob =>
            simp only [WireVal.enc, WireVal.kind, List.cons_append, List.nil_append] at hlen ⊢
            rfl
          | arr xs =>
            simp only [WireVal.enc, WireVal.kind, WireVal.wf, Bool.and_eq_true, decide_eq_true_eq] at hwf hlen ⊢
            obtain ⟨hcnt, hxs⟩ := hwf
            have hnn : ¬((xs.length : Int) < 0) := by omega
            have hsh : Writer.writeNumber RType.array (xs.length : Int) ++ (encList xs ++ rest) =
                RType.byte RType.array :: (natDigits ((xs.length : Int)).toNat ++ 13 :: 10 :: (encList xs ++ rest)) := by
              simp [Writer.writeNumber, intDecimal, hnn, List.append_assoc]
            rw [List.append_assoc, hsh]
            have hpeek := Peek_cons_of (b := RType.byte RType.array)
              (r := natDigits ((xs.length : Int)).toNat ++ 13 :: 10 :: (encList xs ++ rest))
              (by decide) (fun hcond => absurd hcond.2 (by simp [matchBytes_45_natDigits]))
            rw [show typeOfByte (RType.byte RType.array) = RType.array from rfl] at hpeek
            rw [hpeek]
            dsimp only
            have hagg := readAggregateHeader_write_read RType.array (xs.length : Int)
              (encList xs ++ rest) (by simp) (by omega) hcnt
            rw [hsh] at hagg
            rw [hagg]
            dsimp only
            simp only [if_true]
            simp only [Bool.false_eq_true, if_false]
            rw [if_neg (show ¬(RType.array = RType.attribute ∨ RType.array = RType.map) from by simp)]
            have htn : (((xs.length : Int)).toNat) = xs.length := by omega
            rw [htn]
            have hlen2 : (encList xs ++ rest).length < f' := by
              have hwl := writeNumber_length RType.array ((xs.length : Nat) : Int)
              have hip := intDecimal_len_pos ((xs.length : Nat) : Int)
              simp only [List.length_append] at hlen hwl ⊢
              omega
            have hrec := (ih f' (by omega)).2.1 lim xs rest hlim hxs hlen2
            rw [hrec]
          | push xs =>
            simp only [WireVal.enc, WireVal.kind, WireVal.wf, Bool.and_eq_true, decide_eq_true_eq] at hwf hlen ⊢
            obtain ⟨hcnt, hxs⟩ := hwf
            have hnn : ¬((xs.length : Int) < 0) := by omega
            have hsh : Writer.writeNumber RType.push (xs.length : Int) ++ (encList xs ++ rest) =
                RType.byte RType.push :: (natDigits ((xs.length : Int)).toNat ++ 13 :: 10 :: (encList xs ++ rest)) := by
              simp [Writer.writeNumber, intDecimal, hnn, List.append_assoc]
            rw [List.append_assoc, hsh]
            have hpeek := Peek_cons_of (b := RType.byte RType.push)
              (r := natDigits ((xs.length : Int)).toNat ++ 13 :: 10 :: (encList xs ++ rest))
              (by decide) (fun hcond => absurd hcond.2 (by simp [matchBytes_45_natDigits]))
            rw [show typeOfByte (RType.byte RType.push) = RType.push from rfl] at hpeek
            rw [hpeek]
            dsimp only
            have hagg := readAggregateHeader_write_read RType.push (xs.length : Int)
              (encList xs ++ rest) (by simp) (by omega) hcnt
            rw [hsh] at hagg
            rw [hagg]
            dsimp only
            simp only [if_true]
            simp only [Bool.false_eq_true, if_false]
            rw [if_neg (show ¬(RType.push = RType.attribute ∨ RType.push = RType.map) from by simp)]
            have htn : (((xs.length : Int)).toNat) = xs.length := by omega
            rw [htn]
            have hlen2 : (encList xs ++ rest).length < f' := by
              have hwl := writeNumber_length RType.push ((xs.length : Nat) : Int)
              have hip := intDecimal_len_pos ((xs.length : Nat) : Int)
              simp only [List.length_append] at hlen hwl ⊢
              omega
            have hrec := (ih f' (by omega)).2.1 lim xs rest hlim hxs hlen2
            rw [hrec]
          | set xs =>
            simp only [WireVal.enc, WireVal.kind, WireVal.wf, Bool.and_eq_true, decide_eq_true_eq] at hwf hlen ⊢
            obtain ⟨hcnt, hxs⟩ := hwf
            have hnn : ¬((xs.length : Int) < 0) := by omega
            have hsh : Writer.writeNumber RType.set (xs.length : Int) ++ (encList xs ++ rest) =
                RType.byte RType.set :: (natDigits ((xs.length : Int)).toNat ++ 13 :: 10 :: (encList xs ++ rest)) := by
              simp [Writer.writeNumber, intDecimal, hnn, List.append_assoc]
            rw [List.append_assoc, hsh]
            have hpeek := Peek_cons_of (b := RType.byte RType.set)
              (r := natDigits ((xs.length : Int)).toNat ++ 13 :: 10 :: (encList xs ++ rest))
              (by decide) (fun hcond => absurd hcond.2 (by simp [matchBytes_45_natDigits]))
            rw [show typeOfByte (RType.byte RType.set) = RType.set from rfl] at hpeek
            rw [hpeek]
            dsimp only
            have hagg := readAggregateHeader_write_read RType.set (xs.length : Int)
              (encList xs ++ rest) (by simp) (by omega) hcnt
            rw [hsh] at hagg
            rw [hagg]
            dsimp only
            simp only [if_true]
            simp only [Bool.false_eq_true, if_false]
            rw [if_neg (show ¬(RType.set = RType.attribute ∨ RType.set = RType.map) from by simp)]
            have htn : (((xs.length : Int)).toNat) = xs.length := by omega
            rw [htn]
            have hlen2 : (encList xs ++ rest).length < f' := by
              have hwl := writeNumber_length RType.set ((xs.length : Nat) : Int)
              have hip := intDecimal_len_pos ((xs.length : Nat) : Int)
              simp only [List.length_append] at hlen hwl ⊢
              omega
            have hrec := (ih f' (by omega)).2.1 lim xs rest hlim hxs hlen2
            rw [hrec]
          | mp ps =>
            simp only [WireVal.enc, WireVal.kind, WireVal.wf, Bool.and_eq_true, decide_eq_true_eq] at hwf hlen ⊢
            obtain ⟨hcnt, hps⟩ := hwf
            have hnn : ¬((ps.length : Int) < 0) := by omega
            rw [encPairs_eq] at hlen ⊢
            have hsh : Writer.writeNumber RType.map (ps.length : Int) ++ (encList (pairsFlat ps) ++ rest) =
                RType.byte RType.map :: (natDigits ((ps.length : Int)).toNat ++ 13 :: 10 :: (encList (pairsFlat ps) ++ rest)) := by
              simp [Writer.writeNumber, intDecimal, hnn, List.append_assoc]
            rw [List.append_assoc, hsh]
            have hpeek := Peek_cons_of (b := RType.byte RType.map)
              (r := natDigits ((ps.length : Int)).toNat ++ 13 :: 10 :: (encList (pairsFlat ps) ++ rest))
              (by decide) (fun hcond => absurd hcond.2 (by simp [matchBytes_45_natDigits]))
            rw [show typeOfByte (RType.byte RType.map) = RType.map from rfl] at hpeek
            rw [hpeek]
            dsimp only
            have hagg := readAggregateHeader_write_read RType.map (ps.length : Int)
              (encList (pairsFlat ps) ++ rest) (by simp) (by omega) (by omega)
            rw [hsh] at hagg
            rw [hagg]
            dsimp only
            simp only [if_true]
            simp only [Bool.false_eq_true, if_false]
            rw [if_pos (show RType.map = RType.attribute ∨ True from Or.inr trivial)]
            have htn : ((wrap64 ((ps.length : Int) * 2)).toNat) = (pairsFlat ps).length := by
              rw [wrap64_eq_self (by omega) (by omega), pairsFlat_length]
              omega
            rw [htn]
            have hlen2 : (encList (pairsFlat ps) ++ rest).length < f' := by
              have hwl := writeNumber_length RType.map ((ps.length : Nat) : Int)
              have hip := intDecimal_len_pos ((ps.length : Nat) : Int)
              simp only [List.length_append] at hlen hwl ⊢
              omega
            have hrec := (ih f' (by omega)).2.1 lim (pairsFlat ps) rest hlim (wfPairs_flat hps) hlen2
            rw [hrec]
          | att ps =>
            simp only [WireVal.enc, WireVal.kind, WireVal.wf, Bool.and_eq_true, decide_eq_true_eq] at hwf hlen ⊢
            obtain ⟨hcnt, hps⟩ := hwf
            have hnn : ¬((ps.length : Int) < 0) := by omega
            rw [encPairs_eq] at hlen ⊢
            have hsh : Writer.writeNumber RType.attribute (ps.length : Int) ++ (encList (pairsFlat ps) ++ rest) =
                RType.byte RType.attribute :: (natDigits ((ps.length : Int)).toNat ++ 13 :: 10 :: (encList (pairsFlat ps) ++ rest)) := by
              simp [Writer.writeNumber, intDecimal, hnn, List.append_assoc]
            rw [List.append_assoc, hsh]
            have hpeek := Peek_cons_of (b := RType.byte RType.attribute)
              (r := natDigits ((ps.length : Int)).toNat ++ 13 :: 10 :: (encList (pairsFlat ps) ++ rest))
              (by decide) (fun hcond => absurd hcond.2 (by simp [matchBytes_45_natDigits]))
            rw [show typeOfByte (RType.byte RType.attribute) = RType.attribute from rfl] at hpeek
            rw [hpeek]
            dsimp only
            have hagg := readAggregateHeader_write_read RType.attribute (ps.length : Int)
              (encList (pairsFlat ps) ++ rest) (by simp) (by omega) (by omega)
            rw [hsh] at hagg
            rw [hagg]
            dsimp only
            simp only [if_true]
            simp only [Bool.false_eq_true, if_false]
            rw [if_pos (show True ∨ RType.attribute = RType.map from Or.inl trivial)]
            have htn : ((wrap64 ((ps.length : Int) * 2)).toNat) = (pairsFlat ps).length := by
              rw [wrap64_eq_self (by omega) (by omega), pairsFlat_length]
              omega
            rw [htn]
            have hlen2 : (encList (pairsFlat ps) ++ rest).length < f' := by
              have hwl := writeNumber_length RType.attribute ((ps.length : Nat) : Int)
              have hip := intDecimal_len_pos ((ps.length : Nat) : Int)
              simp only [List.length_append] at hlen hwl ⊢
              omega
            have hrec := (ih f' (by omega)).2.1 lim (pairsFlat ps) rest hlim (wfPairs_flat hps) hlen2
            rw [hrec]
          | streamArr xs =>
            simp only [WireVal.enc, WireVal.kind, WireVal.wf] at hwf hlen ⊢
            simp only [List.cons_append, List.nil_append, List.append_assoc] at hlen ⊢
            have hpeek := Peek_cons_of (b := RType.byte RType.array)
              (r := (63 : Nat) :: 13 :: 10 :: (encList xs ++ 46 :: 13 :: 10 :: rest))
              (by decide)
              (fun hcond => absurd hcond.2 (by rw [matchBytes_head_ne (by norm_num)]; simp))
            rw [show typeOfByte (RType.byte RType.array) = RType.array from rfl] at hpeek
            rw [hpeek]
            dsimp only
            have hhd : readAggregateHeader RType.array
                (RType.byte RType.array :: (63 : Nat) :: 13 :: 10 :: (encList xs ++ 46 :: 13 :: 10 :: rest)) =
                (.ok (-1, true), encList xs ++ 46 :: 13 :: 10 :: rest) := by
              have := readAggregateHeader_stream RType.array (encList xs ++ 46 :: 13 :: 10 :: rest)
              simpa using this
            rw [hhd]
            dsimp only
            simp only [if_true]
            have hlen2 : (encList xs ++ 46 :: 13 :: 10 :: rest).length < f' := by
              simp only [List.length_append, List.length_cons] at hlen ⊢
              omega
            have hrec := (ih f' (by omega)).2.2.1 lim xs rest hlim hwf hlen2
            rw [hrec]
          | streamPush xs =>
            simp only [WireVal.enc, WireVal.kind, WireVal.wf] at hwf hlen ⊢
            simp only [List.cons_append, List.nil_append, List.append_assoc] at hlen ⊢
            have hpeek := Peek_cons_of (b := RType.byte RType.push)
              (r := (63 : Nat) :: 13 :: 10 :: (encList xs ++ 46 :: 13 :: 10 :: rest))
              (by decide)
              (fun hcond => absurd hcond.2 (by rw [matchBytes_head_ne (by norm_num)]; simp))
            rw [show typeOfByte (RType.byte RType.push) = RType.push from rfl] at hpeek
            rw [hpeek]
            dsimp only
            have hhd : readAggregateHeader RType.push
                (RType.byte RType.push :: (63 : Nat) :: 13 :: 10 :: (encList xs ++ 46 :: 13 :: 10 :: rest)) =
                (.ok (-1, true), encList xs ++ 46 :: 13 :: 10 :: rest) := by
              have := readAggregateHeader_stream RType.push (encList xs ++ 46 :: 13 :: 10 :: rest)
              simpa using this
            rw [hhd]
            dsimp only
            simp only [if_true]
            have hlen2 : (encList xs ++ 46 :: 13 :: 10 :: rest).length < f' := by
              simp only [List.length_append, List.length_cons] at hlen ⊢
              omega
            have hrec := (ih f' (by omega)).2.2.1 lim xs rest hlim hwf hlen2
            rw [hrec]
          | streamSet xs =>
            simp only [WireVal.enc, WireVal.kind, WireVal.wf] at hwf hlen ⊢
            simp only [List.cons_append, List.nil_append, List.append_assoc] at hlen ⊢
            have hpeek := Peek_cons_of (b := RType.byte RType.set)
              (r := (63 : Nat) :: 13 :: 10 :: (encList xs ++ 46 :: 13 :: 10 :: rest))
              (by decide)
              (fun hcond => absurd hcond.2 (by rw [matchBytes_head_ne (by norm_num)]; simp))
            rw [show typeOfByte (RType.byte RType.set) = RType.set from rfl] at hpeek
            rw [hpeek]
            dsimp only
            have hhd : readAggregateHeader RType.set
                (RType.byte RType.set :: (63 : Nat) :: 13 :: 10 :: (encList xs ++ 46 :: 13 :: 10 :: rest)) =
                (.ok (-1, true), encList xs ++ 46 :: 13 :: 10 :: rest) := by
              have := readAggregateHeader_stream RType.set (encList xs ++ 46 :: 13 :: 10 :: rest)
              simpa using this
            rw [hhd]
            dsimp only
            simp only [if_true]
            have hlen2 : (encList xs ++ 46 :: 13 :: 10 :: rest).length < f' := by
              simp only [List.length_append, List.length_cons] at hlen ⊢
              omega
            have hrec := (ih f' (by omega)).2.2.1 lim xs rest hlim hwf hlen2
            rw [hrec]
          | streamMp xs =>
            simp only [WireVal.enc, WireVal.kind, WireVal.wf] at hwf hlen ⊢
            simp only [List.cons_append, List.nil_append, List.append_assoc] at hlen ⊢
            have hpeek := Peek_cons_of (b := RType.byte RType.map)
              (r := (63 : Nat) :: 13 :: 10 :: (encList xs ++ 46 :: 13 :: 10 :: rest))
              (by decide)
              (fun hcond => absurd hcond.2 (by rw [matchBytes_head_ne (by norm_num)]; simp))
            rw [show typeOfByte (RType.byte RType.map) = RType.map from rfl] at hpeek
            rw [hpeek]
            dsimp only
            have hhd : readAggregateHeader RType.map
                (RType.byte RType.map :: (63 : Nat) :: 13 :: 10 :: (encList xs ++ 46 :: 13 :: 10 :: rest)) =
                (.ok (-1, true), encList xs ++ 46 :: 13 :: 10 :: rest) := by
              have := readAggregateHeader_stream RType.map (encList xs ++ 46 :: 13 :: 10 :: rest)
              simpa using this
            rw [hhd]
            dsimp only
            simp only [if_true]
            have hlen2 : (encList xs ++ 46 :: 13 :: 10 :: rest).length < f' := by
              simp only [List.length_append, List.length_cons] at hlen ⊢
              omega
            have hrec := (ih f' (by omega)).2.2.1 lim xs rest hlim hwf hlen2
            rw [hrec]
          | streamAtt xs =>
            simp only [WireVal.enc, WireVal.kind, WireVal.wf] at hwf hlen ⊢
            simp only [List.cons_append, List.nil_append, List.append_assoc] at hlen ⊢
            have hpeek := Peek_cons_of (b := RType.byte RType.attribute)
              (r := (63 : Nat) :: 13 :: 10 :: (encList xs ++ 46 :: 13 :: 10 :: rest))
              (by decide)
              (fun hcond => absurd hcond.2 (by rw [matchBytes_head_ne (by norm_num)]; simp))
            rw [show typeOfByte (RType.byte RType.attribute) = RType.attribute from rfl] at hpeek
            rw [hpeek]
            dsimp only
            have hhd : readAggregateHeader RType.attribute
                (RType.byte RType.attribute :: (63 : Nat) :: 13 :: 10 :: (encList xs ++ 46 :: 13 :: 10 :: rest)) =
                (.ok (-1, true), encList xs ++ 46 :: 13 :: 10 :: rest) := by
              have := readAggregateHeader_stream RType.attribute (encList xs ++ 46 :: 13 :: 10 :: rest)
              simpa using this
            rw [hhd]
            dsimp only
            simp only [if_true]
            have hlen2 : (encList xs ++ 46 :: 13 :: 10 :: rest).length < f' := by
              simp only [List.length_append, List.length_cons] at hlen ⊢
              omega
            have hrec := (ih f' (by omega)).2.2.1 lim xs rest hlim hwf hlen2
            rw [hrec]

    have hMN : ∀ (lim : Int) (xs : List WireVal) (rest : List Nat), lim < 0 → wfList xs = true →
        (encList xs ++ rest).length < f →
        discardNF f xs.length lim (encList xs ++ rest) = some (.ok (), rest) := by
      intro lim xs
      induction xs with
      | nil =>
        intro rest hlim hwf hlen
        simp only [encList, List.nil_append, List.length_nil]
        rw [discardNF]
      | cons v vs ihx =>
        intro rest hlim hwf hlen
        simp only [wfList, Bool.and_eq_true] at hwf
        simp only [encList, List.append_assoc, List.length_cons] at hlen ⊢
        have hep := WireVal.enc_pos v
        rw [discardNF]
        rw [hMD lim v (encList vs ++ rest) hlim hwf.1 (by simp only [List.length_append] at hlen ⊢; omega)]
        dsimp only
        exact ihx rest hlim hwf.2 (by simp only [List.length_append] at hlen ⊢; omega)
    have hMC : ∀ (lim : Int) (xs : List WireVal) (rest : List Nat), lim < 0 → wfList xs = true →
        (encList xs ++ 46 :: 13 :: 10 :: rest).length < f →
        discardChunksF f lim (encList xs ++ 46 :: 13 :: 10 :: rest) = some (.ok (), rest) := by
      intro lim xs rest hlim hwf hlen
      cases f with
      | zero => omega
      | succ f' =>
        cases xs with
        | nil =>
          simp only [encList, List.nil_append] at hlen ⊢
          rw [discardChunksF]
          rw [discardF_end f' true lim rest]
          rfl
        | cons v vs =>
          simp only [wfList, Bool.and_eq_true] at hwf
          simp only [encList, List.append_assoc] at hlen ⊢
          have hep := WireVal.enc_pos v
          rw [discardChunksF]
          rw [hMD lim v (encList vs ++ 46 :: 13 :: 10 :: rest) hlim hwf.1 hlen]
          dsimp only
          rw [if_neg (WireVal.kind_ne_end v)]
          exact (ih f' (by omega)).2.2.1 lim vs rest hlim hwf.2
            (by simp only [List.length_append] at hlen ⊢; omega)
    exact ⟨hMD, hMN, hMC, hMB⟩

end Reader

/-! Claim theorems. -/

/-- Decimal digit bytes of the magnitude of the int64 minimum. -/
theorem natDigits_min_int64_mag : natDigits 9223372036854775808 =
    [57, 50, 50, 51, 51, 55, 50, 48, 51, 54, 56, 53, 52, 55, 55, 53, 56, 48, 56] := by
  have hstep : ∀ n : Nat, ¬ n < 10 → natDigits n = natDigits (n / 10) ++ [n % 10 + 48] := by
    intro n h
    rw [natDigits]
    rw [dif_neg h]
  have hbase : ∀ n : Nat, n < 10 → natDigits n = [n + 48] := by
    intro n h
    rw [natDigits]
    rw [dif_pos h]
  rw [hstep _ (by norm_num),
    hstep _ (by norm_num),
    hstep _ (by norm_num),
    hstep _ (by norm_num),
    hstep _ (by norm_num),
    hstep _ (by norm_num),
    hstep _ (by norm_num),
    hstep _ (by norm_num),
    hstep _ (by norm_num),
    hstep _ (by norm_num),
    hstep _ (by norm_num),
    hstep _ (by norm_num),
    hstep _ (by norm_num),
    hstep _ (by norm_num),
    hstep _ (by norm_num),
    hstep _ (by norm_num),
    hstep _ (by norm_num),
    hstep _ (by norm_num),
    hbase _ (by norm_num)]
  norm_num

/-- The exact wire bytes WriteNumber emits for the int64 minimum. -/
theorem writeNumber_min_int64 : Writer.WriteNumber (-9223372036854775808) =
    [58, 45, 57, 50, 50, 51, 51, 55, 50, 48, 51, 54, 56, 53, 52, 55, 55, 53, 56, 48, 56, 13, 10] := by
  have hneg : intDecimal (-9223372036854775808) = 45 :: natDigits 9223372036854775808 := by
    unfold intDecimal
    rw [if_pos (show (-9223372036854775808 : Int) < 0 by norm_num)]
    rfl
  simp only [Writer.WriteNumber, Writer.writeNumber, hneg, natDigits_min_int64_mag]
  rfl

/-- Claim C9: Reader.Peek is idempotent - for every input stream, Peek leaves
the stream position unchanged and calling it again yields the same result
(same kind or same error outcome) with the position still unchanged. -/
theorem c9_peek_idempotent (l : List Nat) :
    (Reader.Peek l).2 = l ∧ Reader.Peek ((Reader.Peek l).2) = Reader.Peek l := by
  have h : (Reader.Peek l).2 = l := by
    unfold Reader.Peek
    split
    · rfl
    · split <;> rfl
  exact ⟨h, by rw [h]⟩

/-- Claim C2: the legacy RESP2 null forms.  For any continuation of the
stream, Peek reports the five-byte array form and the five-byte blob-string
form as TypeNull without consuming input, ReadNull consumes exactly those five
bytes, and the plain three-byte null form is also reported as TypeNull by
Peek and consumed by ReadNull. -/
theorem c2_legacy_null (rest : List Nat) :
    Reader.Peek (42 :: 45 :: 49 :: 13 :: 10 :: rest) = (.ok .null, 42 :: 45 :: 49 :: 13 :: 10 :: rest) ∧
    Reader.Peek (36 :: 45 :: 49 :: 13 :: 10 :: rest) = (.ok .null, 36 :: 45 :: 49 :: 13 :: 10 :: rest) ∧
    Reader.Peek (95 :: 13 :: 10 :: rest) = (.ok .null, 95 :: 13 :: 10 :: rest) ∧
    Reader.ReadNull (42 :: 45 :: 49 :: 13 :: 10 :: rest) = (.ok (), rest) ∧
    Reader.ReadNull (36 :: 45 :: 49 :: 13 :: 10 :: rest) = (.ok (), rest) ∧
    Reader.ReadNull (95 :: 13 :: 10 :: rest) = (.ok (), rest) := by
  refine ⟨?_, ?_, ?_, ?_, ?_, ?_⟩ <;>
    simp [Reader.Peek, Reader.peek, Reader.ReadNull, Reader.expect, Reader.readEOL,
      Reader.consume, Reader.matchBytes, typeOfByte, RType.byte]

/-- Claim C4 (code bug): at the int64 boundaries, ReadNumber accepts the
maximum value, rejects the two literals one unit beyond the range with the
overflow error, but also rejects the minimum representable value
-9223372036854775808 with the overflow error (the wrap-around check fires on
the magnitude accumulator before the sign is applied), contradicting the
specified behaviour that the minimum succeeds. -/
theorem c4_number_boundaries :
    Reader.ReadNumber [58, 57, 50, 50, 51, 51, 55, 50, 48, 51, 54, 56, 53, 52, 55, 55, 53, 56, 48, 55, 13, 10] =
      (.ok 9223372036854775807, []) ∧
    Reader.ReadNumber [58, 57, 50, 50, 51, 51, 55, 50, 48, 51, 54, 56, 53, 52, 55, 55, 53, 56, 48, 56, 13, 10] =
      (.error .overflow, [13, 10]) ∧
    Reader.ReadNumber [58, 45, 57, 50, 50, 51, 51, 55, 50, 48, 51, 54, 56, 53, 52, 55, 55, 53, 56, 48, 57, 13, 10] =
      (.error .overflow, [13, 10]) ∧
    Reader.ReadNumber [58, 45, 57, 50, 50, 51, 51, 55, 50, 48, 51, 54, 56, 53, 52, 55, 55, 53, 56, 48, 56, 13, 10] =
      (.error .overflow, [13, 10]) := by
  refine ⟨?_, ?_, ?_, ?_⟩ <;> rfl

/-- Claim C3 (counterexample): with count -1 the aggregate-header write
operation does not emit the chunked marker; it fails with the
invalid-aggregate-length error. -/
theorem c3_writeArrayHeader_neg_one :
    Writer.WriteArrayHeader (-1) = .error .invalidAggregateTypeLength := rfl

/-- Claim C3 (amended): for every aggregate kind, the aggregate-header write
operation rejects every negative count (including -1) with the
invalid-aggregate-length error and writes tag, decimal count and CRLF for a
non-negative count; the chunked marker tag-question-CRLF is emitted by the
dedicated stream-header operation instead. -/
theorem c3_aggregate_header (t : RType)
    (ht : t = .array ∨ t = .attribute ∨ t = .map ∨ t = .push ∨ t = .set) :
    (∀ n : Int, n < 0 → Writer.writeAggregateHeader t n = .error .invalidAggregateTypeLength) ∧
    (∀ n : Int, 0 ≤ n → Writer.writeAggregateHeader t n = .ok (t.byte :: natDigits n.toNat ++ [13, 10])) ∧
    Writer.writeAggregateStreamHeader t = [t.byte, 63, 13, 10] := by
  refine ⟨?_, ?_, rfl⟩
  · intro n hn
    unfold Writer.writeAggregateHeader
    rw [if_pos hn]
  · intro n hn
    unfold Writer.writeAggregateHeader
    rw [if_neg (by omega)]
    unfold Writer.writeNumber intDecimal
    rw [if_neg (by omega)]

/-- Witness for claim C3's amended theorem at concrete inputs. -/
theorem c3_aggregate_header_witness :
    Writer.writeAggregateHeader .array (-2) = .error .invalidAggregateTypeLength ∧
    Writer.writeAggregateHeader .map 3 = .ok [37, 51, 13, 10] ∧
    Writer.writeAggregateStreamHeader .set = [126, 63, 13, 10] := by
  obtain ⟨h1, h2, -⟩ := c3_aggregate_header .array (by simp)
  obtain ⟨-, h4, h5⟩ := c3_aggregate_header .map (by simp)
  obtain ⟨-, -, h6⟩ := c3_aggregate_header .set (by simp)
  refine ⟨h1 (-2) (by omega), ?_, h6⟩
  have h7 : (3 : Int).toNat = 3 := rfl
  rw [h4 3 (by omega), h7]
  simp [natDigits, RType.byte]

/-- Claim C7: the sign asymmetry between ReadNumber and ReadBigNumber.  A
literal beginning with a plus sign is rejected by ReadNumber with the
invalid-number error (whatever follows), while ReadBigNumber accepts the same
digits with an optional leading plus or minus, parsing them at arbitrary
precision; both reject an empty value and a lone sign with no digits. -/
theorem c7_sign_asymmetry (lim : Int) (ds rest tail : List Nat)
    (hlim : lim < 0) (hds : ds ≠ []) (hdig : ∀ b ∈ ds, 48 ≤ b ∧ b ≤ 57) :
    Reader.ReadNumber (58 :: 43 :: tail) = (.error .invalidNumber, 43 :: tail) ∧
    Reader.ReadBigNumber lim (40 :: 43 :: (ds ++ 13 :: 10 :: rest)) = (.ok ((Reader.digitsValN ds : Int)), rest) ∧
    Reader.ReadBigNumber lim (40 :: 45 :: (ds ++ 13 :: 10 :: rest)) = (.ok (-(Reader.digitsValN ds : Int)), rest) ∧
    Reader.ReadBigNumber lim (40 :: (ds ++ 13 :: 10 :: rest)) = (.ok ((Reader.digitsValN ds : Int)), rest) ∧
    Reader.ReadNumber (58 :: 13 :: 10 :: rest) = (.error .unexpectedEOL, rest) ∧
    Reader.ReadNumber (58 :: 45 :: 13 :: 10 :: rest) = (.error .unexpectedEOL, rest) ∧
    Reader.ReadBigNumber lim (40 :: 13 :: 10 :: rest) = (.error .unexpectedEOL, rest) ∧
    Reader.ReadBigNumber lim (40 :: 43 :: 13 :: 10 :: rest) = (.error .invalidBigNumber, rest) ∧
    Reader.ReadBigNumber lim (40 :: 45 :: 13 :: 10 :: rest) = (.error .invalidBigNumber, rest) := by
  have hdig10 : ∀ b ∈ ds, b ≠ 10 := fun b hb => by have := hdig b hb; omega
  have hexpB : ∀ X : List Nat, Reader.expect .bigNumber (40 :: X) = (.ok (), X) :=
    fun X => Reader.expect_cons_byte .bigNumber (by simp) X
  have hexpN : ∀ X : List Nat, Reader.expect .number (58 :: X) = (.ok (), X) :=
    fun X => Reader.expect_cons_byte .number (by simp) X
  refine ⟨?_, ?_, ?_, ?_, ?_, ?_, ?_, ?_, ?_⟩
  · unfold Reader.ReadNumber
    rw [hexpN _]
    dsimp only
    unfold Reader.readNumber Reader.readNumberLoop
    norm_num
  · have hline : Reader.readLine lim [] ((43 :: ds) ++ 13 :: 10 :: rest) = (.ok ([] ++ (43 :: ds)), rest) :=
      Reader.readLine_ok
        (by intro b hb
            rcases List.mem_cons.1 hb with h | h
            · omega
            · exact hdig10 b h)
        (checkReadSizeLimit_neg hlim _)
    simp only [List.cons_append, List.nil_append] at hline
    unfold Reader.ReadBigNumber
    rw [hexpB _]
    dsimp only
    rw [hline]
    dsimp only
    rw [if_neg (by simp)]
    rw [Reader.bigIntSetString10_plus hds hdig]
  · have hline : Reader.readLine lim [] ((45 :: ds) ++ 13 :: 10 :: rest) = (.ok ([] ++ (45 :: ds)), rest) :=
      Reader.readLine_ok
        (by intro b hb
            rcases List.mem_cons.1 hb with h | h
            · omega
            · exact hdig10 b h)
        (checkReadSizeLimit_neg hlim _)
    simp only [List.cons_append, List.nil_append] at hline
    unfold Reader.ReadBigNumber
    rw [hexpB _]
    dsimp only
    rw [hline]
    dsimp only
    rw [if_neg (by simp)]
    rw [Reader.bigIntSetString10_minus hds hdig]
  · have hline : Reader.readLine lim [] (ds ++ 13 :: 10 :: rest) = (.ok ([] ++ ds), rest) :=
      Reader.readLine_ok hdig10 (checkReadSizeLimit_neg hlim _)
    simp only [List.nil_append] at hline
    unfold Reader.ReadBigNumber
    rw [hexpB _]
    dsimp only
    rw [hline]
    dsimp only
    rw [if_neg hds]
    rw [Reader.bigIntSetString10_digits hds hdig]
  · unfold Reader.ReadNumber
    rw [hexpN _]
    dsimp only
    unfold Reader.readNumber Reader.readNumberLoop
    norm_num [Reader.readEOL]
  · unfold Reader.ReadNumber
    rw [hexpN _]
    dsimp only
    unfold Reader.readNumber Reader.readNumberLoop Reader.readNumberLoop
    norm_num [Reader.readEOL]
  · have hline : Reader.readLine lim [] (([] : List Nat) ++ 13 :: 10 :: rest) = (.ok ([] ++ ([] : List Nat)), rest) :=
      Reader.readLine_ok (by simp) (checkReadSizeLimit_neg hlim _)
    simp only [List.nil_append] at hline
    unfold Reader.ReadBigNumber
    rw [hexpB _]
    dsimp only
    rw [hline]
    dsimp only
    rw [if_pos rfl]
  · have hline : Reader.readLine lim [] ([43] ++ 13 :: 10 :: rest) = (.ok ([] ++ [43]), rest) :=
      Reader.readLine_ok (by simp) (checkReadSizeLimit_neg hlim _)
    simp only [List.nil_append, List.cons_append] at hline
    unfold Reader.ReadBigNumber
    rw [hexpB _]
    dsimp only
    rw [hline]
    dsimp only
    rw [if_neg (by simp)]
    have hset : Reader.bigIntSetString10 [43] = none := rfl
    rw [hset]
  · have hline : Reader.readLine lim [] ([45] ++ 13 :: 10 :: rest) = (.ok ([] ++ [45]), rest) :=
      Reader.readLine_ok (by simp) (checkReadSizeLimit_neg hlim _)
    simp only [List.nil_append, List.cons_append] at hline
    unfold Reader.ReadBigNumber
    rw [hexpB _]
    dsimp only
    rw [hline]
    dsimp only
    rw [if_neg (by simp)]
    have hset : Reader.bigIntSetString10 [45] = none := rfl
    rw [hset]

/-- Witness for claim C7 at a concrete input: the digits 1 2 with limit -1. -/
theorem c7_sign_asymmetry_witness :
    ((-1 : Int) < 0 ∧ ([49, 50] : List Nat) ≠ [] ∧ ∀ b ∈ ([49, 50] : List Nat), 48 ≤ b ∧ b ≤ 57) ∧
    Reader.ReadNumber (58 :: 43 :: [49]) = (.error .invalidNumber, 43 :: [49]) ∧
    Reader.ReadBigNumber (-1) (40 :: 43 :: ([49, 50] ++ 13 :: 10 :: [])) = (.ok 12, []) := by
  refine ⟨⟨by norm_num, by simp, by decide⟩, ?_, ?_⟩
  · exact (c7_sign_asymmetry (-1) [49, 50] [] [49] (by norm_num) (by simp) (by decide)).1
  · have h := (c7_sign_asymmetry (-1) [49, 50] [] [49] (by norm_num) (by simp) (by decide)).2.1
    rw [h]
    rfl

/-- Claim C5 (counterexample): a well-formed zero-length blob chunk written
with a non-canonical length spelling (two zero digits) parses successfully
with an empty body but last = false, so it is not true that every zero-length
chunk yields last = true. -/
theorem c5_zero_chunk_noncanonical :
    Reader.ReadBlobChunk (-1) [] [59, 48, 48, 13, 10, 13, 10] = (.ok ([], false), []) := rfl

/-- Claim C5 (amended): ReadBlobChunk returns last = true exactly for the
literal four-byte terminal form semicolon-zero-CRLF, returning the
destination untouched; a chunk in the writer's canonical form with a
non-empty body yields last = false together with the body bytes appended; and
conversely any successful read reporting last = true consumed exactly the
four-byte terminal literal. -/
theorem c5_blob_chunk_last (lim : Int) (dst body rest l l' b' : List Nat)
    (hb : body ≠ []) (hlen : (body.length : Int) < 9223372036854775808)
    (hchk : checkReadSizeLimit lim (body.length : Int) = .ok ()) :
    Reader.ReadBlobChunk lim dst ([59, 48, 13, 10] ++ rest) = (.ok (dst, true), rest) ∧
    Reader.ReadBlobChunk lim dst (Writer.WriteBlobChunk body ++ rest) = (.ok (dst ++ body, false), rest) ∧
    (Reader.ReadBlobChunk lim dst l = (.ok (b', true), l') → l = [59, 48, 13, 10] ++ l' ∧ b' = dst) := by
  refine ⟨?_, ?_, ?_⟩
  · unfold Reader.ReadBlobChunk
    have hc := Reader.consume_append [59, 48, 13, 10] rest
    have hc' : Reader.consume [RType.byte .blobChunk, 48, 13, 10] ([59, 48, 13, 10] ++ rest) = (true, rest) := hc
    rw [hc']
    rfl
  · unfold Writer.WriteBlobChunk
    rw [if_neg hb]
    unfold Writer.writeBlob
    obtain ⟨d, ds, hd, hd1, hd2⟩ := Reader.natDigits_pos_head (n := body.length) (by
      cases body with
      | nil => exact absurd rfl hb
      | cons x xs => simp)
    unfold Reader.ReadBlobChunk
    have hshape : (RType.byte .blobChunk :: natDigits body.length ++ [13, 10] ++ body ++ [13, 10]) ++ rest =
        RType.byte .blobChunk :: (natDigits body.length ++ 13 :: 10 :: (body ++ 13 :: 10 :: rest)) := by
      simp
    rw [hshape]
    have hmb : Reader.matchBytes [RType.byte .blobChunk, 48, 13, 10]
        (RType.byte .blobChunk :: (natDigits body.length ++ 13 :: 10 :: (body ++ 13 :: 10 :: rest))) = false := by
      rw [hd]
      simp only [List.cons_append]
      exact Reader.matchBytes_cons_cons_ne (by omega)
    have hcons : Reader.consume [RType.byte .blobChunk, 48, 13, 10]
        (RType.byte .blobChunk :: (natDigits body.length ++ 13 :: 10 :: (body ++ 13 :: 10 :: rest))) =
        (false, RType.byte .blobChunk :: (natDigits body.length ++ 13 :: 10 :: (body ++ 13 :: 10 :: rest))) := by
      unfold Reader.consume
      rw [hmb]
      rfl
    rw [hcons]
    dsimp only
    rw [Reader.readBlob_ok (by simp) hlen hchk]
    rfl
  · intro h
    unfold Reader.ReadBlobChunk Reader.consume at h
    by_cases hm : Reader.matchBytes [RType.byte .blobChunk, 48, 13, 10] l = true
    · obtain ⟨r, rfl⟩ := (Reader.matchBytes_eq_true_iff _ _).1 hm
      rw [if_pos hm] at h
      simp only [List.length_cons, List.length_nil, List.drop_succ_cons, List.drop_zero,
        Prod.mk.injEq, Except.ok.injEq, if_true, eq_self_iff_true, and_true, true_and] at h
      obtain ⟨h1, h2⟩ := h
      have hdrop : List.drop (0 + 1 + 1 + 1 + 1) ([RType.byte .blobChunk, 48, 13, 10] ++ r) = r := rfl
      rw [hdrop] at h2
      subst h2
      exact ⟨rfl, h1.symm⟩
    · rw [if_neg hm] at h
      simp at h
      split at h <;> simp at h

/-- Witness for claim C5's amended theorem at concrete inputs. -/
theorem c5_blob_chunk_last_witness :
    (([104] : List Nat) ≠ [] ∧ ((([104] : List Nat).length : Int) < 9223372036854775808) ∧
      checkReadSizeLimit (-1) (([104] : List Nat).length : Int) = .ok ()) ∧
    Reader.ReadBlobChunk (-1) [] ([59, 48, 13, 10] ++ ([] : List Nat)) = (.ok ([], true), []) ∧
    Reader.ReadBlobChunk (-1) [] (Writer.WriteBlobChunk [104] ++ ([] : List Nat)) = (.ok ([] ++ [104], false), []) := by
  have h := c5_blob_chunk_last (-1) [] [104] [] [59, 48, 13, 10] [] []
    (by simp) (by norm_num) (by rfl)
  exact ⟨⟨by simp, by norm_num, by rfl⟩, h.1, h.2.1⟩

/-- Claim C6: the single-read size limit.  With a positive limit N, a blob
body of exactly N bytes succeeds while one of N+1 bytes fails with the
size-limit error, and the same boundary holds for line reads; a limit of 0
behaves exactly like the 32 MiB default on every size check; a negative limit
never fails a size check; and for lines the limit is enforced cumulatively as
buffered chunks are appended - a 4096-byte buffer-full chunk without a
terminator already triggers the error for any following input whenever the
limit is below the first chunk check. -/
theorem c6_single_read_size_limit (N : Nat) (body body1 line line1 c rest : List Nat)
    (hN : 0 < N) (hNbig : (N : Int) + 1 < 9223372036854775808)
    (hb : body.length = N) (hb1 : body1.length = N + 1)
    (hl : line.length = N) (hlLF : ∀ b ∈ line, b ≠ 10)
    (hl1 : line1.length = N + 1) (hl1LF : ∀ b ∈ line1, b ≠ 10)
    (hc : c.length = Reader.bufioBufSize) (hcLF : ∀ b ∈ c, b ≠ 10) (hcN : N < 4094) :
    Reader.ReadBlobString (N : Int) []
        ((36 : Nat) :: (natDigits body.length ++ 13 :: 10 :: (body ++ 13 :: 10 :: rest))) =
      (.ok (body, false), rest) ∧
    Reader.ReadBlobString (N : Int) []
        ((36 : Nat) :: (natDigits body1.length ++ 13 :: 10 :: (body1 ++ 13 :: 10 :: rest))) =
      (.error .singleReadSizeLimitExceeded, body1 ++ 13 :: 10 :: rest) ∧
    (∀ n : Int, checkReadSizeLimit 0 n = checkReadSizeLimit defaultSingleReadSizeLimit n) ∧
    defaultSingleReadSizeLimit = 33554432 ∧
    (∀ lim n : Int, lim < 0 → checkReadSizeLimit lim n = .ok ()) ∧
    Reader.readLine (N : Int) [] (line ++ 13 :: 10 :: rest) = (.ok line, rest) ∧
    (∃ l', Reader.readLine (N : Int) [] (line1 ++ 13 :: 10 :: rest) =
      (.error .singleReadSizeLimitExceeded, l')) ∧
    Reader.readLine (N : Int) [] (c ++ rest) = (.error .singleReadSizeLimitExceeded, rest) := by
  have heff : effLimit (N : Int) = (N : Int) := by
    unfold effLimit
    rw [if_neg (by omega)]
  refine ⟨?_, ?_, ?_, rfl, ?_, ?_, ?_, ?_⟩
  · have h := @Reader.readChunkableBlob_ok (N : Int) .blobString [] body rest (by simp)
      (by omega)
      (by rw [checkReadSizeLimit_spec, heff, if_neg (by omega)])
    simpa [RType.byte] using h
  · have h := @Reader.readChunkableBlob_limit_err (N : Int) .blobString [] body1 rest (by simp)
      (by omega)
      (by rw [checkReadSizeLimit_spec, heff, if_pos ⟨by omega, by omega⟩])
    simpa [RType.byte] using h
  · intro n
    rw [checkReadSizeLimit_spec, checkReadSizeLimit_spec]
    have h1 : effLimit 0 = defaultSingleReadSizeLimit := by
      unfold effLimit
      rw [if_pos rfl]
    have h2 : effLimit defaultSingleReadSizeLimit = defaultSingleReadSizeLimit := by
      unfold effLimit
      rw [if_neg (by unfold defaultSingleReadSizeLimit; omega)]
    rw [h1, h2]
  · exact fun lim n h => checkReadSizeLimit_neg h n
  · have h := @Reader.readLine_ok (N : Int) [] line rest
      hlLF (by rw [checkReadSizeLimit_spec, heff, if_neg (by omega)])
    simpa using h
  · exact Reader.readLine_limit_err hl1LF (by omega) (by omega)
  · have hfull : Reader.readSliceLF (c ++ rest) = .full c rest := by
      have h1 := Reader.readSliceLF_full (l := c ++ rest)
        (by intro b hb
            rw [List.take_append_eq_append_take, List.take_of_length_le (by omega)] at hb
            have h2 : Reader.bufioBufSize - c.length = 0 := by omega
            rw [h2] at hb
            simp only [List.take_zero, List.append_nil] at hb
            exact hcLF b hb)
        (by simp only [List.length_append]; omega)
      rw [h1]
      have ht : (c ++ rest).take Reader.bufioBufSize = c := by
        rw [List.take_append_eq_append_take, List.take_of_length_le (by omega)]
        have h2 : Reader.bufioBufSize - c.length = 0 := by omega
        rw [h2]
        simp
      have hd : (c ++ rest).drop Reader.bufioBufSize = rest := by
        rw [List.drop_append_eq_append_drop, List.drop_of_length_le (by omega)]
        have h2 : Reader.bufioBufSize - c.length = 0 := by omega
        rw [h2]
        simp
      rw [ht, hd]
    unfold Reader.readLine
    have hchk : checkReadSizeLimit (N : Int)
        ((c.length : Int) - 2 + ((([] : List Nat).length : Int) - (([] : List Nat).length : Int))) =
        .error .singleReadSizeLimitExceeded := by
      rw [checkReadSizeLimit_spec, heff, if_pos]
      constructor
      · omega
      · rw [hc]
        unfold Reader.bufioBufSize
        push_cast
        omega
    exact Reader.readLineLoop_full_err hfull hchk

/-- Witness for claim C6 at concrete inputs: limit 1 and a full LF-free
buffer chunk. -/
theorem c6_single_read_size_limit_witness :
    (0 < 1 ∧ (List.replicate Reader.bufioBufSize 97).length = Reader.bufioBufSize ∧
      (∀ b ∈ List.replicate Reader.bufioBufSize 97, b ≠ 10)) ∧
    Reader.readLine ((1 : Nat) : Int) [] (List.replicate Reader.bufioBufSize 97 ++ [13, 10]) =
      (.error .singleReadSizeLimitExceeded, [13, 10]) := by
  have hrep : ∀ b ∈ List.replicate Reader.bufioBufSize 97, b ≠ (10 : Nat) := by
    intro b hb
    rw [List.eq_of_mem_replicate hb]
    norm_num
  have h := c6_single_read_size_limit 1 [97] [97, 98] [97] [97, 98]
    (List.replicate Reader.bufioBufSize 97) [13, 10]
    (by norm_num) (by norm_num) (by simp) (by simp) (by simp) (by decide)
    (by simp) (by decide) (by simp) hrep (by norm_num)
  exact ⟨⟨by norm_num, by simp, hrep⟩, h.2.2.2.2.2.2.2⟩

/-- Claim C10 (counterexample): ReadNull applied to the legacy RESP2 null
form *-1CRLF, whose valid lead byte is of the array kind rather than the
null kind, succeeds and consumes all five bytes instead of failing with the
unexpected-type error and consuming nothing. -/
theorem c10_readNull_legacy :
    typeOfByte 42 = RType.array ∧ RType.array ≠ RType.null ∧
    Reader.ReadNull [42, 45, 49, 13, 10] = (.ok (), []) :=
  ⟨rfl, by decide, rfl⟩

/-- Claim C10 (amended): type-mismatch atomicity.  For every typed Read
operation, an input whose lead byte is valid but of a different kind than
the operation expects fails with the unexpected-type error and leaves the
stream exactly as it was, with one exception: ReadNull also accepts the
legacy RESP2 null forms *-1CRLF and dollar-1CRLF, so for ReadNull the
property holds whenever the bytes after the lead byte do not spell the
literal -1CRLF length field. -/
theorem c10_type_mismatch_atomicity (lim : Int) (dst : List Nat) (b : Nat) (r : List Nat)
    (hb : typeOfByte b ≠ .invalid) :
    (typeOfByte b ≠ .null → Reader.matchBytes [45, 49, 13, 10] r = false →
      Reader.ReadNull (b :: r) = (.error .unexpectedType, b :: r)) ∧
    (typeOfByte b ≠ .array →
      Reader.ReadArrayHeader (b :: r) = (.error .unexpectedType, b :: r)) ∧
    (typeOfByte b ≠ .attribute →
      Reader.ReadAttributeHeader (b :: r) = (.error .unexpectedType, b :: r)) ∧
    (typeOfByte b ≠ .map →
      Reader.ReadMapHeader (b :: r) = (.error .unexpectedType, b :: r)) ∧
    (typeOfByte b ≠ .push →
      Reader.ReadPushHeader (b :: r) = (.error .unexpectedType, b :: r)) ∧
    (typeOfByte b ≠ .set →
      Reader.ReadSetHeader (b :: r) = (.error .unexpectedType, b :: r)) ∧
    (typeOfByte b ≠ .bigNumber →
      Reader.ReadBigNumber lim (b :: r) = (.error .unexpectedType, b :: r)) ∧
    (typeOfByte b ≠ .boolean →
      Reader.ReadBoolean lim (b :: r) = (.error .unexpectedType, b :: r)) ∧
    (typeOfByte b ≠ .streamEnd →
      Reader.ReadEnd (b :: r) = (.error .unexpectedType, b :: r)) ∧
    (typeOfByte b ≠ .number →
      Reader.ReadNumber (b :: r) = (.error .unexpectedType, b :: r)) ∧
    (typeOfByte b ≠ .double →
      Reader.ReadDouble lim (b :: r) = (.error .unexpectedType, b :: r)) ∧
    (typeOfByte b ≠ .blobChunk →
      Reader.ReadBlobChunk lim dst (b :: r) = (.error .unexpectedType, b :: r)) ∧
    (typeOfByte b ≠ .blobError →
      Reader.ReadBlobError lim dst (b :: r) = (.error .unexpectedType, b :: r)) ∧
    (typeOfByte b ≠ .blobString →
      Reader.ReadBlobString lim dst (b :: r) = (.error .unexpectedType, b :: r)) ∧
    (typeOfByte b ≠ .simpleError →
      Reader.ReadSimpleError lim dst (b :: r) = (.error .unexpectedType, b :: r)) ∧
    (typeOfByte b ≠ .simpleString →
      Reader.ReadSimpleString lim dst (b :: r) = (.error .unexpectedType, b :: r)) ∧
    (typeOfByte b ≠ .verbatimString →
      Reader.ReadVerbatimString lim dst (b :: r) = (.error .unexpectedType, b :: r)) := by
  refine ⟨?_, ?_, ?_, ?_, ?_, ?_, ?_, ?_, ?_, ?_, ?_, ?_, ?_, ?_, ?_, ?_, ?_⟩
  · exact fun hne hleg => Reader.ReadNull_mismatch r hb hne hleg
  · exact fun hne => Reader.readAggregateHeader_mismatch _ r hb (by simp) hne
  · exact fun hne => Reader.readAggregateHeader_mismatch _ r hb (by simp) hne
  · exact fun hne => Reader.readAggregateHeader_mismatch _ r hb (by simp) hne
  · exact fun hne => Reader.readAggregateHeader_mismatch _ r hb (by simp) hne
  · exact fun hne => Reader.readAggregateHeader_mismatch _ r hb (by simp) hne
  · exact fun hne => Reader.ReadBigNumber_mismatch lim r hb hne
  · exact fun hne => Reader.ReadBoolean_mismatch lim r hb hne
  · exact fun hne => Reader.ReadEnd_mismatch r hb hne
  · exact fun hne => Reader.ReadNumber_mismatch r hb hne
  · exact fun hne => Reader.ReadDouble_mismatch lim r hb hne
  · exact fun hne => Reader.ReadBlobChunk_mismatch lim dst r hb hne
  · exact fun hne => Reader.readChunkableBlob_mismatch lim _ dst r hb (by simp) hne
  · exact fun hne => Reader.readChunkableBlob_mismatch lim _ dst r hb (by simp) hne
  · exact fun hne => Reader.readSimple_mismatch lim _ dst r hb hne
  · exact fun hne => Reader.readSimple_mismatch lim _ dst r hb hne
  · exact fun hne => Reader.ReadVerbatimString_mismatch lim dst r hb hne

/-- Witness for claim C10's amended theorem at a concrete input: the number
lead byte colon with tail 1CRLF, against ReadNull and ReadArrayHeader. -/
theorem c10_type_mismatch_atomicity_witness :
    typeOfByte 58 ≠ RType.invalid ∧
    Reader.ReadNull [58, 49, 13, 10] = (.error .unexpectedType, [58, 49, 13, 10]) ∧
    Reader.ReadArrayHeader [58, 49, 13, 10] = (.error .unexpectedType, [58, 49, 13, 10]) := by
  have h := c10_type_mismatch_atomicity (-1) [] 58 [49, 13, 10] (by decide)
  exact ⟨by decide, h.1 (by decide) (by decide), h.2.1 (by decide)⟩

/-- Claim C8 (code bug at the int64 minimum): the write-read round-trip
holds for every payload (including bytes NUL, CR, LF inside
length-prefixed blobs), every integer big number, every boolean, the
infinities of the double kind, null, the stream end, every in-range
aggregate count, every streamed header and every blob chunk - decoding the
bytes produced by the write operation returns exactly the written value
(with the chunked flag false for non-streamed blobs) and leaves the stream
at the following byte, so re-writing the decoded value reproduces the
byte-identical wire output.  For numbers it holds for every int64 value
except the minimum, which the claim also covers but the code fails: the
final two conjuncts exhibit the exact bytes WriteNumber emits for
-9223372036854775808 and show ReadNumber rejecting precisely those bytes
with the overflow error, so the reader rejects the writer's own output at
that in-range input.  A negative size limit (no limit) keeps the size
check out of the way. -/
theorem c8_write_read_roundtrip (lim : Int) (s p body rest : List Nat) (n m : Int) (bl : Bool)
    (hlim : lim < 0)
    (hbody : (body.length : Int) < 9223372036854775808)
    (hvlen : (p.length : Int) + 1 + s.length < 9223372036854775808)
    (hnlo : -9223372036854775808 < n) (hnhi : n < 9223372036854775808)
    (hmb : m < 9223372036854775808) :
    Reader.ReadBlobString lim [] (Writer.WriteBlobString body ++ rest) = (.ok (body, false), rest) ∧
    Reader.ReadBlobError lim [] (Writer.WriteBlobError body ++ rest) = (.ok (body, false), rest) ∧
    (∀ w, Writer.WriteVerbatimString p s = .ok w →
      Reader.ReadVerbatimString lim [] (w ++ rest) = (.ok (p ++ 58 :: s), rest)) ∧
    (∀ w, Writer.WriteSimpleString s = .ok w →
      Reader.ReadSimpleString lim [] (w ++ rest) = (.ok s, rest)) ∧
    (∀ w, Writer.WriteSimpleError s = .ok w →
      Reader.ReadSimpleError lim [] (w ++ rest) = (.ok s, rest)) ∧
    Reader.ReadNumber (Writer.WriteNumber n ++ rest) = (.ok n, rest) ∧
    Reader.ReadBigNumber lim (Writer.WriteBigNumber n ++ rest) = (.ok n, rest) ∧
    Reader.ReadBoolean lim (Writer.WriteBoolean bl ++ rest) = (.ok bl, rest) ∧
    (∀ w, Writer.WriteDouble .inf = some w →
      Reader.ReadDouble lim (w ++ rest) = (.ok .inf, rest)) ∧
    (∀ w, Writer.WriteDouble .negInf = some w →
      Reader.ReadDouble lim (w ++ rest) = (.ok .negInf, rest)) ∧
    Reader.ReadNull (Writer.WriteNull ++ rest) = (.ok (), rest) ∧
    Reader.ReadEnd (Writer.WriteEnd ++ rest) = (.ok (), rest) ∧
    (∀ w, Writer.WriteArrayHeader m = .ok w →
      Reader.ReadArrayHeader (w ++ rest) = (.ok (m, false), rest)) ∧
    (∀ w, Writer.WriteAttributeHeader m = .ok w →
      Reader.ReadAttributeHeader (w ++ rest) = (.ok (m, false), rest)) ∧
    (∀ w, Writer.WriteMapHeader m = .ok w →
      Reader.ReadMapHeader (w ++ rest) = (.ok (m, false), rest)) ∧
    (∀ w, Writer.WritePushHeader m = .ok w →
      Reader.ReadPushHeader (w ++ rest) = (.ok (m, false), rest)) ∧
    (∀ w, Writer.WriteSetHeader m = .ok w →
      Reader.ReadSetHeader (w ++ rest) = (.ok (m, false), rest)) ∧
    Reader.ReadArrayHeader (Writer.WriteArrayStreamHeader ++ rest) = (.ok (-1, true), rest) ∧
    Reader.ReadAttributeHeader (Writer.WriteAttributeStreamHeader ++ rest) = (.ok (-1, true), rest) ∧
    Reader.ReadMapHeader (Writer.WriteMapStreamHeader ++ rest) = (.ok (-1, true), rest) ∧
    Reader.ReadPushHeader (Writer.WritePushStreamHeader ++ rest) = (.ok (-1, true), rest) ∧
    Reader.ReadSetHeader (Writer.WriteSetStreamHeader ++ rest) = (.ok (-1, true), rest) ∧
    Reader.ReadBlobString lim [] (Writer.WriteBlobStringStreamHeader ++ rest) = (.ok ([], true), rest) ∧
    Reader.ReadBlobError lim [] (Writer.WriteBlobErrorStreamHeader ++ rest) = (.ok ([], true), rest) ∧
    Reader.ReadBlobChunk lim [] (Writer.WriteBlobChunk [] ++ rest) = (.ok ([], true), rest) ∧
    (body ≠ [] →
      Reader.ReadBlobChunk lim [] (Writer.WriteBlobChunk body ++ rest) = (.ok (body, false), rest)) ∧
    Writer.WriteNumber (-9223372036854775808) =
      [58, 45, 57, 50, 50, 51, 51, 55, 50, 48, 51, 54, 56, 53, 52, 55, 55, 53, 56, 48, 56, 13, 10] ∧
    Reader.ReadNumber
        ([58, 45, 57, 50, 50, 51, 51, 55, 50, 48, 51, 54, 56, 53, 52, 55, 55, 53, 56, 48, 56, 13, 10] ++ rest) =
      (.error .overflow, 13 :: 10 :: rest) := by
  refine ⟨?_, ?_, ?_, ?_, ?_, ?_, ?_, ?_, ?_, ?_, ?_, ?_, ?_, ?_, ?_, ?_, ?_, ?_, ?_, ?_, ?_,
    ?_, ?_, ?_, ?_, ?_, ?_, ?_⟩
  · exact Reader.readChunkableBlob_write_read .blobString body rest (by simp) hlim hbody
  · exact Reader.readChunkableBlob_write_read .blobError body rest (by simp) hlim hbody
  · exact fun w hw => Reader.ReadVerbatimString_write_read p s rest hlim hvlen hw
  · exact fun w hw => Reader.readSimple_write_roundtrip .simpleString s rest (by simp) hlim hw
  · exact fun w hw => Reader.readSimple_write_roundtrip .simpleError s rest (by simp) hlim hw
  · exact Reader.ReadNumber_write_read n rest hnlo hnhi
  · exact Reader.ReadBigNumber_write_read n rest hlim
  · exact Reader.ReadBoolean_write_read bl rest hlim
  · intro w hw
    injection hw with hw2
    subst hw2
    exact Reader.ReadDouble_inf_read rest hlim
  · intro w hw
    injection hw with hw2
    subst hw2
    exact Reader.ReadDouble_negInf_read rest hlim
  · rfl
  · rfl
  · exact fun w hw => Reader.readAggregateHeader_write_roundtrip .array rest (by simp) hmb hw
  · exact fun w hw => Reader.readAggregateHeader_write_roundtrip .attribute rest (by simp) hmb hw
  · exact fun w hw => Reader.readAggregateHeader_write_roundtrip .map rest (by simp) hmb hw
  · exact fun w hw => Reader.readAggregateHeader_write_roundtrip .push rest (by simp) hmb hw
  · exact fun w hw => Reader.readAggregateHeader_write_roundtrip .set rest (by simp) hmb hw
  · rfl
  · rfl
  · rfl
  · rfl
  · rfl
  · rfl
  · rfl
  · rfl
  · exact fun hne => Reader.ReadBlobChunk_write_read body rest hne hlim hbody
  · exact writeNumber_min_int64
  · rfl

/-- Witness for claim C8 at concrete inputs: a blob whose body holds NUL,
CR and LF, the number -5, the count 2 and the boolean true. -/
theorem c8_write_read_roundtrip_witness :
    ((-1 : Int) < 0) ∧
    Reader.ReadBlobString (-1) [] (Writer.WriteBlobString [0, 13, 10] ++ []) =
      (.ok ([0, 13, 10], false), []) ∧
    Reader.ReadNumber (Writer.WriteNumber (-5) ++ []) = (.ok (-5), []) ∧
    Reader.ReadBoolean (-1) (Writer.WriteBoolean true ++ []) = (.ok true, []) := by
  have h := c8_write_read_roundtrip (-1) [104, 105] [116, 120, 116] [0, 13, 10] [] (-5) 2 true
    (by norm_num) (by norm_num) (by norm_num) (by norm_num) (by norm_num) (by norm_num)
  exact ⟨by norm_num, h.1, h.2.2.2.2.2.1, h.2.2.2.2.2.2.2.1⟩

/-- Claim C1: the skip engine.  Exactness: for every syntactically valid
wire value (arbitrary nesting, counted and streamed aggregates, chunked
blobs, every scalar kind, the legacy nulls), Discard with nesting enabled
terminates with the value's kind and consumes exactly the value's bytes,
leaving the stream positioned at the start of the next value.  Totality:
on any input whatsoever, the fueled engine with fuel above the stream
length never runs out (Discard supplies such fuel), so the recursion
always bottoms out.  Progress: every successful recursive skip consumes at
least one lead byte of the source, and otherwise an error is returned; the
engine can never loop without making input progress. -/
theorem c1_discard_skip_engine (lim lim2 : Int) (v : WireVal) (rest l : List Nat)
    (f : Nat) (nested : Bool)
    (hlim : lim < 0) (hwf : v.wf = true) (hf : l.length < f) :
    Reader.Discard true lim (v.enc ++ rest) = (.ok v.kind, rest) ∧
    Reader.discardF f nested lim2 l ≠ none ∧
    (∀ t l', Reader.discardF f nested lim2 l = some (.ok t, l') → l'.length < l.length) := by
  refine ⟨?_, ?_, ?_⟩
  · unfold Reader.Discard
    rw [(Reader.discard_exact ((v.enc ++ rest).length + 1)).1 lim v rest hlim hwf (by omega)]
  · exact ((Reader.discard_total f).1 nested lim2 l hf).1
  · exact ((Reader.discard_total f).1 nested lim2 l hf).2

/-- Witness for claim C1 at a concrete nested value: an array holding a
number and a blob string whose body contains NUL, CR and LF. -/
theorem c1_discard_skip_engine_witness :
    ((-1 : Int) < 0 ∧ (WireVal.arr [WireVal.number 5, WireVal.blobString [0, 13, 10]]).wf = true ∧
      ([] : List Nat).length < 1) ∧
    Reader.Discard true (-1) ((WireVal.arr [WireVal.number 5, WireVal.blobString [0, 13, 10]]).enc ++ [46]) =
      (.ok RType.array, [46]) ∧
    Reader.discardF 1 true (-1) [] ≠ none := by
  have h := c1_discard_skip_engine (-1) (-1)
    (WireVal.arr [WireVal.number 5, WireVal.blobString [0, 13, 10]])
    [46] [] 1 true (by norm_num) (by simp [WireVal.wf, wfList]) (by simp)
  exact ⟨⟨by norm_num, by simp [WireVal.wf, wfList], by simp⟩, h.1, h.2.1⟩

end Resp3
